import Mathlib

/-
Verification development for the py_load_epar load/merge engine.

Shallow embedding of the PostgreSQL load adapter
(src/py_load_epar/db/postgres.py) and the ETL orchestrator
(src/py_load_epar/etl/orchestrator.py).  SQL side effects are modelled
by explicit statements interpreted over an in-memory relational state;
the psycopg2 connection (autocommit off) is modelled as a pair of
committed/current database states with an aborted flag, matching
PostgreSQL transaction semantics (any statement after an error raises
until rollback; commit of an aborted transaction is a rollback).
-/

namespace PyLoadEpar

/-- SQL/Python values stored in table cells.  Dates are day indices;
datetimes are minute timestamps (1440 minutes per day). -/
inductive Value
  | null
  | str (s : String)
  | int (n : Int)
  | bool (b : Bool)
  | date (d : Nat)
  | datetime (t : Nat)
deriving DecidableEq, Repr

/-- Day index of a date or datetime value (datetime.date() in Python). -/
def valDay : Value → Nat
  | .date d => d
  | .datetime t => t / 1440
  | _ => 0

/-- Minute timestamp of a date or datetime value; a date counts as
midnight of its day. -/
def valMinutes : Value → Nat
  | .date d => d * 1440
  | .datetime t => t
  | _ => 0

/-- SQL equality: comparisons against NULL are never true (this is how
the unique index behind ON CONFLICT and the soft-delete join behave). -/
def sqlEq : Value → Value → Bool
  | .null, _ => false
  | _, .null => false
  | a, b => a == b

/-- A table row: association list from column name to value, in model
field order. -/
abbrev Row := List (String × Value)

/-- A table: list of rows in physical order. -/
abbrev Table := List Row

/-- Value of a column in a row; a missing column reads as NULL. -/
def getCol (r : Row) (c : String) : Value :=
  match r.find? (fun p => p.fst == c) with
  | some p => p.snd
  | none => .null

/-- Column names of a row, in order. -/
def rowCols (r : Row) : List String := r.map (fun p => p.fst)

/-- Key-columns match between two rows, with SQL NULL semantics:
NULL key values never match (mirrors the unique-index conflict test of
ON CONFLICT and the pk_match_clause of _perform_soft_delete). -/
def pkMatch (pks : List String) (a b : Row) : Bool :=
  pks.all (fun c => sqlEq (getCol a c) (getCol b c))

/-- The row actually inserted by INSERT INTO target (cols) SELECT cols:
the listed columns of the source row, in that order. -/
def projectRow (cols : List String) (r : Row) : Row :=
  cols.map (fun c => (c, getCol r c))

/-- update_cols of PostgresAdapter.finalize: the model columns that are
not primary-key columns (the SET list of ON CONFLICT DO UPDATE). -/
def updateCols (cols pks : List String) : List String :=
  cols.filter (fun c => !(pks.contains c))

/-- Effect of ON CONFLICT ... DO UPDATE SET col = EXCLUDED.col on one
conflicting target row: every non-key model column takes the staged
(incoming) row's value, all other columns are untouched. -/
def setNonKey (cols pks : List String) (t s : Row) : Row :=
  t.map (fun p => if (updateCols cols pks).contains p.fst then (p.fst, getCol s p.fst) else p)

/-- Effect on the target table of merging one staged row, as performed
by the merge SQL of PostgresAdapter.finalize: insert, or on a key
conflict update every non-key column from the staged row; with no
non-key columns the conflict action is DO NOTHING. -/
def upsertRow (cols pks : List String) (target : Table) (srow : Row) : Table :=
  let s := projectRow cols srow
  if target.any (fun t => pkMatch pks t s) then
    if updateCols cols pks = [] then target
    else target.map (fun t => if pkMatch pks t s then setNonKey cols pks t s else t)
  else target ++ [s]

/-- Effect of the whole INSERT ... SELECT ... ON CONFLICT statement of
PostgresAdapter.finalize for strategy DELTA: staged rows are merged into
the target in staging order. -/
def mergeDelta (cols pks : List String) (target staging : Table) : Table :=
  staging.foldl (upsertRow cols pks) target

/-- Two staged rows conflict on the key (used below: PostgreSQL rejects
an INSERT ... ON CONFLICT DO UPDATE that would affect the same target
row twice with a cardinality-violation error). -/
def hasDupKeys (cols pks : List String) : Table → Bool
  | [] => false
  | r :: rs =>
    rs.any (fun r2 => pkMatch pks (projectRow cols r) (projectRow cols r2)) || hasDupKeys cols pks rs

/-- Effect of the soft-delete UPDATE of _perform_soft_delete: target
rows whose delete column currently equals the active value and whose
key matches no staging row are set to the inactive value. -/
def softDelete (pks : List String) (col : String) (inactiveV activeV : Value)
    (staging : Table) (target : Table) : Table :=
  target.map (fun t =>
    if getCol t col == activeV && !(staging.any (fun s => pkMatch pks t s)) then
      t.map (fun p => if p.fst == col then (p.fst, inactiveV) else p)
    else t)

/-- First-occurrence deduplication with an accumulator of already-seen
values (the key order of a Python dict built by insertion). -/
def firstDedupAux : List Value → List Value → List Value
  | _, [] => []
  | seen, x :: xs =>
    if seen.contains x then firstDedupAux seen xs
    else x :: firstDedupAux (x :: seen) xs

/-- Distinct values of a list in order of first occurrence. -/
def firstDedup (l : List Value) : List Value := firstDedupAux [] l

/-- Python dict-comprehension dedup of _process_organizations and
_process_substances: one row per key value, keys in order of first
occurrence, each key keeping the last row seen with that key. -/
def dedupLastWins (key : String) (rows : List Row) : List Row :=
  (firstDedup (rows.map (fun r => getCol r key))).map (fun k =>
    match (rows.filter (fun r => getCol r key == k)).getLast? with
    | some r => r
    | none => [])

/-- One step of the running high-water-mark update of run_etl: the
record's last_update_date_source (a date) replaces the mark when the
mark is absent or the record's date is strictly later than the mark's
day (datetime marks are first reduced to their date). -/
def hwmStep (acc : Option Value) (rd : Nat) : Option Value :=
  match acc with
  | none => some (.date rd)
  | some v => if valDay v < rd then some (.date rd) else acc

/-- The high-water-mark after folding a run's loaded records, in load
order (run_etl processes records batch by batch, in stream order). -/
def hwmFold (init : Option Value) (rds : List Nat) : Option Value :=
  rds.foldl hwmStep init

/-- _batch_iterator: greedy chunks of at most the batch size, final
partial chunk kept. -/
def batchAcc {α : Type} (l : List α) (acc : List α) (n : Nat) : List (List α) :=
  match l with
  | [] => if acc.isEmpty then [] else [acc]
  | x :: xs =>
    let acc2 := acc ++ [x]
    if n ≤ acc2.length then acc2 :: batchAcc xs [] n else batchAcc xs acc2 n

/-- ASCII uppercase of one character (Python str.upper on ASCII input). -/
def asciiUpperChar (c : Char) : Char :=
  if 'a' ≤ c && c ≤ 'z' then Char.ofNat (c.toNat - 32) else c

/-- ASCII uppercase of a string: the load_strategy.upper() comparisons
of prepare_load and finalize. -/
def pyUpper (s : String) : String := String.mk (s.data.map asciiUpperChar)

/-- One row of the pipeline_execution ledger (wall-clock timestamps are
omitted: no claim depends on them). -/
structure LedgerRow where
  executionId : Nat
  status : String
  loadStrategy : String
  recordsProcessed : Option Int
  highWaterMark : Option Value
deriving DecidableEq, Repr

/-- The relational state: named tables plus the pipeline_execution
ledger. -/
structure Database where
  tables : List (String × Table)
  ledger : List LedgerRow
deriving DecidableEq, Repr

/-- Contents of a named table, if it exists. -/
def Database.getTable? (db : Database) (n : String) : Option Table :=
  (db.tables.find? (fun p => p.fst == n)).map (fun p => p.snd)

/-- Replace (or create) a named table. -/
def Database.setTable (db : Database) (n : String) (t : Table) : Database :=
  if (db.tables.find? (fun p => p.fst == n)).isSome then
    { db with tables := db.tables.map (fun p => if p.fst == n then (n, t) else p) }
  else
    { db with tables := db.tables ++ [(n, t)] }

/-- Remove a named table. -/
def Database.dropTable (db : Database) (n : String) : Database :=
  { db with tables := db.tables.filter (fun p => !(p.fst == n)) }

/-- Database errors surfaced by statement execution. -/
inductive DbError
  | undefinedTable
  | duplicateTable
  | cardinalityViolation
deriving DecidableEq, Repr

/-- The SQL statements the adapter issues, abstracted to their
semantic content. -/
inductive Stmt
  | truncate (table : String)
  | dropTableIfExists (table : String)
  | createUnloggedLike (staging target : String)
  | copyFrom (table : String) (columns : List String) (rows : List Row)
  | mergeInto (target staging : String) (columns pks : List String)
  | softDeleteUpd (target staging : String) (pks : List String)
      (col : String) (inactiveV activeV : Value)
  | dropTable (table : String)
  | insertLedgerStart (strategy : String) (eid : Nat)
  | updateLedgerSuccess (eid : Nat) (records : Int) (hwm : Option Value)
  | updateLedgerFailure (eid : Nat)
deriving DecidableEq, Repr

/-- Modelled from the spec: the target schema (not under src/) enforces
foreign keys main→organizations, main→substances, link→main,
link→substances, documents→main; prepare_load's TRUNCATE ... CASCADE
therefore also truncates the tables referencing the truncated one. -/
def cascadeTargets (n : String) : List String :=
  if n == ("epar_index") then [("epar_substance_link"), ("epar_documents")]
  else if n == ("organizations") then
    [("epar_index"), ("epar_substance_link"), ("epar_documents")]
  else if n == ("substances") then
    [("epar_index"), ("epar_substance_link"), ("epar_documents")]
  else []

/-- PostgreSQL semantics of each statement on a database state.
ON CONFLICT DO UPDATE raises a cardinality violation when two staged
rows would affect the same target row (DO NOTHING tolerates this). -/
def applyStmt (db : Database) : Stmt → Except DbError Database
  | .truncate n =>
    match db.getTable? n with
    | some _ =>
      .ok ((cascadeTargets n).foldl
        (fun acc m => if (acc.getTable? m).isSome then acc.setTable m [] else acc)
        (db.setTable n []))
    | none => .error .undefinedTable
  | .dropTableIfExists n => .ok (db.dropTable n)
  | .createUnloggedLike s t =>
    match db.getTable? t with
    | some _ =>
      if (db.getTable? s).isSome then .error .duplicateTable
      else .ok (db.setTable s [])
    | none => .error .undefinedTable
  | .copyFrom n _ rows =>
    match db.getTable? n with
    | some tbl => .ok (db.setTable n (tbl ++ rows))
    | none => .error .undefinedTable
  | .mergeInto t s cols pks =>
    match db.getTable? t, db.getTable? s with
    | some tt, some st =>
      if !(updateCols cols pks).isEmpty && hasDupKeys cols pks st then
        .error .cardinalityViolation
      else .ok (db.setTable t (mergeDelta cols pks tt st))
    | _, _ => .error .undefinedTable
  | .softDeleteUpd t s pks col inactiveV activeV =>
    match db.getTable? t, db.getTable? s with
    | some tt, some st => .ok (db.setTable t (softDelete pks col inactiveV activeV st tt))
    | _, _ => .error .undefinedTable
  | .dropTable n =>
    match db.getTable? n with
    | some _ => .ok (db.dropTable n)
    | none => .error .undefinedTable
  | .insertLedgerStart strat eid =>
    .ok { db with ledger := db.ledger ++ [⟨eid, ("RUNNING"), strat, none, none⟩] }
  | .updateLedgerSuccess eid records hwm =>
    .ok { db with ledger := db.ledger.map (fun r =>
      if r.executionId == eid then
        { r with status := ("SUCCESS"), recordsProcessed := some records, highWaterMark := hwm }
      else r) }
  | .updateLedgerFailure eid =>
    .ok { db with ledger := db.ledger.map (fun r =>
      if r.executionId == eid then { r with status := ("FAILED") } else r) }

/-- Python-level exceptions surfaced by the adapter model. -/
inductive PyErr
  | connectionError
  | valueError (msg : String)
  | dbError (e : DbError)
  | inFailedSqlTransaction
deriving DecidableEq, Repr

/-- A psycopg2 connection with autocommit off: the last committed
state, the state visible inside the open transaction, and whether the
transaction is aborted by a previous error. -/
structure Conn where
  committed : Database
  current : Database
  aborted : Bool
deriving DecidableEq, Repr

/-- Execute one statement on the connection.  In an aborted transaction
every statement raises InFailedSqlTransaction; a statement error aborts
the transaction. -/
def Conn.exec (c : Conn) (s : Stmt) : Conn × Option PyErr :=
  if c.aborted then (c, some .inFailedSqlTransaction)
  else
    match applyStmt c.current s with
    | .ok db => ({ c with current := db }, none)
    | .error e => ({ c with aborted := true }, some (.dbError e))

/-- conn.commit(): publishes the transaction; committing an aborted
transaction rolls it back instead. -/
def Conn.commitT (c : Conn) : Conn :=
  if c.aborted then { committed := c.committed, current := c.committed, aborted := false }
  else { committed := c.current, current := c.current, aborted := false }

/-- conn.rollback(): discards the open transaction. -/
def Conn.rollbackT (c : Conn) : Conn :=
  { committed := c.committed, current := c.committed, aborted := false }

/-- Kinds of observable adapter actions. -/
inductive EvKind
  | execStmt (s : Stmt)
  | commitEv
  | rollbackEv
deriving DecidableEq, Repr

/-- One observable action together with the committed database state
right after it (used to state properties that must hold at every point
of a run). -/
structure Ev where
  kind : EvKind
  committedAfter : Database
deriving DecidableEq, Repr

/-- The adapter/orchestrator computation type: a state transformer over
the optional connection (None before connect()), producing the trace of
observable actions and either a value or a raised exception. -/
def EtlM (α : Type) : Type :=
  Option Conn → (Option Conn × List Ev × Except PyErr α)

/-- Monadic return. -/
def EtlM.pureM {α : Type} (a : α) : EtlM α := fun c => (c, [], Except.ok a)

/-- Monadic bind: sequencing with trace concatenation and exception
propagation. -/
def EtlM.bindM {α β : Type} (x : EtlM α) (f : α → EtlM β) : EtlM β := fun c =>
  match x c with
  | (c1, evs1, Except.ok a) =>
    match f a c1 with
    | (c2, evs2, r) => (c2, evs1 ++ evs2, r)
  | (c1, evs1, Except.error e) => (c1, evs1, Except.error e)

instance : Monad EtlM where
  pure := EtlM.pureM
  bind := EtlM.bindM

/-- Raise a Python exception. -/
def throwM {α : Type} (e : PyErr) : EtlM α := fun c? => (c?, [], Except.error e)

/-- The `if not self.conn: raise ConnectionError(...)` guard at the top
of every data/ledger operation of PostgresAdapter. -/
def checkConn : EtlM Unit := fun c? =>
  match c? with
  | none => (none, [], Except.error .connectionError)
  | some c => (some c, [], Except.ok ())

/-- Read the connection (raising ConnectionError when absent). -/
def peekConn : EtlM Conn := fun c? =>
  match c? with
  | none => (none, [], Except.error .connectionError)
  | some c => (some c, [], Except.ok c)

/-- Execute a statement through the connection, emitting its event. -/
def execM (s : Stmt) : EtlM Unit := fun c? =>
  match c? with
  | none => (none, [], Except.error .connectionError)
  | some c =>
    let r := c.exec s
    (some r.fst, [⟨.execStmt s, r.fst.committed⟩],
      match r.snd with
      | none => Except.ok ()
      | some e => Except.error e)

/-- conn.commit() as an action with its event. -/
def commitM : EtlM Unit := fun c? =>
  match c? with
  | none => (none, [], Except.error .connectionError)
  | some c => (some c.commitT, [⟨.commitEv, c.commitT.committed⟩], Except.ok ())

/-- PostgresAdapter.prepare_load: FULL truncates the target and returns
it; DELTA drops and recreates an unlogged staging table shaped like the
target and returns it; any other strategy raises ValueError before any
statement is executed. -/
def prepare_load (strategy target : String) : EtlM String := fun c? =>
  match c? with
  | none => (none, [], Except.error .connectionError)
  | some c =>
    if pyUpper strategy == ("FULL") then
      let r := c.exec (.truncate target)
      (some r.fst, [⟨.execStmt (.truncate target), r.fst.committed⟩],
        match r.snd with
        | none => Except.ok target
        | some e => Except.error e)
    else if pyUpper strategy == ("DELTA") then
      let r1 := c.exec (.dropTableIfExists (("staging_") ++ target))
      match r1.snd with
      | some e =>
        (some r1.fst,
         [⟨.execStmt (.dropTableIfExists (("staging_") ++ target)), r1.fst.committed⟩],
         Except.error e)
      | none =>
        let r2 := r1.fst.exec (.createUnloggedLike (("staging_") ++ target) target)
        (some r2.fst,
         [⟨.execStmt (.dropTableIfExists (("staging_") ++ target)), r1.fst.committed⟩,
          ⟨.execStmt (.createUnloggedLike (("staging_") ++ target) target), r2.fst.committed⟩],
         match r2.snd with
         | none => Except.ok (("staging_") ++ target)
         | some e => Except.error e)
    else (some c, [], Except.error (.valueError (("Unknown load strategy: ") ++ strategy)))

/-- PostgresAdapter.bulk_load_batch: streams the tuples through COPY
FROM STDIN into the destination; cursor.rowcount after COPY is the
number of rows copied (returned as-is unless it were -1); a database
error triggers self.rollback() and re-raises. -/
def bulk_load_batch (tuples : List (List Value)) (target : String)
    (columns : List String) : EtlM Int := fun c? =>
  match c? with
  | none => (none, [], Except.error .connectionError)
  | some c =>
    let rows : Table := tuples.map (fun t => columns.zip t)
    let r := c.exec (.copyFrom target columns rows)
    match r.snd with
    | none =>
      let rowcount : Int := Int.ofNat rows.length
      (some r.fst, [⟨.execStmt (.copyFrom target columns rows), r.fst.committed⟩],
        Except.ok (if rowcount == (-1 : Int) then 0 else rowcount))
    | some e =>
      (some r.fst.rollbackT,
        [⟨.execStmt (.copyFrom target columns rows), r.fst.committed⟩,
         ⟨.rollbackEv, r.fst.rollbackT.committed⟩],
        Except.error e)

/-- finalize's soft_delete_settings dict: each entry may be missing. -/
structure SoftDeleteSettings where
  column : Option String
  inactiveValue : Option Value
  activeValue : Option Value
deriving DecidableEq, Repr

/-- The completeness test of _perform_soft_delete (`not all([...])`
skips with a warning): column truthy, inactive and active not None. -/
def SoftDeleteSettings.complete (s : SoftDeleteSettings) : Bool :=
  (match s.column with
   | some c => !(c == (""))
   | none => false)
  && s.inactiveValue.isSome && s.activeValue.isSome

/-- The soft-delete statement finalize issues for complete settings. -/
def sdStmt (target st : String) (pks : List String) (sd : SoftDeleteSettings) : Stmt :=
  .softDeleteUpd target st pks (sd.column.getD (""))
    (sd.inactiveValue.getD .null) (sd.activeValue.getD .null)

/-- PostgresAdapter.finalize: for DELTA, after validating that staging
table, pydantic model and key columns are all present (truthy), runs
the upsert merge, optionally the soft-delete UPDATE, drops the staging
table and commits; for any other strategy it only commits. -/
def finalize (strategy target : String) (staging? : Option String)
    (modelCols? : Option (List String)) (pks? : Option (List String))
    (softDeleteSettings? : Option SoftDeleteSettings) : EtlM Unit := fun c? =>
  match c? with
  | none => (none, [], Except.error .connectionError)
  | some c =>
    if pyUpper strategy == ("DELTA") then
      match staging?, modelCols?, pks? with
      | some st, some cols, some pks =>
        if st == ("") || pks.isEmpty then
          (some c, [], Except.error (.valueError ("For DELTA strategy, staging_table, pydantic_model and primary_key_columns must be provided.")))
        else
          let r1 := c.exec (.mergeInto target st cols pks)
          let ev1 : Ev := ⟨.execStmt (.mergeInto target st cols pks), r1.fst.committed⟩
          match r1.snd with
          | some e => (some r1.fst, [ev1], Except.error e)
          | none =>
            let step2 : Conn × List Ev × Option PyErr :=
              match softDeleteSettings? with
              | some sd =>
                if sd.complete then
                  let r2 := r1.fst.exec (sdStmt target st pks sd)
                  (r2.fst, [⟨.execStmt (sdStmt target st pks sd), r2.fst.committed⟩], r2.snd)
                else (r1.fst, [], none)
              | none => (r1.fst, [], none)
            match step2.snd.snd with
            | some e => (some step2.fst, ev1 :: step2.snd.fst, Except.error e)
            | none =>
              let r3 := step2.fst.exec (.dropTable st)
              let ev3 : Ev := ⟨.execStmt (.dropTable st), r3.fst.committed⟩
              match r3.snd with
              | some e => (some r3.fst, (ev1 :: step2.snd.fst) ++ [ev3], Except.error e)
              | none =>
                (some r3.fst.commitT,
                 (ev1 :: step2.snd.fst) ++ [ev3, ⟨.commitEv, r3.fst.commitT.committed⟩],
                 Except.ok ())
      | _, _, _ =>
        (some c, [], Except.error (.valueError ("For DELTA strategy, staging_table, pydantic_model and primary_key_columns must be provided.")))
    else (some c.commitT, [⟨.commitEv, c.commitT.committed⟩], Except.ok ())

/-- MAX(high_water_mark) over SUCCESS+DELTA ledger rows (SQL MAX skips
NULLs and returns NULL on an empty set). -/
def ledgerMaxHwm (ledger : List LedgerRow) : Option Value :=
  ((ledger.filter (fun r => r.status == ("SUCCESS") && r.loadStrategy == ("DELTA"))).filterMap
    (fun r => r.highWaterMark)).foldl
    (fun acc v =>
      match acc with
      | none => some v
      | some a => if valMinutes a < valMinutes v then some v else some a) none

/-- PostgresAdapter.get_latest_high_water_mark (a read-only query; no
state change). -/
def get_latest_high_water_mark : EtlM (Option Value) := fun c? =>
  match c? with
  | none => (none, [], Except.error .connectionError)
  | some c => (some c, [], Except.ok (ledgerMaxHwm c.current.ledger))

/-- execution_id assignment of the SERIAL primary key. -/
def nextExecutionId (ledger : List LedgerRow) : Nat :=
  (ledger.map (fun r => r.executionId)).foldl Nat.max 0 + 1

/-- PostgresAdapter.log_pipeline_start: inserts a RUNNING ledger row and
commits immediately, returning the execution id. -/
def log_pipeline_start (strategy : String) : EtlM Nat := fun c? =>
  match c? with
  | none => (none, [], Except.error .connectionError)
  | some c =>
    let eid := nextExecutionId c.current.ledger
    let r := c.exec (.insertLedgerStart strategy eid)
    match r.snd with
    | some e =>
      (some r.fst, [⟨.execStmt (.insertLedgerStart strategy eid), r.fst.committed⟩],
       Except.error e)
    | none =>
      (some r.fst.commitT,
       [⟨.execStmt (.insertLedgerStart strategy eid), r.fst.committed⟩,
        ⟨.commitEv, r.fst.commitT.committed⟩],
       Except.ok eid)

/-- PostgresAdapter.log_pipeline_success: marks the row SUCCESS with
counts and the new high-water mark, then commits the connection. -/
def log_pipeline_success (eid : Nat) (records : Int) (hwm : Option Value) : EtlM Unit := fun c? =>
  match c? with
  | none => (none, [], Except.error .connectionError)
  | some c =>
    let r := c.exec (.updateLedgerSuccess eid records hwm)
    match r.snd with
    | some e =>
      (some r.fst, [⟨.execStmt (.updateLedgerSuccess eid records hwm), r.fst.committed⟩],
       Except.error e)
    | none =>
      (some r.fst.commitT,
       [⟨.execStmt (.updateLedgerSuccess eid records hwm), r.fst.committed⟩,
        ⟨.commitEv, r.fst.commitT.committed⟩],
       Except.ok ())

/-- PostgresAdapter.log_pipeline_failure: marks the row FAILED, then
commits the connection (note: the same connection as the data
transaction). -/
def log_pipeline_failure (eid : Nat) : EtlM Unit := fun c? =>
  match c? with
  | none => (none, [], Except.error .connectionError)
  | some c =>
    let r := c.exec (.updateLedgerFailure eid)
    match r.snd with
    | some e =>
      (some r.fst, [⟨.execStmt (.updateLedgerFailure eid), r.fst.committed⟩],
       Except.error e)
    | none =>
      (some r.fst.commitT,
       [⟨.execStmt (.updateLedgerFailure eid), r.fst.committed⟩,
        ⟨.commitEv, r.fst.commitT.committed⟩],
       Except.ok ())

/-- PostgresAdapter.rollback: a no-op without a connection, otherwise
conn.rollback(); never raises. -/
def rollback : EtlM Unit := fun c? =>
  match c? with
  | none => (none, [], Except.ok ())
  | some c => (some c.rollbackT, [⟨.rollbackEv, c.rollbackT.committed⟩], Except.ok ())

/-- PostgresAdapter.close: a no-op without a connection; closing the
connection neither commits nor rolls back anything, so the database
state is unchanged; never raises. -/
def close : EtlM Unit := fun c? => (c?, [], Except.ok ())

/-- Field order of the EparIndex pydantic model (models.py). -/
def eparIndexCols : List String :=
  [("epar_id"), ("medicine_name"), ("authorization_status"),
   ("first_authorization_date"), ("withdrawal_date"), ("last_update_date_source"),
   ("active_substance_raw"), ("marketing_authorization_holder_raw"),
   ("therapeutic_area"), ("mah_oms_id"), ("is_active"), ("source_url"),
   ("etl_load_timestamp"), ("etl_execution_id")]

/-- Field order of the Organization pydantic model. -/
def organizationsCols : List String :=
  [("oms_id"), ("organization_name"), ("country_code"), ("last_updated")]

/-- Field order of the Substance pydantic model. -/
def substancesCols : List String :=
  [("spor_substance_id"), ("substance_name"), ("last_updated")]

/-- Field order of the EparSubstanceLink pydantic model. -/
def eparSubstanceLinkCols : List String :=
  [("epar_id"), ("spor_substance_id")]

/-- record.model_dump(include=columns).values(): a row's values in the
given column order. -/
def rowToTuple (cols : List String) (r : Row) : List Value :=
  cols.map (fun c => getCol r c)

/-- One element of the transform_and_validate output stream: a validated
main record plus its derived link, organization and substance rows. -/
structure EtlTuple where
  record : Row
  links : List Row
  orgs : List Row
  subs : List Row
deriving DecidableEq, Repr

/-- _process_organizations: nothing on an empty list; otherwise dedup by
oms_id (last seen wins) and run one DELTA prepare/bulk/finalize cycle on
the organizations table keyed on oms_id. -/
def _process_organizations (organizations : List Row) : EtlM Int :=
  if organizations.isEmpty then pure 0
  else do
    let uniq := dedupLastWins ("oms_id") organizations
    let st ← prepare_load ("DELTA") ("organizations")
    let n ← bulk_load_batch (uniq.map (rowToTuple organizationsCols)) st organizationsCols
    finalize ("DELTA") ("organizations") (some st) (some organizationsCols)
      (some [("oms_id")]) none
    pure n

/-- _process_substances: as for organizations, keyed on
spor_substance_id. -/
def _process_substances (substances : List Row) : EtlM Int :=
  if substances.isEmpty then pure 0
  else do
    let uniq := dedupLastWins ("spor_substance_id") substances
    let st ← prepare_load ("DELTA") ("substances")
    let n ← bulk_load_batch (uniq.map (rowToTuple substancesCols)) st substancesCols
    finalize ("DELTA") ("substances") (some st) (some substancesCols)
      (some [("spor_substance_id")]) none
    pure n

/-- _process_substance_links: one DELTA cycle on the link table, keyed
on the full composite key (both columns are key columns, so the merge
is insert-only dedup). -/
def _process_substance_links (substance_links : List Row) : EtlM Int :=
  if substance_links.isEmpty then pure 0
  else do
    let st ← prepare_load ("DELTA") ("epar_substance_link")
    let n ← bulk_load_batch (substance_links.map (rowToTuple eparSubstanceLinkCols))
      st eparSubstanceLinkCols
    finalize ("DELTA") ("epar_substance_link") (some st) (some eparSubstanceLinkCols)
      (some [("epar_id"), ("spor_substance_id")]) none
    pure n

/-- One full DELTA load cycle against a target table, as driven by the
orchestrator helpers (prepare staging, bulk load the batch, finalize
with the model's columns and the given key columns). -/
def deltaCycle (target : String) (cols pks : List String)
    (tuples : List (List Value)) : EtlM Int := do
  let st ← prepare_load ("DELTA") target
  let n ← bulk_load_batch tuples st cols
  finalize ("DELTA") target (some st) (some cols) (some pks) none
  pure n

/-- The database state produced by one successful DELTA cycle on a
live connection (drop old staging, create empty staging, copy the
batch, merge into the target, drop staging). -/
def deltaCycleDb (db : Database) (target : String) (cols pks : List String)
    (tuples : List (List Value)) (T : Table) : Database :=
  ((((db.dropTable (("staging_") ++ target)).setTable (("staging_") ++ target) []).setTable
    (("staging_") ++ target) (tuples.map (fun t => cols.zip t))).setTable target
    (mergeDelta cols pks T (tuples.map (fun t => cols.zip t)))).dropTable
    (("staging_") ++ target)

/-- _process_documents: document discovery fetches and parses remote
HTML pages (external network I/O outside this embedding); it is
modelled as discovering no documents, after which the code takes the
`if not document_records: return 0` path and performs no database
action. -/
def _process_documents : EtlM Int := pure 0

/-- A record's CDC cursor (last_update_date_source), as a day index. -/
def recCursorDay (r : Row) : Nat := valDay (getCol r ("last_update_date_source"))

/-- The per-batch loop of run_etl (step 4): for each non-empty batch,
flatten and load master data, process documents, update the running
high-water mark over the batch's records, then bulk-load the records
into the main staging destination; link rows are accumulated for the
end of the run.  State: (total loaded, running mark, accumulated
links). -/
def loopBatches (mainStaging : String) :
    List (List EtlTuple) → Int × Option Value × List Row → EtlM (Int × Option Value × List Row)
  | [], st => pure st
  | batch :: rest, (total, hwm, linksAcc) =>
    if batch.isEmpty then loopBatches mainStaging rest (total, hwm, linksAcc)
    else do
      let flatOrgs := (batch.map (fun t => t.orgs)).flatten
      let flatSubs := (batch.map (fun t => t.subs)).flatten
      let linksAcc2 := linksAcc ++ (batch.map (fun t => t.links)).flatten
      let _ ← _process_organizations flatOrgs
      let _ ← _process_substances flatSubs
      let _ ← _process_documents
      let hwm2 := (batch.map (fun t => recCursorDay t.record)).foldl hwmStep hwm
      let n ← bulk_load_batch (batch.map (fun t => rowToTuple eparIndexCols t.record))
        mainStaging eparIndexCols
      loopBatches mainStaging rest (total + n, hwm2, linksAcc2)

/-- Steps 2-6 of run_etl (the body of its try block after
log_pipeline_start): prepare the main table, read the high-water mark
for DELTA, process all batches, finalize the main table keyed on
epar_id (no soft-delete settings are passed), then load the accumulated
substance links. -/
def run_etl_body (strategy : String) (batchSize : Nat) (tuples : List EtlTuple) :
    EtlM (Int × Option Value) := do
  let mainStaging ← prepare_load strategy ("epar_index")
  let hwm0 ←
    if pyUpper strategy == ("DELTA") then get_latest_high_water_mark
    else pure (none : Option Value)
  let r ← loopBatches mainStaging (batchAcc tuples [] batchSize) (0, hwm0, [])
  finalize strategy ("epar_index") (some mainStaging) (some eparIndexCols)
    (some [("epar_id")]) none
  let _ ← _process_substance_links r.2.2
  pure (r.1, r.2.1)

/-- The except-block of run_etl: if an execution id exists, first
log_pipeline_failure (on the same connection), then rollback, then
re-raise the original exception; an exception raised by
log_pipeline_failure itself propagates instead and skips the rollback,
exactly as in the Python try/except. -/
def handlerExcept (eid? : Option Nat) (e : PyErr) : EtlM Unit := fun c? =>
  match eid? with
  | none =>
    match rollback c? with
    | (c1, evs1, _) => (c1, evs1, Except.error e)
  | some eid =>
    match log_pipeline_failure eid c? with
    | (c1, evs1, Except.ok _) =>
      match rollback c1 with
      | (c2, evs2, _) => (c2, evs1 ++ evs2, Except.error e)
    | (c1, evs1, Except.error e2) => (c1, evs1, Except.error e2)

/-- run_etl: log start (own commit), run the body, log success on
success; on any exception run the except-block.  close() at the end is
a no-op on the database state. -/
def run_etl (strategy : String) (batchSize : Nat) (tuples : List EtlTuple) : EtlM Unit := fun c? =>
  match log_pipeline_start strategy c? with
  | (c1, evs1, Except.error e) =>
    match handlerExcept none e c1 with
    | (c2, evs2, r) => (c2, evs1 ++ evs2, r)
  | (c1, evs1, Except.ok eid) =>
    match run_etl_body strategy batchSize tuples c1 with
    | (c2, evs2, Except.error e) =>
      match handlerExcept (some eid) e c2 with
      | (c3, evs3, r) => (c3, evs1 ++ evs2 ++ evs3, r)
    | (c2, evs2, Except.ok res) =>
      match log_pipeline_success eid res.fst res.snd c2 with
      | (c3, evs3, Except.ok _) => (c3, evs1 ++ evs2 ++ evs3, Except.ok ())
      | (c3, evs3, Except.error e) =>
        match handlerExcept (some eid) e c3 with
        | (c4, evs4, r) => (c4, evs1 ++ evs2 ++ evs3 ++ evs4, r)

/-- Python str() of a non-None value as rendered by _format_value. -/
def pyStr : Value → String
  | .null => ("None")
  | .str s => s
  | .int n => toString n
  | .bool b => if b then ("True") else ("False")
  | .date d => toString d
  | .datetime t => toString t

/-- The escaping chain of _format_value (backslash first, then newline,
carriage return, tab), as a character-wise map: the four replacements
target distinct single characters and the later str.replace steps never
rewrite characters introduced by earlier ones, so the chain equals this
single pass. -/
def escapeChars : List Char → List Char
  | [] => []
  | ch :: rest =>
    (if ch = '\\' then ['\\', '\\']
     else if ch = '\n' then ['\\', 'n']
     else if ch = '\r' then ['\\', 'r']
     else if ch = '\t' then ['\\', 't']
     else [ch]) ++ escapeChars rest

/-- _format_value: None becomes the COPY null token, everything else is
str()-ed and escaped. -/
def formatValueChars : Value → List Char
  | .null => ['\\', 'N']
  | v => escapeChars (pyStr v).data

/-- One line of the COPY stream built in bulk_load_batch: tab-joined
formatted fields plus a terminating newline. -/
def formatRowChars (row : List Value) : List Char :=
  (List.intersperse ['\t'] (row.map formatValueChars)).flatten ++ ['\n']

/-- Splitting a COPY text line into raw fields at tabs. -/
def splitFields (cur : List Char) : List Char → List (List Char)
  | [] => [cur]
  | ch :: rest =>
    if ch = '\t' then cur :: splitFields [] rest else splitFields (cur ++ [ch]) rest

/-- Inverse of the COPY text escapes. -/
def unescapeChars : List Char → List Char
  | [] => []
  | '\\' :: 'n' :: rest => '\n' :: unescapeChars rest
  | '\\' :: 'r' :: rest => '\r' :: unescapeChars rest
  | '\\' :: 't' :: rest => '\t' :: unescapeChars rest
  | '\\' :: '\\' :: rest => '\\' :: unescapeChars rest
  | ch :: rest => ch :: unescapeChars rest

/-- How the COPY text reader interprets one raw field: the bare null
token means NULL, everything else is unescaped. -/
def copyParseField (field : List Char) : Option (List Char) :=
  if field = ['\\', 'N'] then none else some (unescapeChars field)

/-- How the COPY text reader interprets one line (without its trailing
newline). -/
def copyParseLine (line : List Char) : List (Option (List Char)) :=
  (splitFields [] line).map copyParseField

/-- The buffered state of StreamingIteratorIO: leftover bytes plus the
not-yet-consumed chunks of the underlying generator. -/
structure StreamState where
  buffer : List Char
  chunks : List (List Char)
deriving DecidableEq, Repr

/-- The while-loop of StreamingIteratorIO.read(size): pull generator
chunks only until the buffer holds size bytes or the generator is
exhausted. -/
def fillBuffer (buffer : List Char) (chunks : List (List Char)) (size : Nat) :
    List Char × List (List Char) :=
  match chunks with
  | [] => (buffer, [])
  | ch :: rest =>
    if size ≤ buffer.length then (buffer, ch :: rest)
    else fillBuffer (buffer ++ ch) rest size

/-- StreamingIteratorIO.read with a non-negative size: returns at most
size bytes and the remaining state. -/
def readSized (st : StreamState) (size : Nat) : List Char × StreamState :=
  let f := fillBuffer st.buffer st.chunks size
  (f.fst.take size, ⟨f.fst.drop size, f.snd⟩)

/-- StreamingIteratorIO.read(-1): drain the whole stream. -/
def readAll (st : StreamState) : List Char × StreamState :=
  (st.buffer ++ st.chunks.flatten, ⟨[], []⟩)

/-- A table has pairwise non-conflicting keys (what the unique index
behind ON CONFLICT guarantees for the target table). -/
def keysDistinct (pks : List String) (T : Table) : Prop :=
  List.Pairwise (fun a b => pkMatch pks a b = false) T

/-- Every row of a table has duplicate-free column names. -/
def rowsNodup (T : Table) : Prop := ∀ r ∈ T, (rowCols r).Nodup

/-- A row whose key columns are all non-NULL (it conflicts with itself:
SQL equality on its own key holds). -/
def selfKeyed (pks : List String) (r : Row) : Prop := pkMatch pks r r = true

/-- The soft-delete step of finalize as a table function: applied only
when settings are supplied and complete. -/
def sdApply (sd? : Option SoftDeleteSettings) (pks : List String)
    (staging target : Table) : Table :=
  match sd? with
  | some sd =>
    if sd.complete then
      softDelete pks (sd.column.getD ("")) (sd.inactiveValue.getD .null)
        (sd.activeValue.getD .null) staging target
    else target
  | none => target

/-- Insert-only dedup semantics (ON CONFLICT DO NOTHING): staged rows
are appended unless their key already conflicts. -/
def insertOnlyMerge (cols pks : List String) (target staging : Table) : Table :=
  staging.foldl
    (fun acc s =>
      if acc.any (fun t => pkMatch pks t (projectRow cols s)) then acc
      else acc ++ [projectRow cols s]) target

/-- Contents of a table, empty when absent. -/
def tableOf (db : Database) (n : String) : Table := (db.getTable? n).getD []

/-- Reference integrity from the main table to organizations: every
main row's mah_oms_id is NULL or equal (SQL equality) to some
organization's oms_id. -/
def mainRefsOk (db : Database) : Prop :=
  ∀ r ∈ tableOf db ("epar_index"),
    getCol r ("mah_oms_id") = .null
    ∨ ∃ o ∈ tableOf db ("organizations"),
        sqlEq (getCol r ("mah_oms_id")) (getCol o ("oms_id")) = true

/-- Reference integrity from the link table to the main table: every
link row's epar_id equals (SQL equality) some main row's epar_id. -/
def linkRefsOk (db : Database) : Prop :=
  ∀ l ∈ tableOf db ("epar_substance_link"),
    ∃ r ∈ tableOf db ("epar_index"),
      sqlEq (getCol l ("epar_id")) (getCol r ("epar_id")) = true

/-- An empty deployment of the four persistent tables with an empty
ledger (the state right after schema creation). -/
def initDb : Database :=
  ⟨[(("epar_index"), []), (("organizations"), []), (("substances"), []),
    (("epar_substance_link"), [])], []⟩

/-- A freshly connected adapter over a database state. -/
def freshConn (db : Database) : Conn := ⟨db, db, false⟩

/-- A minimal validated main record for concrete scenarios, with the
given enrichment value for mah_oms_id. -/
def eparRowM (id : String) (day : Nat) (mah : Value) : Row :=
  [(("epar_id"), .str id), (("medicine_name"), .str (("med-") ++ id)),
   (("authorization_status"), .str ("Authorised")),
   (("last_update_date_source"), .date day),
   (("therapeutic_area"), .str ("Area")),
   (("mah_oms_id"), mah), (("is_active"), .bool true)]

/-- A minimal validated main record without enrichment. -/
def eparRow (id : String) (day : Nat) : Row := eparRowM id day .null

/-- A minimal organization master row for concrete scenarios. -/
def orgRow (oid : String) : Row :=
  [(("oms_id"), .str oid), (("organization_name"), .str (("org-") ++ oid))]

/-- A transform output tuple with no derived master data. -/
def plainTuple (id : String) (day : Nat) : EtlTuple := ⟨eparRow id day, [], [], []⟩

/-- A transform output tuple whose record was enriched with an
organization (as transform_and_validate produces: the record's
mah_oms_id is set and the discovered organization is captured). -/
def orgTuple (id : String) (day : Nat) (oid : String) : EtlTuple :=
  ⟨eparRowM id day (.str oid), [], [orgRow oid], []⟩

/-- The staged rows conflict pairwise on no key (what hasDupKeys = false
expresses, as a Pairwise predicate). -/
def stagingDistinct (cols pks : List String) (S : Table) : Prop :=
  List.Pairwise (fun a b => pkMatch pks (projectRow cols a) (projectRow cols b) = false) S

/-- A staged row is already absorbed by a table: some row of the table
conflicts with it and already carries the staged values on every
present non-key column (so merging it again changes nothing). -/
def absorbedIn (cols pks : List String) (T : Table) (s : Row) : Prop :=
  ∃ u ∈ T, pkMatch pks u (projectRow cols s) = true
    ∧ ∀ c ∈ updateCols cols pks, c ∈ rowCols u →
        getCol u c = getCol (projectRow cols s) c

/-- A deployment with an empty target and a one-row staging table, for
concrete finalize runs. -/
def c1Db : Database :=
  ⟨[(("epar_index"), []), (("staging_epar_index"), [eparRow ("E1") 10])], []⟩

/-- Pipeline outcomes compare decidably (used to evaluate concrete
runs in closed theorems). -/
instance {ε α : Type} [DecidableEq ε] [DecidableEq α] : DecidableEq (Except ε α) :=
  fun a b => by
    rcases a with a | a <;> rcases b with b | b
    · exact decidable_of_iff (a = b) (by simp)
    · exact isFalse (by simp)
    · exact isFalse (by simp)
    · exact decidable_of_iff (a = b) (by simp)

/-- A DELTA run on a fresh deployment whose single batch stages two
records with the same product number ("E1"): the main-table merge
raises a cardinality violation (ON CONFLICT DO UPDATE cannot affect the
same target row twice), which exercises run_etl's except block. -/
def c3Run : Option Conn × List Ev × Except PyErr Unit :=
  run_etl ("DELTA") 1000 [plainTuple ("E1") 10, plainTuple ("E1") 11]
    (some (freshConn initDb))

/-- A deployment whose main table already holds one active row "E0"
(the other persistent tables are empty). -/
def c2Db : Database :=
  ⟨[(("epar_index"), [projectRow eparIndexCols (eparRow ("E0") 5)]),
    (("organizations"), []), (("substances"), []), (("epar_substance_link"), [])], []⟩

/-- A DELTA run over that deployment whose staged universe consists of
the single record "E1", so the pre-existing active row "E0" is absent
from the run's staged universe. -/
def c2Run : Option Conn × List Ev × Except PyErr Unit :=
  run_etl ("DELTA") 1000 [plainTuple ("E1") 10] (some (freshConn c2Db))

/-- A FULL run on a fresh deployment with batch size 1 whose two
resulting batches each discover the same organization "O1". -/
def c7Run : Option Conn × List Ev × Except PyErr Unit :=
  run_etl ("FULL") 1 [orgTuple ("E1") 10 ("O1"), orgTuple ("E2") 11 ("O1")]
    (some (freshConn initDb))

/-- Events that merge a staging table into the organizations table
(one per executed master-data upsert of the organizations entity). -/
def isOrgMergeEv (ev : Ev) : Bool :=
  match ev.kind with
  | .execStmt (.mergeInto t _ _ _) => t == ("organizations")
  | _ => false

/-- Events that copy at least one row carrying the given value into
the organizations staging table. -/
def orgCopyWith (v : Value) (ev : Ev) : Bool :=
  match ev.kind with
  | .execStmt (.copyFrom st _ rows) =>
    st == ("staging_organizations") && rows.any (fun r => r.any (fun p => p.snd == v))
  | _ => false

/-- Every event of a trace has a kind satisfying P (used to classify
which statements a pipeline phase can emit). -/
def evsOk (P : EvKind → Prop) (evs : List Ev) : Prop := ∀ ev ∈ evs, P ev.kind

/-- The event kind is not the execution of a soft-delete UPDATE. -/
def noSdKind (k : EvKind) : Prop :=
  ∀ tg st pks col iv av, k ≠ .execStmt (.softDeleteUpd tg st pks col iv av)

/-- The UPDATE ... SET col = value side of the soft-delete statement on
one row: the named column (where present) takes the new value, every
other column is untouched. -/
def setColVal (r : Row) (col : String) (v : Value) : Row :=
  r.map (fun p => if p.fst == col then (p.fst, v) else p)

/-- The WHERE clause of the soft-delete UPDATE on one target row: its
delete column currently equals the active value and its key matches no
staged row. -/
def sdHit (pks : List String) (col : String) (activeV : Value)
    (staging : Table) (t : Row) : Bool :=
  getCol t col == activeV && !(staging.any (fun s => pkMatch pks t s))

/-- The event merges a staging table into a master-data table. -/
def isMasterMergeEv (ev : Ev) : Bool :=
  match ev.kind with
  | .execStmt (.mergeInto t _ _ _) => t == ("organizations") || t == ("substances")
  | _ => false

/-- The event merges the main staging table into epar_index. -/
def isMainMergeEv (ev : Ev) : Bool :=
  match ev.kind with
  | .execStmt (.mergeInto t _ _ _) => t == ("epar_index")
  | _ => false

/-- The event is a statement on the link table or its staging table. -/
def isLinkEv (ev : Ev) : Bool :=
  match ev.kind with
  | .execStmt s =>
    match s with
    | .dropTableIfExists t => t == (("staging_") ++ ("epar_substance_link"))
    | .createUnloggedLike t _ => t == (("staging_") ++ ("epar_substance_link"))
    | .copyFrom t _ _ => t == (("staging_") ++ ("epar_substance_link"))
    | .mergeInto t _ _ _ => t == ("epar_substance_link")
    | .dropTable t => t == (("staging_") ++ ("epar_substance_link"))
    | _ => false
  | _ => false

/-- A row's organization reference resolves in the given organizations
table (NULL references are allowed). -/
def refOkRow (orgT : Table) (r : Row) : Prop :=
  getCol r ("mah_oms_id") = Value.null
  ∨ ∃ o ∈ orgT, sqlEq (getCol r ("mah_oms_id")) (getCol o ("oms_id")) = true

/-- Reference integrity of both persistent foreign keys. -/
def refsDb (db : Database) : Prop := mainRefsOk db ∧ linkRefsOk db

/-- Every staged main row's organization reference resolves in the
current organizations table. -/
def stagingRefsOk (db : Database) : Prop :=
  ∀ r ∈ tableOf db (("staging_") ++ ("epar_index")),
    refOkRow (tableOf db ("organizations")) r

/-- Every accumulated link row refers to a staged main row. -/
def linksOk (links : List Row) (stagingT : Table) : Prop :=
  ∀ lk ∈ links, ∃ r ∈ stagingT,
    sqlEq (getCol lk ("epar_id")) (getCol r ("epar_id")) = true

/-- Well-formedness of one transform output tuple, as
transform_and_validate guarantees it: the record's organization
reference (when set) is the id of one of the tuple's discovered
organizations, discovered organization ids are never NULL, every link
of the tuple carries the record's epar_id, and the record's key is
non-NULL. -/
def TupleOk (tu : EtlTuple) : Prop :=
  (getCol tu.record ("mah_oms_id") = Value.null
   ∨ ∃ o ∈ tu.orgs, sqlEq (getCol tu.record ("mah_oms_id")) (getCol o ("oms_id")) = true)
  ∧ (∀ o ∈ tu.orgs, ¬(getCol o ("oms_id") = Value.null))
  ∧ (∀ lk ∈ tu.links, getCol lk ("epar_id") = getCol tu.record ("epar_id"))
  ∧ selfKeyed [("epar_id")] tu.record

instance {pks : List String} {T : Table} : Decidable (keysDistinct pks T) :=
  decidable_of_iff (List.Pairwise (fun a b => pkMatch pks a b = false) T) Iff.rfl

instance {pks : List String} {r : Row} : Decidable (selfKeyed pks r) :=
  decidable_of_iff (pkMatch pks r r = true) Iff.rfl

instance {db : Database} : Decidable (mainRefsOk db) :=
  decidable_of_iff (∀ r ∈ tableOf db ("epar_index"),
    getCol r ("mah_oms_id") = Value.null
    ∨ ∃ o ∈ tableOf db ("organizations"),
        sqlEq (getCol r ("mah_oms_id")) (getCol o ("oms_id")) = true) Iff.rfl

instance {db : Database} : Decidable (linkRefsOk db) :=
  decidable_of_iff (∀ l ∈ tableOf db ("epar_substance_link"),
    ∃ r ∈ tableOf db ("epar_index"),
      sqlEq (getCol l ("epar_id")) (getCol r ("epar_id")) = true) Iff.rfl

instance {db : Database} : Decidable (refsDb db) :=
  decidable_of_iff (mainRefsOk db ∧ linkRefsOk db) Iff.rfl

instance {tu : EtlTuple} : Decidable (TupleOk tu) :=
  decidable_of_iff ((getCol tu.record ("mah_oms_id") = Value.null
    ∨ ∃ o ∈ tu.orgs, sqlEq (getCol tu.record ("mah_oms_id")) (getCol o ("oms_id")) = true)
   ∧ (∀ o ∈ tu.orgs, ¬(getCol o ("oms_id") = Value.null))
   ∧ (∀ lk ∈ tu.links, getCol lk ("epar_id") = getCol tu.record ("epar_id"))
   ∧ selfKeyed [("epar_id")] tu.record) Iff.rfl

/-- Unfolding of monadic bind applied to a connection state. -/
theorem bind_apply {α β : Type} (x : EtlM α) (f : α → EtlM β) (c : Option Conn) :
    (x >>= f) c =
      match x c with
      | (c1, e1, Except.ok a) =>
        match f a c1 with
        | (c2, e2, r) => (c2, e1 ++ e2, r)
      | (c1, e1, Except.error e) => (c1, e1, Except.error e) := rfl

/-- Unfolding of monadic pure applied to a connection state. -/
theorem pure_apply {α : Type} (a : α) (c : Option Conn) :
    (pure a : EtlM α) c = (c, [], Except.ok a) := rfl

/-- checkConn on a live connection is a successful no-op. -/
theorem checkConn_some (c : Conn) : checkConn (some c) = (some c, [], Except.ok ()) := rfl

/-- peekConn on a live connection returns it. -/
theorem peekConn_some (c : Conn) : peekConn (some c) = (some c, [], Except.ok c) := rfl

/-- throwM raises without touching state or trace. -/
theorem throwM_apply {α : Type} (e : PyErr) (c : Option Conn) :
    (throwM e : EtlM α) c = (c, [], Except.error e) := rfl

/-- SQL equality holds exactly between equal non-NULL values. -/
theorem sqlEq_iff {a b : Value} : sqlEq a b = true ↔ a ≠ .null ∧ b ≠ .null ∧ a = b := by
  cases a <;> cases b <;> simp [sqlEq]

/-- SQL equality is symmetric. -/
theorem sqlEq_symm {a b : Value} (h : sqlEq a b = true) : sqlEq b a = true := by
  rcases sqlEq_iff.mp h with ⟨ha, hb, hab⟩
  exact sqlEq_iff.mpr ⟨hb, ha, hab.symm⟩

/-- SQL equality of two values to a common one implies their equality. -/
theorem sqlEq_trans_common {a b c : Value} (h1 : sqlEq a b = true) (h2 : sqlEq a c = true) :
    sqlEq b c = true := by
  rcases sqlEq_iff.mp h1 with ⟨ha, hb, hab⟩
  rcases sqlEq_iff.mp h2 with ⟨-, hc, hac⟩
  exact sqlEq_iff.mpr ⟨hb, hc, hab.symm.trans hac⟩

/-- Pointwise reading of a key match. -/
theorem pkMatch_iff {pks : List String} {a b : Row} :
    pkMatch pks a b = true ↔ ∀ c ∈ pks, sqlEq (getCol a c) (getCol b c) = true := by
  simp [pkMatch, List.all_eq_true]

/-- Key matching is symmetric. -/
theorem pkMatch_symm {pks : List String} {a b : Row} (h : pkMatch pks a b = true) :
    pkMatch pks b a = true := by
  rw [pkMatch_iff] at h ⊢
  intro c hc
  exact sqlEq_symm (h c hc)

/-- Two rows matching a common row on the key match each other. -/
theorem pkMatch_trans_common {pks : List String} {t a b : Row}
    (h1 : pkMatch pks t a = true) (h2 : pkMatch pks t b = true) :
    pkMatch pks a b = true := by
  rw [pkMatch_iff] at h1 h2 ⊢
  intro c hc
  exact sqlEq_trans_common (h1 c hc) (h2 c hc)

/-- Reading a column of a cons row. -/
theorem getCol_cons (n : String) (v : Value) (t : Row) (c : String) :
    getCol ((n, v) :: t) c = if n = c then v else getCol t c := by
  by_cases h : n = c
  · simp [getCol, List.find?_cons, h]
  · simp [getCol, List.find?_cons, h]

/-- setNonKey on a cons row. -/
theorem setNonKey_cons (cols pks : List String) (n : String) (v : Value) (t s : Row) :
    setNonKey cols pks ((n, v) :: t) s =
      (if (updateCols cols pks).contains n then (n, getCol s n) else (n, v))
        :: setNonKey cols pks t s := rfl

/-- A column is in update_cols exactly when it is a model column that is
not a key column. -/
theorem updateCols_mem {cols pks : List String} {c : String} :
    c ∈ updateCols cols pks ↔ c ∈ cols ∧ ¬(c ∈ pks) := by
  simp [updateCols, List.mem_filter]

/-- setNonKey never touches columns outside update_cols. -/
theorem getCol_setNonKey_pk {cols pks : List String} {t s : Row} {c : String}
    (hc : ¬(c ∈ updateCols cols pks)) :
    getCol (setNonKey cols pks t s) c = getCol t c := by
  induction t with
  | nil => rfl
  | cons p rest ih =>
    rcases p with ⟨n, v⟩
    rw [setNonKey_cons]
    by_cases hup : (updateCols cols pks).contains n
    · rw [if_pos hup]
      by_cases hn : n = c
      · subst hn
        exact absurd (by simpa using hup) hc
      · rw [getCol_cons, getCol_cons, if_neg hn, if_neg hn, ih]
    · rw [if_neg hup]
      by_cases hn : n = c
      · subst hn
        rw [getCol_cons, getCol_cons, if_pos rfl, if_pos rfl]
      · rw [getCol_cons, getCol_cons, if_neg hn, if_neg hn, ih]

/-- On a present non-key column, setNonKey installs the staged value. -/
theorem getCol_setNonKey_mem {cols pks : List String} {t s : Row} {c : String}
    (hc : c ∈ updateCols cols pks) (hmem : c ∈ rowCols t) :
    getCol (setNonKey cols pks t s) c = getCol s c := by
  induction t with
  | nil => simp [rowCols] at hmem
  | cons p rest ih =>
    rcases p with ⟨n, v⟩
    rw [setNonKey_cons]
    by_cases hn : n = c
    · subst hn
      rw [if_pos (by simpa using hc), getCol_cons, if_pos rfl]
    · have hmem2 : c ∈ rowCols rest := by
        rcases (by simpa [rowCols] using hmem : c = n ∨ c ∈ rowCols rest) with h | h
        · exact absurd h.symm hn
        · exact h
      by_cases hup : (updateCols cols pks).contains n
      · rw [if_pos hup, getCol_cons, if_neg hn, ih hmem2]
      · rw [if_neg hup, getCol_cons, if_neg hn, ih hmem2]

/-- setNonKey preserves the column-name layout. -/
theorem rowCols_setNonKey {cols pks : List String} {t s : Row} :
    rowCols (setNonKey cols pks t s) = rowCols t := by
  induction t with
  | nil => rfl
  | cons p rest ih =>
    rcases p with ⟨n, v⟩
    rw [setNonKey_cons]
    by_cases hup : (updateCols cols pks).contains n
    · rw [if_pos hup]
      simpa [rowCols] using ih
    · rw [if_neg hup]
      simpa [rowCols] using ih

/-- The projected row has exactly the model columns. -/
theorem rowCols_projectRow {cols : List String} {r : Row} :
    rowCols (projectRow cols r) = cols := by
  induction cols with
  | nil => rfl
  | cons c rest ih => simpa [projectRow, rowCols] using ih

/-- Reading a projected row: listed columns give the source value,
other columns read NULL. -/
theorem getCol_projectRow {cols : List String} {r : Row} {c : String} :
    getCol (projectRow cols r) c = if c ∈ cols then getCol r c else .null := by
  induction cols with
  | nil => simp [projectRow, getCol]
  | cons x rest ih =>
    by_cases hx : x = c
    · subst hx
      simp [projectRow, getCol_cons]
    · rw [projectRow, List.map_cons, getCol_cons, if_neg hx]
      rw [show (List.map (fun c => (c, getCol r c)) rest : Row) = projectRow rest r from rfl, ih]
      by_cases hc : c ∈ rest
      · rw [if_pos hc, if_pos (by simp [hc])]
      · rw [if_neg hc, if_neg (by simp [hc, Ne.symm hx])]

/-- Two alls agree when the predicates agree on the members. -/
theorem all_congr_mem {α : Type} {l : List α} {p q : α → Bool}
    (h : ∀ x ∈ l, p x = q x) : l.all p = l.all q := by
  induction l with
  | nil => rfl
  | cons x xs ih =>
    rw [List.all_cons, List.all_cons, h x (by simp),
      ih (fun y hy => h y (by simp [hy]))]

/-- setNonKey does not change the key of a row. -/
theorem pkMatch_setNonKey_left {cols pks : List String} {t s b : Row} :
    pkMatch pks (setNonKey cols pks t s) b = pkMatch pks t b := by
  unfold pkMatch
  apply all_congr_mem
  intro c hc
  rw [getCol_setNonKey_pk (fun hmem => (updateCols_mem.mp hmem).2 hc)]

/-- A map that fixes every member is the identity. -/
theorem map_eq_self_mem {α : Type} {l : List α} {f : α → α}
    (h : ∀ x ∈ l, f x = x) : l.map f = l := by
  induction l with
  | nil => rfl
  | cons x xs ih =>
    rw [List.map_cons, h x (by simp), ih (fun y hy => h y (by simp [hy]))]

/-- setNonKey on the right argument of a key match changes nothing. -/
theorem pkMatch_setNonKey_right {cols pks : List String} {a t s : Row} :
    pkMatch pks a (setNonKey cols pks t s) = pkMatch pks a t := by
  unfold pkMatch
  apply all_congr_mem
  intro c hc
  rw [getCol_setNonKey_pk (fun hmem => (updateCols_mem.mp hmem).2 hc)]

/-- upsertRow when the staged row conflicts with nothing: plain
insertion at the end. -/
theorem upsert_noconflict {cols pks : List String} {T : Table} {s : Row}
    (h : T.any (fun t => pkMatch pks t (projectRow cols s)) = false) :
    upsertRow cols pks T s = T ++ [projectRow cols s] := by
  unfold upsertRow
  rw [if_neg (by simp [h])]

/-- upsertRow under DO NOTHING (no non-key columns): a conflicting
staged row changes nothing. -/
theorem upsert_conflict_nothing {cols pks : List String} {T : Table} {s : Row}
    (h : T.any (fun t => pkMatch pks t (projectRow cols s)) = true)
    (hup : updateCols cols pks = []) :
    upsertRow cols pks T s = T := by
  unfold upsertRow
  rw [if_pos (by simp [h]), if_pos hup]

/-- upsertRow under DO UPDATE: conflicting target rows get their
non-key columns replaced. -/
theorem upsert_conflict_update {cols pks : List String} {T : Table} {s : Row}
    (h : T.any (fun t => pkMatch pks t (projectRow cols s)) = true)
    (hup : updateCols cols pks ≠ []) :
    upsertRow cols pks T s =
      T.map (fun t => if pkMatch pks t (projectRow cols s) then
        setNonKey cols pks t (projectRow cols s) else t) := by
  unfold upsertRow
  rw [if_pos (by simp [h]), if_neg hup]

/-- A target row that does not conflict with the staged row survives
the upsert unchanged. -/
theorem mem_upsert_untouched {cols pks : List String} {T : Table} {s t : Row}
    (ht : t ∈ T) (hno : pkMatch pks t (projectRow cols s) = false) :
    t ∈ upsertRow cols pks T s := by
  unfold upsertRow
  by_cases h : T.any (fun x => pkMatch pks x (projectRow cols s)) = true
  · rw [if_pos (by simp [h])]
    by_cases h2 : updateCols cols pks = []
    · rw [if_pos h2]; exact ht
    · rw [if_neg h2]
      have : (fun x => if pkMatch pks x (projectRow cols s) then
          setNonKey cols pks x (projectRow cols s) else x) t = t := by
        simp [hno]
      exact this ▸ List.mem_map_of_mem _ ht
  · rw [if_neg (by simpa using h)]
    exact List.mem_append_left _ ht

/-- A conflicting target row appears updated in the upsert result. -/
theorem mem_upsert_updated {cols pks : List String} {T : Table} {s t : Row}
    (ht : t ∈ T) (hm : pkMatch pks t (projectRow cols s) = true)
    (hup : updateCols cols pks ≠ []) :
    setNonKey cols pks t (projectRow cols s) ∈ upsertRow cols pks T s := by
  rw [upsert_conflict_update (List.any_eq_true.mpr ⟨t, ht, hm⟩) hup]
  have : (fun x => if pkMatch pks x (projectRow cols s) then
      setNonKey cols pks x (projectRow cols s) else x) t
      = setNonKey cols pks t (projectRow cols s) := by
    simp [hm]
  exact this ▸ List.mem_map_of_mem _ ht

/-- upsertRow preserves pairwise distinct keys. -/
theorem keysDistinct_upsert {cols pks : List String} {T : Table} {s : Row}
    (h : keysDistinct pks T) : keysDistinct pks (upsertRow cols pks T s) := by
  unfold upsertRow
  by_cases hc : T.any (fun t => pkMatch pks t (projectRow cols s)) = true
  · rw [if_pos (by simp [hc])]
    by_cases h2 : updateCols cols pks = []
    · rw [if_pos h2]; exact h
    · rw [if_neg h2]
      refine List.Pairwise.map _ ?_ h
      intro a b hab
      by_cases ha : pkMatch pks a (projectRow cols s) = true
      · by_cases hb : pkMatch pks b (projectRow cols s) = true
        · simp [ha, hb, pkMatch_setNonKey_left, pkMatch_setNonKey_right, hab]
        · simp [ha, hb, pkMatch_setNonKey_left, hab]
      · by_cases hb : pkMatch pks b (projectRow cols s) = true
        · simp [ha, hb, pkMatch_setNonKey_right, hab]
        · simp [ha, hb, hab]
  · rw [if_neg (by simpa using hc)]
    rw [keysDistinct, List.pairwise_append]
    refine ⟨h, by simp, ?_⟩
    intro a ha b hb
    rw [List.mem_singleton] at hb
    subst hb
    simp only [Bool.not_eq_true] at hc
    rw [List.any_eq_false] at hc
    simpa using hc a ha

/-- upsertRow preserves duplicate-free column names (given the model
columns are duplicate-free). -/
theorem rowsNodup_upsert {cols pks : List String} {T : Table} {s : Row}
    (h : rowsNodup T) (hcols : cols.Nodup) : rowsNodup (upsertRow cols pks T s) := by
  unfold upsertRow
  by_cases hc : T.any (fun t => pkMatch pks t (projectRow cols s)) = true
  · rw [if_pos (by simp [hc])]
    by_cases h2 : updateCols cols pks = []
    · rw [if_pos h2]; exact h
    · rw [if_neg h2]
      intro r hr
      rcases List.mem_map.mp hr with ⟨t, ht, rfl⟩
      by_cases hm : pkMatch pks t (projectRow cols s) = true
      · simpa [hm, rowCols_setNonKey] using h t ht
      · simpa [hm] using h t ht
  · rw [if_neg (by simpa using hc)]
    intro r hr
    rcases List.mem_append.mp hr with h1 | h1
    · exact h r h1
    · rw [List.mem_singleton] at h1
      subst h1
      rw [rowCols_projectRow]
      exact hcols

/-- mergeDelta preserves pairwise distinct keys. -/
theorem keysDistinct_merge {cols pks : List String} {S : Table} :
    ∀ {T : Table}, keysDistinct pks T → keysDistinct pks (mergeDelta cols pks T S) := by
  induction S with
  | nil => intro T h; exact h
  | cons s rest ih =>
    intro T h
    exact ih (keysDistinct_upsert h)

/-- mergeDelta preserves duplicate-free column names. -/
theorem rowsNodup_merge {cols pks : List String} {S : Table} (hcols : cols.Nodup) :
    ∀ {T : Table}, rowsNodup T → rowsNodup (mergeDelta cols pks T S) := by
  induction S with
  | nil => intro T h; exact h
  | cons s rest ih =>
    intro T h
    exact ih (rowsNodup_upsert h hcols)

/-- A target row conflicting with no staged row survives the whole
merge unchanged. -/
theorem mem_merge_untouched {cols pks : List String} {S : Table} :
    ∀ {T : Table} {t : Row}, t ∈ T →
    (∀ s ∈ S, pkMatch pks t (projectRow cols s) = false) →
    t ∈ mergeDelta cols pks T S := by
  induction S with
  | nil => intro T t ht _; exact ht
  | cons s rest ih =>
    intro T t ht hno
    exact ih (mem_upsert_untouched ht (hno s (by simp)))
      (fun s2 hs2 => hno s2 (by simp [hs2]))

/-- mergeDelta unfolding on a cons staging table. -/
theorem mergeDelta_cons {cols pks : List String} {T : Table} {s : Row} {rest : Table} :
    mergeDelta cols pks T (s :: rest) = mergeDelta cols pks (upsertRow cols pks T s) rest := rfl

/-- After the merge, every staged row is absorbed: some result row
carries its key and its values on all present non-key columns. -/
theorem merge_establishes {cols pks : List String} {S : Table} :
    ∀ {T : Table}, keysDistinct pks T → stagingDistinct cols pks S →
    (∀ s ∈ S, selfKeyed pks (projectRow cols s)) →
    ∀ s ∈ S, absorbedIn cols pks (mergeDelta cols pks T S) s := by
  induction S with
  | nil =>
    intro T _ _ _ s hs
    simp at hs
  | cons s0 rest ih =>
    intro T hT hS hself s hs
    have hS' : stagingDistinct cols pks rest := (List.pairwise_cons.mp hS).2
    have hs0dist : ∀ s2 ∈ rest,
        pkMatch pks (projectRow cols s0) (projectRow cols s2) = false :=
      (List.pairwise_cons.mp hS).1
    rcases List.mem_cons.mp hs with rfl | hsrest
    · by_cases hc : T.any (fun t => pkMatch pks t (projectRow cols s)) = true
      · rcases List.any_eq_true.mp hc with ⟨t, ht, hm⟩
        have hts2 : ∀ s2 ∈ rest, pkMatch pks t (projectRow cols s2) = false := by
          intro s2 hs2
          by_contra hx
          rw [Bool.not_eq_false] at hx
          have h2 := pkMatch_trans_common hm hx
          rw [hs0dist s2 hs2] at h2
          exact Bool.noConfusion h2
        by_cases hup : updateCols cols pks = []
        · refine ⟨t, ?_, hm, ?_⟩
          · rw [mergeDelta_cons, upsert_conflict_nothing hc hup]
            exact mem_merge_untouched ht hts2
          · intro c hcup
            rw [hup] at hcup
            simp at hcup
        · refine ⟨setNonKey cols pks t (projectRow cols s), ?_, ?_, ?_⟩
          · rw [mergeDelta_cons]
            apply mem_merge_untouched (mem_upsert_updated ht hm hup)
            intro s2 hs2
            rw [pkMatch_setNonKey_left]
            exact hts2 s2 hs2
          · rw [pkMatch_setNonKey_left]
            exact hm
          · intro c hcup hcmem
            rw [rowCols_setNonKey] at hcmem
            exact getCol_setNonKey_mem hcup hcmem
      · refine ⟨projectRow cols s, ?_, hself s (by simp), fun c hcup hcmem => rfl⟩
        rw [mergeDelta_cons, upsert_noconflict (by simpa using hc)]
        exact mem_merge_untouched (List.mem_append_right _ (by simp)) hs0dist
    · rw [mergeDelta_cons]
      exact ih (keysDistinct_upsert hT) hS'
        (fun s2 h2 => hself s2 (by simp [h2])) s hsrest

/-- A row already agreeing with the staged values on every present
non-key column is untouched by the DO UPDATE assignment. -/
theorem setNonKey_eq_self {cols pks : List String} {t s : Row}
    (hnd : (rowCols t).Nodup)
    (h : ∀ c ∈ updateCols cols pks, c ∈ rowCols t → getCol t c = getCol s c) :
    setNonKey cols pks t s = t := by
  induction t with
  | nil => rfl
  | cons p rest ih =>
    rcases p with ⟨n, v⟩
    have hcols : rowCols ((n, v) :: rest) = n :: rowCols rest := rfl
    rw [hcols, List.nodup_cons] at hnd
    rw [setNonKey_cons]
    have htail : setNonKey cols pks rest s = rest := by
      apply ih hnd.2
      intro c hc hcm
      have hcn : ¬(n = c) := fun he => hnd.1 (he ▸ hcm)
      have := h c hc (by rw [hcols]; exact List.mem_cons_of_mem n hcm)
      rwa [getCol_cons, if_neg hcn] at this
    rw [htail]
    by_cases hup : (updateCols cols pks).contains n
    · rw [if_pos hup]
      have := h n (by simpa using hup) (by rw [hcols]; exact List.mem_cons_self n _)
      rw [getCol_cons, if_pos rfl] at this
      rw [← this]
    · rw [if_neg hup]

/-- Upserting an absorbed staged row changes nothing. -/
theorem upsert_absorbed {cols pks : List String} {T : Table} {s : Row}
    (hT : keysDistinct pks T) (hTn : rowsNodup T)
    (habs : absorbedIn cols pks T s) : upsertRow cols pks T s = T := by
  rcases habs with ⟨u, hu, hum, hagree⟩
  have hc : T.any (fun t => pkMatch pks t (projectRow cols s)) = true :=
    List.any_eq_true.mpr ⟨u, hu, hum⟩
  by_cases hup : updateCols cols pks = []
  · exact upsert_conflict_nothing hc hup
  · rw [upsert_conflict_update hc hup]
    apply map_eq_self_mem
    intro x hx
    by_cases hm : pkMatch pks x (projectRow cols s) = true
    · have hxu : x = u := by
        by_contra hne
        have hsym : Symmetric (fun a b : Row => pkMatch pks a b = false) := by
          intro a b hab
          by_contra hba
          rw [Bool.not_eq_false] at hba
          rw [pkMatch_symm hba] at hab
          exact Bool.noConfusion hab
        have hfalse := List.Pairwise.forall hsym hT hx hu hne
        have htrue := pkMatch_trans_common (pkMatch_symm hm) (pkMatch_symm hum)
        rw [hfalse] at htrue
        exact Bool.noConfusion htrue
      subst hxu
      simp only [hm, if_true]
      exact setNonKey_eq_self (hTn x hx) hagree
    · simp [hm]

/-- Merging a batch of absorbed rows changes nothing. -/
theorem merge_absorbed {cols pks : List String} {S2 : Table} :
    ∀ {R : Table}, keysDistinct pks R → rowsNodup R →
    (∀ s ∈ S2, absorbedIn cols pks R s) → mergeDelta cols pks R S2 = R := by
  induction S2 with
  | nil => intro R _ _ _; rfl
  | cons s rest ih =>
    intro R hd hn habs
    rw [mergeDelta_cons, upsert_absorbed hd hn (habs s (by simp))]
    exact ih hd hn (fun s2 h2 => habs s2 (by simp [h2]))

/-- The DELTA merge is idempotent: merging the same staged batch twice
produces the table obtained by merging it once. -/
theorem mergeDelta_idem {cols pks : List String} {T S : Table} (hcols : cols.Nodup)
    (hT : keysDistinct pks T) (hTn : rowsNodup T) (hS : stagingDistinct cols pks S)
    (hself : ∀ s ∈ S, selfKeyed pks (projectRow cols s)) :
    mergeDelta cols pks (mergeDelta cols pks T S) S = mergeDelta cols pks T S :=
  merge_absorbed (keysDistinct_merge hT) (rowsNodup_merge hcols hTn)
    (merge_establishes hT hS hself)

/-- find? over the rename-map of setTable, looked up at the set name. -/
theorem find?_set_same (l : List (String × Table)) (n : String) (t : Table) :
    ((l.map (fun p => if p.fst == n then (n, t) else p)).find? (fun p => p.fst == n)) =
      (l.find? (fun p => p.fst == n)).map (fun _ => (n, t)) := by
  induction l with
  | nil => rfl
  | cons x xs ih =>
    rw [List.map_cons]
    by_cases hx : x.fst = n
    · rw [if_pos (by simp [hx]), List.find?_cons_of_pos _ (by simp),
        List.find?_cons_of_pos _ (by simp [hx])]
      rfl
    · rw [if_neg (by simp [hx]), List.find?_cons_of_neg _ (by simp [hx]),
        List.find?_cons_of_neg _ (by simp [hx])]
      exact ih

/-- find? over the rename-map of setTable, looked up at another name. -/
theorem find?_set_other (l : List (String × Table)) (n m : String) (t : Table)
    (hnm : ¬(n = m)) :
    ((l.map (fun p => if p.fst == n then (n, t) else p)).find? (fun p => p.fst == m)) =
      l.find? (fun p => p.fst == m) := by
  induction l with
  | nil => rfl
  | cons x xs ih =>
    rw [List.map_cons]
    by_cases hx : x.fst = n
    · rw [if_pos (by simp [hx]), List.find?_cons_of_neg _ (by simp [hnm]),
        List.find?_cons_of_neg _ (by simp [hx, hnm])]
      exact ih
    · rw [if_neg (by simp [hx])]
      by_cases hxm : x.fst = m
      · rw [List.find?_cons_of_pos _ (by simp [hxm]),
          List.find?_cons_of_pos _ (by simp [hxm])]
      · rw [List.find?_cons_of_neg _ (by simp [hxm]),
          List.find?_cons_of_neg _ (by simp [hxm])]
        exact ih

/-- Table lookup after setTable. -/
theorem getTable?_setTable (db : Database) (n m : String) (t : Table) :
    (db.setTable n t).getTable? m = if n = m then some t else db.getTable? m := by
  unfold Database.setTable Database.getTable?
  by_cases hex : (db.tables.find? (fun p => p.fst == n)).isSome
  · rw [if_pos hex]
    by_cases hnm : n = m
    · subst hnm
      rcases Option.isSome_iff_exists.mp hex with ⟨p, hp⟩
      rw [if_pos rfl]
      show ((db.tables.map (fun p => if p.fst == n then (n, t) else p)).find?
        (fun p => p.fst == n)).map (fun p => p.snd) = some t
      rw [find?_set_same, hp]
      rfl
    · rw [if_neg hnm]
      show ((db.tables.map (fun p => if p.fst == n then (n, t) else p)).find?
        (fun p => p.fst == m)).map (fun p => p.snd) =
        (db.tables.find? (fun p => p.fst == m)).map (fun p => p.snd)
      rw [find?_set_other db.tables n m t hnm]
  · rw [if_neg hex]
    have hnone : db.tables.find? (fun p => p.fst == n) = none := by
      rcases h : db.tables.find? (fun p => p.fst == n) with _ | p
      · exact h
      · rw [h] at hex
        simp at hex
    by_cases hnm : n = m
    · subst hnm
      rw [if_pos rfl]
      show ((db.tables ++ [(n, t)]).find? (fun p => p.fst == n)).map (fun p => p.snd) = some t
      rw [List.find?_append, hnone, Option.none_or, List.find?_cons_of_pos _ (by simp)]
      rfl
    · rw [if_neg hnm]
      show ((db.tables ++ [(n, t)]).find? (fun p => p.fst == m)).map (fun p => p.snd) =
        (db.tables.find? (fun p => p.fst == m)).map (fun p => p.snd)
      rw [List.find?_append]
      rw [show ([(n, t)].find? (fun p => p.fst == m)) = none by
        rw [List.find?_cons_of_neg _ (by simp [hnm])]; rfl]
      rw [Option.or_none]

/-- find? through the filter of dropTable. -/
theorem find?_filter_drop (l : List (String × Table)) (n m : String) :
    ((l.filter (fun p => !(p.fst == n))).find? (fun p => p.fst == m)) =
      if n = m then none else l.find? (fun p => p.fst == m) := by
  induction l with
  | nil => by_cases hnm : n = m <;> simp [hnm]
  | cons x xs ih =>
    rw [List.filter_cons]
    by_cases hx : x.fst = n
    · rw [if_neg (by simp [hx]), ih]
      by_cases hnm : n = m
      · rw [if_pos hnm, if_pos hnm]
      · rw [if_neg hnm, if_neg hnm, List.find?_cons_of_neg _ (by simp [hx, hnm])]
    · rw [if_pos (by simp [hx])]
      by_cases hxm : x.fst = m
      · have hnm : ¬(n = m) := fun h => hx (by rw [hxm, h])
        rw [List.find?_cons_of_pos _ (by simp [hxm]), if_neg hnm,
          List.find?_cons_of_pos _ (by simp [hxm])]
      · rw [List.find?_cons_of_neg _ (by simp [hxm]), ih]
        by_cases hnm : n = m
        · rw [if_pos hnm, if_pos hnm]
        · rw [if_neg hnm, if_neg hnm, List.find?_cons_of_neg _ (by simp [hxm])]

/-- Table lookup after dropTable. -/
theorem getTable?_dropTable (db : Database) (n m : String) :
    (db.dropTable n).getTable? m = if n = m then none else db.getTable? m := by
  unfold Database.dropTable Database.getTable?
  show ((db.tables.filter (fun p => !(p.fst == n))).find? (fun p => p.fst == m)).map
      (fun p => p.snd) = _
  rw [find?_filter_drop]
  by_cases hnm : n = m
  · rw [if_pos hnm, if_pos hnm]
    rfl
  · rw [if_neg hnm, if_neg hnm]

/-- setTable does not touch the ledger. -/
theorem ledger_setTable (db : Database) (n : String) (t : Table) :
    (db.setTable n t).ledger = db.ledger := by
  unfold Database.setTable
  by_cases h : (db.tables.find? (fun p => p.fst == n)).isSome
  · rw [if_pos h]
  · rw [if_neg h]

/-- dropTable does not touch the ledger. -/
theorem ledger_dropTable (db : Database) (n : String) :
    (db.dropTable n).ledger = db.ledger := rfl

/-- Overwriting a table twice keeps only the second contents. -/
theorem setTable_setTable (db : Database) (n : String) (t1 t2 : Table) :
    (db.setTable n t1).setTable n t2 = db.setTable n t2 := by
  unfold Database.setTable
  by_cases hex : (db.tables.find? (fun p => p.fst == n)).isSome
  · rcases Option.isSome_iff_exists.mp hex with ⟨p, hp⟩
    rw [if_pos hex]
    have hex2 : (((db.tables.map (fun p => if p.fst == n then (n, t1) else p)).find?
        (fun p => p.fst == n))).isSome := by
      rw [find?_set_same, hp]
      rfl
    rw [if_pos hex2, if_pos hex]
    congr 1
    rw [List.map_map]
    apply List.map_congr_left
    intro x hx
    by_cases hxn : x.fst = n
    · simp [hxn]
    · simp [hxn]
  · rw [if_neg hex]
    have hnone : db.tables.find? (fun p => p.fst == n) = none := by
      rcases h : db.tables.find? (fun p => p.fst == n) with _ | p
      · exact h
      · rw [h] at hex
        simp at hex
    have hex2 : (((db.tables ++ [(n, t1)]).find? (fun p => p.fst == n))).isSome := by
      rw [List.find?_append, hnone, Option.none_or, List.find?_cons_of_pos _ (by simp)]
      rfl
    rw [if_pos hex2, if_neg hex]
    congr 1
    rw [List.map_append]
    have hmap : (db.tables.map (fun p => if p.fst == n then (n, t2) else p)) = db.tables := by
      apply map_eq_self_mem
      intro x hx
      have : ¬(x.fst = n) := by
        intro he
        have := List.find?_eq_none.mp hnone x hx
        simp [he] at this
      simp [this]
    rw [hmap]
    simp

/-- Conn.exec on a live transaction with a succeeding statement. -/
theorem conn_exec_ok {c : Conn} {s : Stmt} {db : Database}
    (hab : c.aborted = false) (ha : applyStmt c.current s = .ok db) :
    c.exec s = ({ c with current := db }, none) := by
  unfold Conn.exec
  rw [if_neg (by simp [hab]), ha]

/-- Conn.exec on a live transaction with a failing statement. -/
theorem conn_exec_err {c : Conn} {s : Stmt} {e : DbError}
    (hab : c.aborted = false) (ha : applyStmt c.current s = .error e) :
    c.exec s = ({ c with aborted := true }, some (.dbError e)) := by
  unfold Conn.exec
  rw [if_neg (by simp [hab]), ha]

/-- Conn.exec in an aborted transaction raises and changes nothing. -/
theorem conn_exec_aborted {c : Conn} {s : Stmt} (hab : c.aborted = true) :
    c.exec s = (c, some .inFailedSqlTransaction) := by
  unfold Conn.exec
  rw [if_pos hab]

/-- execM on a succeeding statement. -/
theorem execM_ok {c : Conn} {s : Stmt} {db : Database}
    (hab : c.aborted = false) (ha : applyStmt c.current s = .ok db) :
    execM s (some c) =
      (some { c with current := db }, [⟨.execStmt s, c.committed⟩], Except.ok ()) := by
  unfold execM
  simp only [conn_exec_ok hab ha]

/-- execM on a failing statement aborts the transaction and raises. -/
theorem execM_err {c : Conn} {s : Stmt} {e : DbError}
    (hab : c.aborted = false) (ha : applyStmt c.current s = .error e) :
    execM s (some c) =
      (some { c with aborted := true }, [⟨.execStmt s, c.committed⟩],
        Except.error (.dbError e)) := by
  unfold execM
  simp only [conn_exec_err hab ha]

/-- execM in an aborted transaction raises InFailedSqlTransaction. -/
theorem execM_aborted {c : Conn} {s : Stmt} (hab : c.aborted = true) :
    execM s (some c) =
      (some c, [⟨.execStmt s, c.committed⟩], Except.error .inFailedSqlTransaction) := by
  unfold execM
  simp only [conn_exec_aborted hab]

/-- rollback on a live connection. -/
theorem rollback_some (c : Conn) :
    rollback (some c) = (some c.rollbackT, [⟨.rollbackEv, c.committed⟩], Except.ok ()) := rfl

/-- get_latest_high_water_mark reads the transaction-visible ledger. -/
theorem get_latest_hwm_some (c : Conn) :
    get_latest_high_water_mark (some c) =
      (some c, [], Except.ok (ledgerMaxHwm c.current.ledger)) := rfl

/-- The staging name is never the target name. -/
theorem staging_ne_target (target : String) : ¬((("staging_") ++ target) = target) := by
  intro h
  have := congrArg String.length h
  rw [String.length_append] at this
  rw [show (("staging_") : String).length = 8 from rfl] at this
  omega

/-- Effect of prepare_load for DELTA on a live connection: drop and
recreate the empty staging table, nothing committed. -/
theorem prepare_load_delta_effect {c : Conn} {target : String} {T : Table}
    (hab : c.aborted = false) (hT : c.current.getTable? target = some T) :
    prepare_load ("DELTA") target (some c) =
      (some { c with current := ((c.current.dropTable (("staging_") ++ target)).setTable
          (("staging_") ++ target) []) },
       [⟨.execStmt (.dropTableIfExists (("staging_") ++ target)), c.committed⟩,
        ⟨.execStmt (.createUnloggedLike (("staging_") ++ target) target), c.committed⟩],
       Except.ok (("staging_") ++ target)) := by
  have hne := staging_ne_target target
  have h1 : applyStmt c.current (.dropTableIfExists (("staging_") ++ target)) =
      .ok (c.current.dropTable (("staging_") ++ target)) := rfl
  have h2 : applyStmt (c.current.dropTable (("staging_") ++ target))
      (.createUnloggedLike (("staging_") ++ target) target) =
      .ok ((c.current.dropTable (("staging_") ++ target)).setTable (("staging_") ++ target) []) := by
    have hT2 : (c.current.dropTable (("staging_") ++ target)).getTable? target = some T := by
      rw [getTable?_dropTable, if_neg hne]
      exact hT
    have hs2 : (c.current.dropTable (("staging_") ++ target)).getTable?
        (("staging_") ++ target) = none := by
      rw [getTable?_dropTable, if_pos rfl]
    simp [applyStmt, hT2, hs2]
  have hab1 : ({ c with current := c.current.dropTable (("staging_") ++ target) } : Conn).aborted
      = false := hab
  simp only [prepare_load,
    show (pyUpper ("DELTA") == ("FULL")) = false from by decide,
    show (pyUpper ("DELTA") == ("DELTA")) = true from by decide,
    Bool.false_eq_true, if_false, if_true,
    conn_exec_ok hab h1, conn_exec_ok hab1 h2]

/-- Effect of prepare_load for FULL on a live connection: truncate the
target (cascading to the referencing tables), nothing committed. -/
theorem prepare_load_full_effect {c : Conn} {target : String} {T : Table}
    (hab : c.aborted = false) (hT : c.current.getTable? target = some T) :
    prepare_load ("FULL") target (some c) =
      (some { c with current := ((cascadeTargets target).foldl
          (fun acc m => if (acc.getTable? m).isSome then acc.setTable m [] else acc)
          (c.current.setTable target [])) },
       [⟨.execStmt (.truncate target), c.committed⟩],
       Except.ok target) := by
  have h1 : applyStmt c.current (.truncate target) =
      .ok ((cascadeTargets target).foldl
        (fun acc m => if (acc.getTable? m).isSome then acc.setTable m [] else acc)
        (c.current.setTable target [])) := by
    simp [applyStmt, hT]
  simp only [prepare_load,
    show (pyUpper ("FULL") == ("FULL")) = true from by decide, if_true,
    conn_exec_ok hab h1]

/-- Effect of bulk_load_batch on a live connection with an existing
destination: the rows are appended, the exact row count is returned,
nothing committed. -/
theorem bulk_load_batch_effect {c : Conn} {dest : String} {D : Table}
    (tuples : List (List Value)) (columns : List String)
    (hab : c.aborted = false) (hD : c.current.getTable? dest = some D) :
    bulk_load_batch tuples dest columns (some c) =
      (some { c with current := (c.current.setTable dest
          (D ++ tuples.map (fun t => columns.zip t))) },
       [⟨.execStmt (.copyFrom dest columns (tuples.map (fun t => columns.zip t))),
         c.committed⟩],
       Except.ok (Int.ofNat tuples.length)) := by
  have h1 : applyStmt c.current
      (.copyFrom dest columns (tuples.map (fun t => columns.zip t))) =
      .ok (c.current.setTable dest (D ++ tuples.map (fun t => columns.zip t))) := by
    simp [applyStmt, hD]
  rw [bulk_load_batch]
  simp only [conn_exec_ok hab h1]
  have hrc : ((Int.ofNat (tuples.map (fun t => columns.zip t)).length) == (-1 : Int)) = false := by
    simp
  simp [hrc]

/-- Effect of finalize for DELTA on a live connection with a healthy
merge: merge, optional soft delete, drop staging, then commit. -/
theorem finalize_delta_effect {c : Conn} {target st : String} (cols pks : List String)
    (sd? : Option SoftDeleteSettings) {T S : Table}
    (hab : c.aborted = false)
    (hT : c.current.getTable? target = some T) (hS : c.current.getTable? st = some S)
    (hstz : ¬(st = (""))) (hpks : pks ≠ []) (hne : ¬(st = target))
    (hdup : ((!(updateCols cols pks).isEmpty) && hasDupKeys cols pks S) = false) :
    finalize ("DELTA") target (some st) (some cols) (some pks) sd? (some c) =
      (some ⟨(c.current.setTable target
          (sdApply sd? pks S (mergeDelta cols pks T S))).dropTable st,
        (c.current.setTable target
          (sdApply sd? pks S (mergeDelta cols pks T S))).dropTable st, false⟩,
       [⟨.execStmt (.mergeInto target st cols pks), c.committed⟩]
         ++ (match sd? with
             | some sd =>
               if sd.complete then
                 [⟨.execStmt (.softDeleteUpd target st pks (sd.column.getD (""))
                   (sd.inactiveValue.getD .null) (sd.activeValue.getD .null)), c.committed⟩]
               else []
             | none => [])
         ++ [⟨.execStmt (.dropTable st), c.committed⟩,
             ⟨.commitEv, (c.current.setTable target
               (sdApply sd? pks S (mergeDelta cols pks T S))).dropTable st⟩],
       Except.ok ()) := by
  have hguard : (st == ("") || pks.isEmpty) = false := by
    simp [hstz, hpks]
  have hmerge : applyStmt c.current (.mergeInto target st cols pks) =
      .ok (c.current.setTable target (mergeDelta cols pks T S)) := by
    simp only [applyStmt, hT, hS]
    rw [if_neg (by simp [hdup])]
  have hab1 : ({ c with current := c.current.setTable target (mergeDelta cols pks T S) } : Conn).aborted
      = false := hab
  have hst2 : (c.current.setTable target (mergeDelta cols pks T S)).getTable? st = some S := by
    rw [getTable?_setTable, if_neg (fun h => hne h.symm)]
    exact hS
  rcases sd? with _ | sd
  · have hdrop : applyStmt (c.current.setTable target (mergeDelta cols pks T S))
        (.dropTable st) =
        .ok ((c.current.setTable target (mergeDelta cols pks T S)).dropTable st) := by
      simp [applyStmt, hst2]
    simp only [finalize,
      show (pyUpper ("DELTA") == ("DELTA")) = true from by decide, if_true,
      hguard, Bool.false_eq_true, if_false,
      conn_exec_ok hab hmerge, conn_exec_ok hab1 hdrop]
    simp [sdApply, Conn.commitT, hab]
  · by_cases hcomp : sd.complete = true
    · have hsd : applyStmt (c.current.setTable target (mergeDelta cols pks T S))
          (sdStmt target st pks sd) =
          .ok ((c.current.setTable target (mergeDelta cols pks T S)).setTable target
            (softDelete pks (sd.column.getD ("")) (sd.inactiveValue.getD .null)
              (sd.activeValue.getD .null) S (mergeDelta cols pks T S))) := by
        have ht2 : (c.current.setTable target (mergeDelta cols pks T S)).getTable? target
            = some (mergeDelta cols pks T S) := by
          rw [getTable?_setTable, if_pos rfl]
        simp [sdStmt, applyStmt, ht2, hst2]
      have hab2 : ({ c with current := ((c.current.setTable target (mergeDelta cols pks T S)).setTable
          target (softDelete pks (sd.column.getD ("")) (sd.inactiveValue.getD .null)
            (sd.activeValue.getD .null) S (mergeDelta cols pks T S))) } : Conn).aborted = false := hab
      have hdrop : applyStmt ((c.current.setTable target (mergeDelta cols pks T S)).setTable
          target (softDelete pks (sd.column.getD ("")) (sd.inactiveValue.getD .null)
            (sd.activeValue.getD .null) S (mergeDelta cols pks T S))) (.dropTable st) =
          .ok (((c.current.setTable target (mergeDelta cols pks T S)).setTable target
            (softDelete pks (sd.column.getD ("")) (sd.inactiveValue.getD .null)
              (sd.activeValue.getD .null) S (mergeDelta cols pks T S))).dropTable st) := by
        have hst3 : ((c.current.setTable target (mergeDelta cols pks T S)).setTable target
            (softDelete pks (sd.column.getD ("")) (sd.inactiveValue.getD .null)
              (sd.activeValue.getD .null) S (mergeDelta cols pks T S))).getTable? st
            = some S := by
          rw [getTable?_setTable, if_neg (fun h => hne h.symm)]
          exact hst2
        simp [applyStmt, hst3]
      simp only [finalize,
        show (pyUpper ("DELTA") == ("DELTA")) = true from by decide, if_true,
        hguard, Bool.false_eq_true, if_false, hcomp,
        conn_exec_ok hab hmerge, conn_exec_ok hab1 hsd, conn_exec_ok hab2 hdrop]
      simp [sdApply, sdStmt, hcomp, Conn.commitT, hab, setTable_setTable]
    · have hdrop : applyStmt (c.current.setTable target (mergeDelta cols pks T S))
          (.dropTable st) =
          .ok ((c.current.setTable target (mergeDelta cols pks T S)).dropTable st) := by
        simp [applyStmt, hst2]
      simp only [finalize,
        show (pyUpper ("DELTA") == ("DELTA")) = true from by decide, if_true,
        hguard, Bool.false_eq_true, if_false, hcomp,
        conn_exec_ok hab hmerge, conn_exec_ok hab1 hdrop]
      simp [sdApply, hcomp, Conn.commitT, hab]

/-- Effect of finalize for a non-DELTA strategy: commit only. -/
theorem finalize_other_effect {c : Conn} {strategy target : String}
    {staging? : Option String} {cols? pks? : Option (List String)}
    {sd? : Option SoftDeleteSettings}
    (hnd : (pyUpper strategy == ("DELTA")) = false) :
    finalize strategy target staging? cols? pks? sd? (some c) =
      (some c.commitT, [⟨.commitEv, c.commitT.committed⟩], Except.ok ()) := by
  simp only [finalize, hnd, Bool.false_eq_true, if_false]

/-- Effect of log_pipeline_start on a live connection: insert a RUNNING
row and commit immediately. -/
theorem log_pipeline_start_effect {c : Conn} (strategy : String)
    (hab : c.aborted = false) :
    log_pipeline_start strategy (some c) =
      (some ⟨{ c.current with ledger := c.current.ledger ++
          [⟨nextExecutionId c.current.ledger, ("RUNNING"), strategy, none, none⟩] },
        { c.current with ledger := c.current.ledger ++
          [⟨nextExecutionId c.current.ledger, ("RUNNING"), strategy, none, none⟩] }, false⟩,
       [⟨.execStmt (.insertLedgerStart strategy (nextExecutionId c.current.ledger)),
         c.committed⟩,
        ⟨.commitEv, { c.current with ledger := c.current.ledger ++
          [⟨nextExecutionId c.current.ledger, ("RUNNING"), strategy, none, none⟩] }⟩],
       Except.ok (nextExecutionId c.current.ledger)) := by
  have h1 : applyStmt c.current (.insertLedgerStart strategy (nextExecutionId c.current.ledger)) =
      .ok { c.current with ledger := c.current.ledger ++
        [⟨nextExecutionId c.current.ledger, ("RUNNING"), strategy, none, none⟩] } := rfl
  simp only [log_pipeline_start, conn_exec_ok hab h1]
  simp [Conn.commitT, hab]

/-- Effect of log_pipeline_success on a live connection: update the row
and commit the connection. -/
theorem log_pipeline_success_effect {c : Conn} (eid : Nat) (records : Int)
    (hwm : Option Value) (hab : c.aborted = false) :
    log_pipeline_success eid records hwm (some c) =
      (some ⟨{ c.current with ledger := c.current.ledger.map (fun r =>
          if r.executionId == eid then
            { r with status := ("SUCCESS"), recordsProcessed := some records, highWaterMark := hwm }
          else r) },
        { c.current with ledger := c.current.ledger.map (fun r =>
          if r.executionId == eid then
            { r with status := ("SUCCESS"), recordsProcessed := some records, highWaterMark := hwm }
          else r) }, false⟩,
       [⟨.execStmt (.updateLedgerSuccess eid records hwm), c.committed⟩,
        ⟨.commitEv, { c.current with ledger := c.current.ledger.map (fun r =>
          if r.executionId == eid then
            { r with status := ("SUCCESS"), recordsProcessed := some records, highWaterMark := hwm }
          else r) }⟩],
       Except.ok ()) := by
  have h1 : applyStmt c.current (.updateLedgerSuccess eid records hwm) =
      .ok { c.current with ledger := c.current.ledger.map (fun r =>
        if r.executionId == eid then
          { r with status := ("SUCCESS"), recordsProcessed := some records, highWaterMark := hwm }
        else r) } := rfl
  simp only [log_pipeline_success, conn_exec_ok hab h1]
  simp [Conn.commitT, hab]

/-- Effect of log_pipeline_failure on a live (non-aborted) connection:
update the row to FAILED and commit the connection, including whatever
data changes are pending in the shared transaction. -/
theorem log_pipeline_failure_ok_effect {c : Conn} {eid : Nat} (hab : c.aborted = false) :
    log_pipeline_failure eid (some c) =
      (some ⟨{ c.current with ledger := c.current.ledger.map (fun r =>
          if r.executionId == eid then { r with status := ("FAILED") } else r) },
        { c.current with ledger := c.current.ledger.map (fun r =>
          if r.executionId == eid then { r with status := ("FAILED") } else r) }, false⟩,
       [⟨.execStmt (.updateLedgerFailure eid), c.committed⟩,
        ⟨.commitEv, { c.current with ledger := c.current.ledger.map (fun r =>
          if r.executionId == eid then { r with status := ("FAILED") } else r) }⟩],
       Except.ok ()) := by
  have h1 : applyStmt c.current (.updateLedgerFailure eid) =
      .ok { c.current with ledger := c.current.ledger.map (fun r =>
        if r.executionId == eid then { r with status := ("FAILED") } else r) } := rfl
  simp only [log_pipeline_failure, conn_exec_ok hab h1]
  simp [Conn.commitT, hab]

/-- Effect of log_pipeline_failure on an aborted transaction: the
UPDATE itself raises InFailedSqlTransaction, the FAILED status is never
written, and the commit is never reached. -/
theorem log_pipeline_failure_aborted_effect {c : Conn} {eid : Nat} (hab : c.aborted = true) :
    log_pipeline_failure eid (some c) =
      (some c, [⟨.execStmt (.updateLedgerFailure eid), c.committed⟩],
        Except.error .inFailedSqlTransaction) := by
  simp only [log_pipeline_failure, conn_exec_aborted hab]

/-- Sequencing after a successful step. -/
theorem bind_ok {α β : Type} {x : EtlM α} {f : α → EtlM β} {c c1 : Option Conn}
    {e1 : List Ev} {a : α} (hx : x c = (c1, e1, Except.ok a)) :
    (x >>= f) c = ((f a c1).1, e1 ++ (f a c1).2.1, (f a c1).2.2) := by
  rw [bind_apply, hx]

/-- Sequencing after a failing step. -/
theorem bind_err {α β : Type} {x : EtlM α} {f : α → EtlM β} {c c1 : Option Conn}
    {e1 : List Ev} {e : PyErr} (hx : x c = (c1, e1, Except.error e)) :
    (x >>= f) c = (c1, e1, Except.error e) := by
  rw [bind_apply, hx]

/-- The staging name is never empty. -/
theorem staging_ne_empty (target : String) : ¬((("staging_") ++ target) = ("")) := by
  intro h
  have := congrArg String.length h
  rw [String.length_append] at this
  rw [show (("staging_") : String).length = 8 from rfl] at this
  simp at this

/-- hasDupKeys is the Boolean negation of pairwise key-distinct
staging. -/
theorem hasDupKeys_false_iff {cols pks : List String} {S : Table} :
    hasDupKeys cols pks S = false ↔ stagingDistinct cols pks S := by
  induction S with
  | nil => simp [hasDupKeys, stagingDistinct]
  | cons s rest ih =>
    rw [stagingDistinct, List.pairwise_cons]
    constructor
    · intro h
      rw [hasDupKeys, Bool.or_eq_false_iff] at h
      rcases h with ⟨h1, h2⟩
      rw [List.any_eq_false] at h1
      exact ⟨fun s2 hs2 => by simpa using h1 s2 hs2, ih.mp h2⟩
    · rintro ⟨h1, h2⟩
      rw [hasDupKeys, Bool.or_eq_false_iff]
      refine ⟨?_, ih.mpr h2⟩
      rw [List.any_eq_false]
      intro s2 hs2
      simpa using h1 s2 hs2

/-- Every row of an upsert result keeps the model-column layout. -/
theorem rowsShaped_upsert {cols pks : List String} {T : Table} {s : Row}
    (h : ∀ t ∈ T, rowCols t = cols) :
    ∀ r ∈ upsertRow cols pks T s, rowCols r = cols := by
  unfold upsertRow
  by_cases hc : T.any (fun t => pkMatch pks t (projectRow cols s)) = true
  · rw [if_pos (by simp [hc])]
    by_cases h2 : updateCols cols pks = []
    · rw [if_pos h2]; exact h
    · rw [if_neg h2]
      intro r hr
      rcases List.mem_map.mp hr with ⟨t, ht, rfl⟩
      by_cases hm : pkMatch pks t (projectRow cols s) = true
      · simpa [hm, rowCols_setNonKey] using h t ht
      · simpa [hm] using h t ht
  · rw [if_neg (by simpa using hc)]
    intro r hr
    rcases List.mem_append.mp hr with h1 | h1
    · exact h r h1
    · rw [List.mem_singleton] at h1
      subst h1
      exact rowCols_projectRow

/-- Every row of the merge result keeps the model-column layout. -/
theorem rowsShaped_merge {cols pks : List String} {S : Table} :
    ∀ {T : Table}, (∀ t ∈ T, rowCols t = cols) →
    ∀ r ∈ mergeDelta cols pks T S, rowCols r = cols := by
  induction S with
  | nil => intro T h; exact h
  | cons s rest ih =>
    intro T h
    exact ih (rowsShaped_upsert h)

/-- With no non-key columns, the merge degenerates to insert-only
dedup (the DO NOTHING conflict action). -/
theorem merge_insertOnly {cols pks : List String} {S : Table}
    (hup : updateCols cols pks = []) :
    ∀ {T : Table}, mergeDelta cols pks T S = insertOnlyMerge cols pks T S := by
  induction S with
  | nil => intro T; rfl
  | cons s rest ih =>
    intro T
    rw [mergeDelta_cons]
    rw [show insertOnlyMerge cols pks T (s :: rest) = insertOnlyMerge cols pks
      (if T.any (fun t => pkMatch pks t (projectRow cols s)) then T
        else T ++ [projectRow cols s]) rest from rfl]
    by_cases hc : T.any (fun t => pkMatch pks t (projectRow cols s)) = true
    · rw [upsert_conflict_nothing hc hup, if_pos (by simp [hc])]
      exact ih
    · rw [upsert_noconflict (by simpa using hc), if_neg (by simpa using hc)]
      exact ih

/-- Effect of one full DELTA cycle (prepare, bulk load, finalize) on a
live connection: the batch is merged into the target, the staging table
is gone, the state is committed, and the exact row count is returned. -/
theorem deltaCycle_effect {c : Conn} (target : String) (cols pks : List String)
    (tuples : List (List Value)) {T : Table}
    (hab : c.aborted = false) (hT : c.current.getTable? target = some T)
    (hpks : pks ≠ [])
    (hdup : ((!(updateCols cols pks).isEmpty)
      && hasDupKeys cols pks (tuples.map (fun t => cols.zip t))) = false) :
    (deltaCycle target cols pks tuples (some c)).1 =
      some ⟨deltaCycleDb c.current target cols pks tuples T,
            deltaCycleDb c.current target cols pks tuples T, false⟩
    ∧ (deltaCycle target cols pks tuples (some c)).2.2 = Except.ok (Int.ofNat tuples.length)
    ∧ (deltaCycleDb c.current target cols pks tuples T).getTable? target =
        some (mergeDelta cols pks T (tuples.map (fun t => cols.zip t)))
    ∧ (deltaCycleDb c.current target cols pks tuples T).getTable? (("staging_") ++ target)
        = none := by
  have hne := staging_ne_target target
  have e1 := prepare_load_delta_effect hab hT
  have hab1 : ({ c with current := ((c.current.dropTable (("staging_") ++ target)).setTable
      (("staging_") ++ target) []) } : Conn).aborted = false := hab
  have hst1 : ((c.current.dropTable (("staging_") ++ target)).setTable
      (("staging_") ++ target) []).getTable? (("staging_") ++ target) = some [] := by
    rw [getTable?_setTable, if_pos rfl]
  have e2 : bulk_load_batch tuples (("staging_") ++ target) cols
      (some { c with current := ((c.current.dropTable (("staging_") ++ target)).setTable
        (("staging_") ++ target) []) }) =
      (some { c with current := (((c.current.dropTable (("staging_") ++ target)).setTable
        (("staging_") ++ target) []).setTable (("staging_") ++ target)
        (tuples.map (fun t => cols.zip t))) },
       [⟨.execStmt (.copyFrom (("staging_") ++ target) cols
         (tuples.map (fun t => cols.zip t))), c.committed⟩],
       Except.ok (Int.ofNat tuples.length)) := by
    have := bulk_load_batch_effect tuples cols hab1 hst1
    simpa using this
  have hab2 : ({ c with current := (((c.current.dropTable (("staging_") ++ target)).setTable
      (("staging_") ++ target) []).setTable (("staging_") ++ target)
      (tuples.map (fun t => cols.zip t))) } : Conn).aborted = false := hab
  have hT2 : ((((c.current.dropTable (("staging_") ++ target)).setTable
      (("staging_") ++ target) []).setTable (("staging_") ++ target)
      (tuples.map (fun t => cols.zip t)))).getTable? target = some T := by
    rw [getTable?_setTable, if_neg hne, getTable?_setTable, if_neg hne,
      getTable?_dropTable, if_neg hne]
    exact hT
  have hS2 : ((((c.current.dropTable (("staging_") ++ target)).setTable
      (("staging_") ++ target) []).setTable (("staging_") ++ target)
      (tuples.map (fun t => cols.zip t)))).getTable? (("staging_") ++ target) =
      some (tuples.map (fun t => cols.zip t)) := by
    rw [getTable?_setTable, if_pos rfl]
  have e3 := finalize_delta_effect cols pks none hab2 hT2 hS2
    (staging_ne_empty target) hpks hne hdup
  refine ⟨?_, ?_, ?_, ?_⟩
  · simp only [deltaCycle, bind_ok e1, bind_ok e2, bind_ok e3, pure_apply, deltaCycleDb,
      sdApply]
  · simp only [deltaCycle, bind_ok e1, bind_ok e2, bind_ok e3, pure_apply]
  · rw [deltaCycleDb, getTable?_dropTable, if_neg hne, getTable?_setTable, if_pos rfl]
  · rw [deltaCycleDb, getTable?_dropTable, if_pos rfl]

/-- C1: for every DELTA finalize with a staging table, model, and
non-empty key columns, the adapter inserts the staging contents into
the target; on a key conflict it updates every non-key column of the
conflicting target row from the staged (incoming) row; with no non-key
columns the conflict action is DO NOTHING (insert-only dedup); the
staging table is then dropped and the transaction is committed as the
final step. -/
theorem c1_delta_finalize {c : Conn} {target st : String} {cols pks : List String}
    {sd? : Option SoftDeleteSettings} {T S : Table}
    (hab : c.aborted = false)
    (hT : c.current.getTable? target = some T) (hS : c.current.getTable? st = some S)
    (hstz : ¬(st = (""))) (hpks : pks ≠ []) (hne : ¬(st = target))
    (hkeys : keysDistinct pks T) (hshape : ∀ t ∈ T, rowCols t = cols)
    (hSdist : stagingDistinct cols pks S)
    (hself : ∀ s ∈ S, selfKeyed pks (projectRow cols s)) :
    ∃ c' : Conn,
      (finalize ("DELTA") target (some st) (some cols) (some pks) sd? (some c)).1 = some c'
      ∧ (finalize ("DELTA") target (some st) (some cols) (some pks) sd? (some c)).2.2
          = Except.ok ()
      ∧ c'.committed = c'.current
      ∧ c'.committed.getTable? st = none
      ∧ c'.committed.getTable? target = some (sdApply sd? pks S (mergeDelta cols pks T S))
      ∧ (((finalize ("DELTA") target (some st) (some cols) (some pks) sd? (some c)).2.1).map
          Ev.kind).getLast? = some EvKind.commitEv
      ∧ (∀ s ∈ S, ∃ u ∈ mergeDelta cols pks T S,
          pkMatch pks u (projectRow cols s) = true
          ∧ (updateCols cols pks ≠ [] → ∀ c2 ∈ updateCols cols pks,
              getCol u c2 = getCol (projectRow cols s) c2))
      ∧ (updateCols cols pks = [] →
          mergeDelta cols pks T S = insertOnlyMerge cols pks T S) := by
  have hdup : ((!(updateCols cols pks).isEmpty) && hasDupKeys cols pks S) = false := by
    rw [hasDupKeys_false_iff.mpr hSdist]
    simp
  have e := finalize_delta_effect cols pks sd? hab hT hS hstz hpks hne hdup
  refine ⟨⟨((c.current.setTable target (sdApply sd? pks S (mergeDelta cols pks T S))).dropTable st),
    ((c.current.setTable target (sdApply sd? pks S (mergeDelta cols pks T S))).dropTable st),
    false⟩, ?_, ?_, rfl, ?_, ?_, ?_, ?_, ?_⟩
  · rw [e]
  · rw [e]
  · show ((c.current.setTable target (sdApply sd? pks S (mergeDelta cols pks T S))).dropTable
      st).getTable? st = none
    rw [getTable?_dropTable, if_pos rfl]
  · show ((c.current.setTable target (sdApply sd? pks S (mergeDelta cols pks T S))).dropTable
      st).getTable? target = _
    rw [getTable?_dropTable, if_neg hne, getTable?_setTable, if_pos rfl]
  · rw [e]
    rcases sd? with _ | sd
    · simp
    · by_cases hcomp : sd.complete = true
      · simp [hcomp]
      · simp [hcomp]
  · intro s hs
    obtain ⟨u, hu, hum, hagree⟩ := merge_establishes hkeys hSdist hself s hs
    refine ⟨u, hu, hum, ?_⟩
    intro _ c2 hc2
    exact hagree c2 hc2 (by
      rw [rowsShaped_merge hshape u hu]
      exact (updateCols_mem.mp hc2).1)
  · exact fun hup => merge_insertOnly hup

/-- Witness for c1_delta_finalize: a one-row staged batch merged into
an empty target, keyed on epar_id, with no soft-delete settings. -/
theorem c1_delta_finalize_witness :
    ∃ c' : Conn,
      (finalize ("DELTA") ("epar_index") (some ("staging_epar_index")) (some eparIndexCols)
        (some [("epar_id")]) none (some (freshConn c1Db))).1 = some c'
      ∧ (finalize ("DELTA") ("epar_index") (some ("staging_epar_index")) (some eparIndexCols)
          (some [("epar_id")]) none (some (freshConn c1Db))).2.2 = Except.ok ()
      ∧ c'.committed = c'.current
      ∧ c'.committed.getTable? ("staging_epar_index") = none
      ∧ c'.committed.getTable? ("epar_index") = some (sdApply none [("epar_id")]
          [eparRow ("E1") 10] (mergeDelta eparIndexCols [("epar_id")] [] [eparRow ("E1") 10]))
      ∧ (((finalize ("DELTA") ("epar_index") (some ("staging_epar_index")) (some eparIndexCols)
          (some [("epar_id")]) none (some (freshConn c1Db))).2.1).map Ev.kind).getLast?
          = some EvKind.commitEv
      ∧ (∀ s ∈ [eparRow ("E1") 10], ∃ u ∈ mergeDelta eparIndexCols [("epar_id")] []
            [eparRow ("E1") 10],
          pkMatch [("epar_id")] u (projectRow eparIndexCols s) = true
          ∧ (updateCols eparIndexCols [("epar_id")] ≠ [] →
              ∀ c2 ∈ updateCols eparIndexCols [("epar_id")],
              getCol u c2 = getCol (projectRow eparIndexCols s) c2))
      ∧ (updateCols eparIndexCols [("epar_id")] = [] →
          mergeDelta eparIndexCols [("epar_id")] [] [eparRow ("E1") 10]
            = insertOnlyMerge eparIndexCols [("epar_id")] [] [eparRow ("E1") 10]) :=
  c1_delta_finalize (T := []) (S := [eparRow ("E1") 10]) rfl rfl rfl (by decide) (by decide)
    (by decide) (by simp [keysDistinct]) (by simp) (by simp [stagingDistinct])
    (by
      intro s hs
      rw [List.mem_singleton] at hs
      subst hs
      unfold selfKeyed
      decide)

/-- C6: running the same DELTA batch twice (same staging contents, key
columns, and model) yields the same final target-table row count and
row contents as running it once. -/
theorem c6_delta_twice {c : Conn} {target : String} {cols pks : List String}
    {tuples : List (List Value)} {T : Table}
    (hab : c.aborted = false) (hT : c.current.getTable? target = some T)
    (hpks : pks ≠ []) (hcolsN : cols.Nodup) (hkeys : keysDistinct pks T)
    (hTn : rowsNodup T)
    (hSdist : stagingDistinct cols pks (tuples.map (fun t => cols.zip t)))
    (hself : ∀ s ∈ tuples.map (fun t => cols.zip t), selfKeyed pks (projectRow cols s)) :
    ∃ c1 : Conn,
      (deltaCycle target cols pks tuples (some c)).1 = some c1
      ∧ (deltaCycle target cols pks tuples (some c)).2.2 = Except.ok (Int.ofNat tuples.length)
      ∧ ∃ c2 : Conn,
          (deltaCycle target cols pks tuples (some c1)).1 = some c2
          ∧ (deltaCycle target cols pks tuples (some c1)).2.2
              = Except.ok (Int.ofNat tuples.length)
          ∧ c2.committed.getTable? target = c1.committed.getTable? target
          ∧ (tableOf c2.committed target).length = (tableOf c1.committed target).length := by
  have hdup : ((!(updateCols cols pks).isEmpty)
      && hasDupKeys cols pks (tuples.map (fun t => cols.zip t))) = false := by
    rw [hasDupKeys_false_iff.mpr hSdist]
    simp
  obtain ⟨h1a, h1b, h1c, h1d⟩ := deltaCycle_effect target cols pks tuples (T := T) hab hT hpks hdup
  refine ⟨⟨deltaCycleDb c.current target cols pks tuples T,
    deltaCycleDb c.current target cols pks tuples T, false⟩, h1a, h1b, ?_⟩
  obtain ⟨h2a, h2b, h2c, h2d⟩ := deltaCycle_effect
    (c := ⟨deltaCycleDb c.current target cols pks tuples T,
      deltaCycleDb c.current target cols pks tuples T, false⟩)
    target cols pks tuples
    (T := mergeDelta cols pks T (tuples.map (fun t => cols.zip t)))
    rfl h1c hpks hdup
  refine ⟨_, h2a, h2b, ?_, ?_⟩
  · show (deltaCycleDb (deltaCycleDb c.current target cols pks tuples T) target cols pks
      tuples (mergeDelta cols pks T (tuples.map (fun t => cols.zip t)))).getTable? target = _
    rw [h2c, h1c]
    rw [mergeDelta_idem hcolsN hkeys hTn hSdist hself]
  · show (tableOf (deltaCycleDb (deltaCycleDb c.current target cols pks tuples T) target cols
      pks tuples (mergeDelta cols pks T (tuples.map (fun t => cols.zip t)))) target).length = _
    rw [tableOf, tableOf, h2c, h1c, mergeDelta_idem hcolsN hkeys hTn hSdist hself]

/-- Witness for c6_delta_twice: the same one-tuple batch loaded twice
into an initially empty target. -/
theorem c6_delta_twice_witness :
    ∃ c1 : Conn,
      (deltaCycle ("epar_index") eparIndexCols [("epar_id")]
        [rowToTuple eparIndexCols (eparRow ("E1") 10)] (some (freshConn initDb))).1 = some c1
      ∧ (deltaCycle ("epar_index") eparIndexCols [("epar_id")]
          [rowToTuple eparIndexCols (eparRow ("E1") 10)] (some (freshConn initDb))).2.2
          = Except.ok (Int.ofNat 1)
      ∧ ∃ c2 : Conn,
          (deltaCycle ("epar_index") eparIndexCols [("epar_id")]
            [rowToTuple eparIndexCols (eparRow ("E1") 10)] (some c1)).1 = some c2
          ∧ (deltaCycle ("epar_index") eparIndexCols [("epar_id")]
              [rowToTuple eparIndexCols (eparRow ("E1") 10)] (some c1)).2.2
              = Except.ok (Int.ofNat 1)
          ∧ c2.committed.getTable? ("epar_index") = c1.committed.getTable? ("epar_index")
          ∧ (tableOf c2.committed ("epar_index")).length
              = (tableOf c1.committed ("epar_index")).length :=
  c6_delta_twice (T := []) rfl rfl (by decide) (by decide) (by simp [keysDistinct])
    (by simp [rowsNodup]) (by simp [stagingDistinct])
    (by
      intro s hs
      simp only [List.map_cons, List.map_nil, List.mem_singleton] at hs
      subst hs
      unfold selfKeyed
      decide)

/-- C10: every data or ledger operation of the adapter (prepare_load,
bulk_load_batch, finalize, get_latest_high_water_mark,
log_pipeline_start, log_pipeline_success, log_pipeline_failure) raises
ConnectionError when invoked before connect() has established a
connection (connection state None), executing nothing, whereas
rollback() and close() invoked in that same state do nothing and never
raise. -/
theorem c10_unconnected_ops (strategy target : String) (tuples : List (List Value))
    (columns : List String) (staging? : Option String) (cols? pks? : Option (List String))
    (sd? : Option SoftDeleteSettings) (eid : Nat) (records : Int) (hwm : Option Value) :
    prepare_load strategy target none = (none, [], Except.error .connectionError)
  ∧ bulk_load_batch tuples target columns none = (none, [], Except.error .connectionError)
  ∧ finalize strategy target staging? cols? pks? sd? none = (none, [], Except.error .connectionError)
  ∧ get_latest_high_water_mark none = (none, [], Except.error .connectionError)
  ∧ log_pipeline_start strategy none = (none, [], Except.error .connectionError)
  ∧ log_pipeline_success eid records hwm none = (none, [], Except.error .connectionError)
  ∧ log_pipeline_failure eid none = (none, [], Except.error .connectionError)
  ∧ rollback none = (none, [], Except.ok ())
  ∧ close none = (none, [], Except.ok ()) := by
  refine ⟨rfl, rfl, rfl, rfl, rfl, rfl, rfl, rfl, rfl⟩

/-- C8: prepare_load with a strategy that is neither FULL nor DELTA
(case-insensitively), and finalize for DELTA with a missing (falsy)
staging table, model, or key-column list, raise ValueError with the
connection state untouched and no statement executed (empty trace). -/
theorem c8_config_errors (c : Conn) (strategy target : String)
    (staging? : Option String) (cols? pks? : Option (List String))
    (sd? : Option SoftDeleteSettings)
    (hF : pyUpper strategy ≠ ("FULL")) (hD : pyUpper strategy ≠ ("DELTA"))
    (hmiss : staging? = none ∨ staging? = some ("") ∨ cols? = none
      ∨ pks? = none ∨ pks? = some []) :
    prepare_load strategy target (some c) =
      (some c, [], Except.error (.valueError (("Unknown load strategy: ") ++ strategy)))
  ∧ ∃ msg : String, finalize ("DELTA") target staging? cols? pks? sd? (some c) =
      (some c, [], Except.error (.valueError msg)) := by
  constructor
  · have h1 : (pyUpper strategy == ("FULL")) = false := by simp [hF]
    have h2 : (pyUpper strategy == ("DELTA")) = false := by simp [hD]
    simp only [prepare_load, h1, h2, Bool.false_eq_true, if_false]
  · refine ⟨("For DELTA strategy, staging_table, pydantic_model and primary_key_columns must be provided."), ?_⟩
    have hdelta : pyUpper ("DELTA") = ("DELTA") := by decide
    rcases hmiss with h | h | h | h | h
    all_goals subst h
    · cases cols? <;> cases pks? <;> rfl
    · cases cols? with
      | none => rfl
      | some cols =>
        cases pks? with
        | none => rfl
        | some pks => simp [finalize, hdelta]
    · cases staging? <;> rfl
    · cases staging? <;> cases cols? <;> rfl
    · cases staging? with
      | none => cases cols? <;> rfl
      | some st =>
        cases cols? with
        | none => rfl
        | some cols => simp [finalize, hdelta]

/-- Witness for c8_config_errors at a concrete unknown strategy and a
missing key-column list. -/
theorem c8_config_errors_witness :
    prepare_load ("UPSERT") ("epar_index") (some ⟨⟨[], []⟩, ⟨[], []⟩, false⟩) =
      (some ⟨⟨[], []⟩, ⟨[], []⟩, false⟩, [],
        Except.error (.valueError (("Unknown load strategy: ") ++ ("UPSERT"))))
  ∧ ∃ msg : String, finalize ("DELTA") ("epar_index") (some ("staging_epar_index"))
      (some eparIndexCols) none none (some ⟨⟨[], []⟩, ⟨[], []⟩, false⟩) =
      (some ⟨⟨[], []⟩, ⟨[], []⟩, false⟩, [], Except.error (.valueError msg)) :=
  c8_config_errors ⟨⟨[], []⟩, ⟨[], []⟩, false⟩ ("UPSERT") ("epar_index")
    (some ("staging_epar_index")) (some eparIndexCols) none none
    (by decide) (by decide) (by simp)

/-- C3: the failure path does not behave as specified.  In a concrete
DELTA run whose batch stages two records with the same product number,
the main merge aborts the shared transaction; run_etl's except block
then calls log_pipeline_failure on that same aborted connection, so the
ledger UPDATE itself raises InFailedSqlTransaction: the ledger row is
left in status RUNNING (never FAILED), rollback() is never reached (the
trace holds no rollback event and the connection stays aborted), and
the exception that propagates to the caller is InFailedSqlTransaction
instead of the original cardinality-violation error that run_etl_body
raised. -/
theorem c3_failure_path :
    (run_etl_body ("DELTA") 1000 [plainTuple ("E1") 10, plainTuple ("E1") 11]
      (some (freshConn initDb))).2.2
      = Except.error (PyErr.dbError DbError.cardinalityViolation)
  ∧ c3Run.2.2 = Except.error PyErr.inFailedSqlTransaction
  ∧ (c3Run.1.map (fun c => c.committed.ledger.map (fun r => r.status)))
      = some [("RUNNING")]
  ∧ (c3Run.2.1.filter (fun ev => ev.kind == EvKind.rollbackEv)).length = 0
  ∧ (c3Run.1.map (fun c => c.aborted)) = some true := by
  refine ⟨by decide, by decide, by decide, by decide, by decide⟩

/-- Counterexample to C2 as stated: a successful DELTA run whose staged
universe does not contain the pre-existing active main-table row "E0"
leaves that row active (is_active stays true), because run_etl passes
no soft-delete settings to the main-table finalize. -/
theorem c2_counterexample :
    c2Run.2.2 = Except.ok ()
  ∧ (c2Run.1.map (fun c => (tableOf c.committed ("epar_index")).map
      (fun r => (getCol r ("epar_id"), getCol r ("is_active")))))
      = some [(Value.str ("E0"), Value.bool true), (Value.str ("E1"), Value.bool true)] := by
  refine ⟨by decide, by decide⟩

/-- Counterexample to C7 as stated: in a successful run whose two
batches each discover the organization "O1", that external id is staged
and upserted twice — the dict-comprehension dedup of
_process_organizations is per batch, not across the whole run. -/
theorem c7_counterexample :
    c7Run.2.2 = Except.ok ()
  ∧ (c7Run.2.1.filter isOrgMergeEv).length = 2
  ∧ (c7Run.2.1.filter (orgCopyWith (Value.str ("O1")))).length = 2 := by
  refine ⟨by decide, by decide, by decide⟩

/-- setColVal does not change the column layout of a row. -/
theorem rowCols_setColVal {r : Row} {col : String} {v : Value} :
    rowCols (setColVal r col v) = rowCols r := by
  induction r with
  | nil => rfl
  | cons p t ih =>
    have hhead : (if (p.fst == col) = true then (p.fst, v) else p).fst = p.fst := by
      split <;> rfl
    show (if (p.fst == col) = true then (p.fst, v) else p).fst ::
        rowCols (setColVal t col v) = p.fst :: rowCols t
    rw [hhead, ih]

/-- Reading the written column after setColVal: the new value where the
column is present, NULL (column absent) otherwise. -/
theorem getCol_setColVal_self {r : Row} {col : String} {v : Value} :
    getCol (setColVal r col v) col = if col ∈ rowCols r then v else Value.null := by
  induction r with
  | nil => simp [setColVal, getCol, rowCols]
  | cons p t ih =>
    rcases p with ⟨n, w⟩
    by_cases h : n = col
    · subst h
      have hhead : setColVal ((n, w) :: t) n v = (n, v) :: setColVal t n v := by
        simp [setColVal]
      rw [hhead, getCol_cons, if_pos rfl]
      have hm : n ∈ rowCols ((n, w) :: t) := by
        rw [show rowCols ((n, w) :: t) = n :: rowCols t from rfl]
        exact List.mem_cons_self n (rowCols t)
      rw [if_pos hm]
    · have hhead : setColVal ((n, w) :: t) col v = (n, w) :: setColVal t col v := by
        simp [setColVal, h]
      rw [hhead, getCol_cons, if_neg h, ih]
      have hmem : (col ∈ rowCols ((n, w) :: t)) ↔ (col ∈ rowCols t) := by
        rw [show rowCols ((n, w) :: t) = n :: rowCols t from rfl]
        constructor
        · intro hc
          rcases List.mem_cons.mp hc with hc | hc
          · exact absurd hc.symm h
          · exact hc
        · intro hc
          exact List.mem_cons_of_mem _ hc
      by_cases hm : col ∈ rowCols t
      · rw [if_pos hm, if_pos (hmem.mpr hm)]
      · rw [if_neg hm, if_neg (fun hc => hm (hmem.mp hc))]

/-- Reading any other column after setColVal is unchanged. -/
theorem getCol_setColVal_other {r : Row} {col c : String} {v : Value}
    (h : ¬(c = col)) : getCol (setColVal r col v) c = getCol r c := by
  induction r with
  | nil => rfl
  | cons p t ih =>
    rcases p with ⟨n, w⟩
    by_cases hn : n = col
    · subst hn
      have hhead : setColVal ((n, w) :: t) n v = (n, v) :: setColVal t n v := by
        simp [setColVal]
      rw [hhead, getCol_cons, if_neg (fun hc => h hc.symm), getCol_cons,
        if_neg (fun hc => h hc.symm), ih]
    · have hhead : setColVal ((n, w) :: t) col v = (n, w) :: setColVal t col v := by
        simp [setColVal, hn]
      rw [hhead, getCol_cons, getCol_cons, ih]

/-- Pairs of a list zipped with its own map: the second component is
the image of the first. -/
theorem zip_map_self {A B : Type} {g : A -> B} :
    forall {l : List A}, forall p, p ∈ l.zip (l.map g) -> p.2 = g p.1 := by
  intro l
  induction l with
  | nil => intro p hp; simp at hp
  | cons a t ih =>
    intro p hp
    rw [List.map_cons, List.zip_cons_cons] at hp
    rcases List.mem_cons.mp hp with hp2 | hp2
    · subst hp2
      rfl
    · exact ih p hp2

/-- softDelete written through sdHit and setColVal. -/
theorem softDelete_eq_map {pks : List String} {col : String} {iv av : Value}
    {S T : Table} :
    softDelete pks col iv av S T =
      T.map (fun t => if sdHit pks col av S t then setColVal t col iv else t) := rfl

/-- The empty trace satisfies any event classification. -/
theorem evsOk_nil {P : EvKind → Prop} : evsOk P [] := by
  intro ev hev
  exact absurd hev (List.not_mem_nil ev)

/-- Event classifications are preserved by trace concatenation. -/
theorem evsOk_append {P : EvKind → Prop} {a b : List Ev}
    (ha : evsOk P a) (hb : evsOk P b) : evsOk P (a ++ b) := by
  intro ev hev
  rcases List.mem_append.mp hev with h | h
  · exact ha ev h
  · exact hb ev h

/-- pure emits no events. -/
theorem evsOk_pure {α : Type} {P : EvKind → Prop} {a : α} {c : Option Conn} :
    evsOk P ((pure a : EtlM α) c).2.1 := by
  rw [pure_apply]
  exact evsOk_nil

/-- An event classification closed under both steps is closed under
sequencing. -/
theorem evsOk_bind {α β : Type} {P : EvKind → Prop} {x : EtlM α} {f : α → EtlM β}
    {c : Option Conn} (hx : evsOk P (x c).2.1)
    (hf : ∀ a c1, evsOk P ((f a) c1).2.1) :
    evsOk P ((x >>= f) c).2.1 := by
  rcases hxc : x c with ⟨c1, e1, r⟩
  rcases r with e | a
  · rw [bind_err hxc]
    rw [hxc] at hx
    exact hx
  · rw [bind_ok hxc]
    rw [hxc] at hx
    exact evsOk_append hx (hf a c1)

/-- prepare_load never executes a soft-delete UPDATE. -/
theorem noSd_prepare_load (strategy target : String) (c? : Option Conn) :
    evsOk noSdKind (prepare_load strategy target c?).2.1 := by
  intro ev hev
  rcases c? with _ | c
  · simp [prepare_load] at hev
  · simp only [prepare_load] at hev
    split at hev
    · simp only [List.mem_singleton] at hev
      subst hev
      intro tg st pks col iv av h
      simp at h
    · split at hev
      · split at hev
        · simp only [List.mem_singleton] at hev
          subst hev
          intro tg st pks col iv av h
          simp at h
        · simp only [List.mem_cons, List.mem_singleton, List.not_mem_nil, or_false] at hev
          rcases hev with hev | hev <;>
            (subst hev; intro tg st pks col iv av h; simp at h)
      · simp at hev

/-- bulk_load_batch never executes a soft-delete UPDATE. -/
theorem noSd_bulk_load_batch (tuples : List (List Value)) (target : String)
    (columns : List String) (c? : Option Conn) :
    evsOk noSdKind (bulk_load_batch tuples target columns c?).2.1 := by
  intro ev hev
  rcases c? with _ | c
  · simp [bulk_load_batch] at hev
  · simp only [bulk_load_batch] at hev
    split at hev
    · simp only [List.mem_singleton] at hev
      subst hev
      intro tg st pks col iv av h
      simp at h
    · simp only [List.mem_cons, List.mem_singleton, List.not_mem_nil, or_false] at hev
      rcases hev with hev | hev <;>
        (subst hev; intro tg st pks col iv av h; simp at h)

/-- finalize with no soft-delete settings (as the orchestrator always
calls it) never executes a soft-delete UPDATE. -/
theorem noSd_finalize (strategy target : String) (st? : Option String)
    (cols? pks? : Option (List String)) (c? : Option Conn) :
    evsOk noSdKind (finalize strategy target st? cols? pks? none c?).2.1 := by
  intro ev hev
  rcases c? with _ | c
  · simp [finalize] at hev
  · by_cases hD : (pyUpper strategy == ("DELTA")) = true
    · rcases st? with _ | st
      · simp [finalize, hD] at hev
      · rcases cols? with _ | cols
        · simp [finalize, hD] at hev
        · rcases pks? with _ | pks
          · simp [finalize, hD] at hev
          · by_cases hg : (st == ("") || pks.isEmpty) = true
            · simp [finalize, hD, hg] at hev
            · rcases hm : (c.exec (Stmt.mergeInto target st cols pks)).2 with _ | e
              · rcases hd : ((c.exec (Stmt.mergeInto target st cols pks)).1.exec
                    (Stmt.dropTable st)).2 with _ | e2
                · simp [finalize, hD, hg, hm, hd] at hev
                  rcases hev with hev | hev | hev <;>
                    (subst hev; intro tg st2 pks2 col iv av hk; simp at hk)
                · simp [finalize, hD, hg, hm, hd] at hev
                  rcases hev with hev | hev <;>
                    (subst hev; intro tg st2 pks2 col iv av hk; simp at hk)
              · simp [finalize, hD, hg, hm] at hev
                subst hev
                intro tg st2 pks2 col iv av hk
                simp at hk
    · simp [finalize, hD] at hev
      subst hev
      intro tg st2 pks2 col iv av hk
      simp at hk

/-- get_latest_high_water_mark emits no events. -/
theorem noSd_get_hwm (c? : Option Conn) :
    evsOk noSdKind (get_latest_high_water_mark c?).2.1 := by
  rcases c? with _ | c <;> exact evsOk_nil

/-- log_pipeline_start never executes a soft-delete UPDATE. -/
theorem noSd_log_start (strategy : String) (c? : Option Conn) :
    evsOk noSdKind (log_pipeline_start strategy c?).2.1 := by
  intro ev hev
  rcases c? with _ | c
  · simp [log_pipeline_start] at hev
  · simp only [log_pipeline_start] at hev
    split at hev <;>
      (simp only [List.mem_cons, List.mem_singleton, List.not_mem_nil, or_false] at hev;
       first
        | (rcases hev with hev | hev <;>
            (subst hev; intro tg st pks col iv av h; simp at h))
        | (subst hev; intro tg st pks col iv av h; simp at h))

/-- log_pipeline_success never executes a soft-delete UPDATE. -/
theorem noSd_log_success (eid : Nat) (records : Int) (hwm : Option Value)
    (c? : Option Conn) :
    evsOk noSdKind (log_pipeline_success eid records hwm c?).2.1 := by
  intro ev hev
  rcases c? with _ | c
  · simp [log_pipeline_success] at hev
  · simp only [log_pipeline_success] at hev
    split at hev <;>
      (simp only [List.mem_cons, List.mem_singleton, List.not_mem_nil, or_false] at hev;
       first
        | (rcases hev with hev | hev <;>
            (subst hev; intro tg st pks col iv av h; simp at h))
        | (subst hev; intro tg st pks col iv av h; simp at h))

/-- log_pipeline_failure never executes a soft-delete UPDATE. -/
theorem noSd_log_failure (eid : Nat) (c? : Option Conn) :
    evsOk noSdKind (log_pipeline_failure eid c?).2.1 := by
  intro ev hev
  rcases c? with _ | c
  · simp [log_pipeline_failure] at hev
  · simp only [log_pipeline_failure] at hev
    split at hev <;>
      (simp only [List.mem_cons, List.mem_singleton, List.not_mem_nil, or_false] at hev;
       first
        | (rcases hev with hev | hev <;>
            (subst hev; intro tg st pks col iv av h; simp at h))
        | (subst hev; intro tg st pks col iv av h; simp at h))

/-- rollback never executes a soft-delete UPDATE. -/
theorem noSd_rollback (c? : Option Conn) : evsOk noSdKind (rollback c?).2.1 := by
  intro ev hev
  rcases c? with _ | c
  · simp [rollback] at hev
  · simp only [rollback, List.mem_singleton] at hev
    subst hev
    intro tg st pks col iv av h
    simp at h

/-- _process_organizations never executes a soft-delete UPDATE. -/
theorem noSd_process_organizations (orgs : List Row) (c? : Option Conn) :
    evsOk noSdKind (_process_organizations orgs c?).2.1 := by
  rw [_process_organizations]
  split
  · exact evsOk_pure
  · exact evsOk_bind (noSd_prepare_load _ _ _) (fun st c1 =>
      evsOk_bind (noSd_bulk_load_batch _ _ _ _) (fun n c2 =>
        evsOk_bind (noSd_finalize _ _ _ _ _ _) (fun _ c3 => evsOk_pure)))

/-- _process_substances never executes a soft-delete UPDATE. -/
theorem noSd_process_substances (subs : List Row) (c? : Option Conn) :
    evsOk noSdKind (_process_substances subs c?).2.1 := by
  rw [_process_substances]
  split
  · exact evsOk_pure
  · exact evsOk_bind (noSd_prepare_load _ _ _) (fun st c1 =>
      evsOk_bind (noSd_bulk_load_batch _ _ _ _) (fun n c2 =>
        evsOk_bind (noSd_finalize _ _ _ _ _ _) (fun _ c3 => evsOk_pure)))

/-- _process_substance_links never executes a soft-delete UPDATE. -/
theorem noSd_process_substance_links (links : List Row) (c? : Option Conn) :
    evsOk noSdKind (_process_substance_links links c?).2.1 := by
  rw [_process_substance_links]
  split
  · exact evsOk_pure
  · exact evsOk_bind (noSd_prepare_load _ _ _) (fun st c1 =>
      evsOk_bind (noSd_bulk_load_batch _ _ _ _) (fun n c2 =>
        evsOk_bind (noSd_finalize _ _ _ _ _ _) (fun _ c3 => evsOk_pure)))

/-- The batch loop never executes a soft-delete UPDATE. -/
theorem noSd_loopBatches (batches : List (List EtlTuple)) :
    ∀ (ms : String) (st : Int × Option Value × List Row) (c? : Option Conn),
    evsOk noSdKind (loopBatches ms batches st c?).2.1 := by
  induction batches with
  | nil =>
    intro ms st c?
    rw [show loopBatches ms [] st = pure st from rfl]
    exact evsOk_pure
  | cons b rest ih =>
    intro ms st c?
    rcases st with ⟨total, hwm, links⟩
    rw [loopBatches]
    split
    · exact ih ms _ c?
    · exact evsOk_bind (noSd_process_organizations _ _) (fun _ c1 =>
        evsOk_bind (noSd_process_substances _ _) (fun _ c2 =>
          evsOk_bind evsOk_pure (fun _ c3 =>
            evsOk_bind (noSd_bulk_load_batch _ _ _ _) (fun n c4 =>
              ih ms _ c4))))

/-- The body of run_etl never executes a soft-delete UPDATE. -/
theorem noSd_run_etl_body (strategy : String) (batchSize : Nat)
    (tuples : List EtlTuple) (c? : Option Conn) :
    evsOk noSdKind (run_etl_body strategy batchSize tuples c?).2.1 := by
  rw [run_etl_body]
  refine evsOk_bind (noSd_prepare_load _ _ _) (fun ms c1 => ?_)
  split
  · exact evsOk_bind (noSd_get_hwm _) (fun hwm0 c2 =>
      evsOk_bind (noSd_loopBatches _ _ _ _) (fun r c3 =>
        evsOk_bind (noSd_finalize _ _ _ _ _ _) (fun _ c4 =>
          evsOk_bind (noSd_process_substance_links _ _) (fun _ c5 => evsOk_pure))))
  · exact evsOk_bind evsOk_pure (fun hwm0 c2 =>
      evsOk_bind (noSd_loopBatches _ _ _ _) (fun r c3 =>
        evsOk_bind (noSd_finalize _ _ _ _ _ _) (fun _ c4 =>
          evsOk_bind (noSd_process_substance_links _ _) (fun _ c5 => evsOk_pure))))

/-- The except block of run_etl never executes a soft-delete UPDATE. -/
theorem noSd_handlerExcept (eid? : Option Nat) (e : PyErr) (c? : Option Conn) :
    evsOk noSdKind (handlerExcept eid? e c?).2.1 := by
  rcases eid? with _ | eid
  · rcases hr : rollback c? with ⟨c1, evs1, r⟩
    have h1 := noSd_rollback c?
    rw [hr] at h1
    simp only [handlerExcept, hr]
    exact h1
  · rcases hl : log_pipeline_failure eid c? with ⟨c1, evs1, r⟩
    have h1 := noSd_log_failure eid c?
    rw [hl] at h1
    rcases r with e2 | u
    · simp only [handlerExcept, hl]
      exact h1
    · rcases hr : rollback c1 with ⟨c2, evs2, r2⟩
      have h2 := noSd_rollback c1
      rw [hr] at h2
      simp only [handlerExcept, hl, hr]
      exact evsOk_append h1 h2

/-- run_etl never executes a soft-delete UPDATE on any path. -/
theorem noSd_run_etl (strategy : String) (batchSize : Nat)
    (tuples : List EtlTuple) (c? : Option Conn) :
    evsOk noSdKind (run_etl strategy batchSize tuples c?).2.1 := by
  rcases hs : log_pipeline_start strategy c? with ⟨c1, evs1, r1⟩
  have h1 := noSd_log_start strategy c?
  rw [hs] at h1
  rcases r1 with e | eid
  · rcases hh : handlerExcept none e c1 with ⟨c2, evs2, r2⟩
    have h2 := noSd_handlerExcept none e c1
    rw [hh] at h2
    simp only [run_etl, hs, hh]
    simpa only [List.append_assoc] using evsOk_append h1 h2
  · rcases hb : run_etl_body strategy batchSize tuples c1 with ⟨c2, evs2, r2⟩
    have h2 := noSd_run_etl_body strategy batchSize tuples c1
    rw [hb] at h2
    rcases r2 with e | res
    · rcases hh : handlerExcept (some eid) e c2 with ⟨c3, evs3, r3⟩
      have h3 := noSd_handlerExcept (some eid) e c2
      rw [hh] at h3
      simp only [run_etl, hs, hb, hh]
      simpa only [List.append_assoc] using evsOk_append h1 (evsOk_append h2 h3)
    · rcases hl : log_pipeline_success eid res.fst res.snd c2 with ⟨c3, evs3, r3⟩
      have h3 := noSd_log_success eid res.fst res.snd c2
      rw [hl] at h3
      rcases r3 with e | u
      · rcases hh : handlerExcept (some eid) e c3 with ⟨c4, evs4, r4⟩
        have h4 := noSd_handlerExcept (some eid) e c3
        rw [hh] at h4
        simp only [run_etl, hs, hb, hl, hh]
        simpa only [List.append_assoc] using
          evsOk_append h1 (evsOk_append h2 (evsOk_append h3 h4))
      · simp only [run_etl, hs, hb, hl]
        simpa only [List.append_assoc] using evsOk_append h1 (evsOk_append h2 h3)

/-- C2 (amended): the orchestrator's main-table finalize passes no
soft-delete settings, so no statement executed by any run — whatever
the strategy, batch size, input stream or starting connection — is the
soft-delete UPDATE (rows absent from the staged universe therefore keep
their is_active value, as the counterexample shows concretely).  The
adapter's soft-delete step itself, when driven with settings, behaves
as specified: it leaves the row count unchanged and, row by row,
rewrites exactly the target rows whose delete column equals the active
value and whose key matches no staged row, setting only that column
(where present) to the inactive value and leaving every other column
and every other row unchanged. -/
theorem c2_main_finalize_soft_delete :
    (∀ (strategy : String) (batchSize : Nat) (tuples : List EtlTuple)
       (c? : Option Conn), ∀ ev ∈ (run_etl strategy batchSize tuples c?).2.1,
       noSdKind ev.kind)
  ∧ (∀ (pks : List String) (col : String) (iv av : Value) (S T : Table),
       (softDelete pks col iv av S T).length = T.length
     ∧ ∀ p ∈ T.zip (softDelete pks col iv av S T),
         (sdHit pks col av S p.1 = false → p.2 = p.1)
       ∧ (sdHit pks col av S p.1 = true →
            rowCols p.2 = rowCols p.1
          ∧ getCol p.2 col = (if col ∈ rowCols p.1 then iv else Value.null)
          ∧ ∀ c2, ¬(c2 = col) → getCol p.2 c2 = getCol p.1 c2)) := by
  constructor
  · intro strategy batchSize tuples c? ev hev
    exact noSd_run_etl strategy batchSize tuples c? ev hev
  · intro pks col iv av S T
    constructor
    · rw [softDelete_eq_map, List.length_map]
    · intro p hp
      rw [softDelete_eq_map] at hp
      have hps := zip_map_self p hp
      constructor
      · intro hmiss
        rw [hps, if_neg (by simp [hmiss])]
      · intro hhit
        rw [hps, if_pos hhit]
        exact ⟨rowCols_setColVal, getCol_setColVal_self,
          fun c2 hc2 => getCol_setColVal_other hc2⟩

/-- The amended C2 property at a concrete input: the active row "E0",
absent from a staging holding only "E1", has is_active rewritten to
false by the adapter's soft-delete step. -/
theorem c2_main_finalize_soft_delete_witness :
    getCol ((softDelete [("epar_id")] ("is_active") (Value.bool false) (Value.bool true)
        [projectRow eparIndexCols (eparRow ("E1") 10)]
        [projectRow eparIndexCols (eparRow ("E0") 5)]).headD [])
      ("is_active") = Value.bool false := by
  have h := (c2_main_finalize_soft_delete.2 [("epar_id")] ("is_active")
      (Value.bool false) (Value.bool true)
      [projectRow eparIndexCols (eparRow ("E1") 10)]
      [projectRow eparIndexCols (eparRow ("E0") 5)]).2
      (projectRow eparIndexCols (eparRow ("E0") 5),
       (softDelete [("epar_id")] ("is_active") (Value.bool false) (Value.bool true)
        [projectRow eparIndexCols (eparRow ("E1") 10)]
        [projectRow eparIndexCols (eparRow ("E0") 5)]).headD [])
      (by decide)
  exact ((h.2 (by decide)).2.1).trans (by decide)

/-- Unequal values never compare SQL-equal. -/
theorem sqlEq_false_of_ne {u v : Value} (h : ¬(u = v)) : sqlEq u v = false := by
  by_cases hs : sqlEq u v = true
  · exact absurd (sqlEq_iff.mp hs).2.2 h
  · simpa using hs

/-- A single-column key match is the SQL equality of that column. -/
theorem pkMatch_single {key : String} {a b : Row} :
    pkMatch [key] a b = sqlEq (getCol a key) (getCol b key) := by
  rw [pkMatch]
  simp

/-- Zipping the model columns with a row rendered by rowToTuple recovers
the projected row (what COPY stages for a model instance). -/
theorem zip_rowToTuple {cols : List String} {r : Row} :
    cols.zip (rowToTuple cols r) = projectRow cols r := by
  induction cols with
  | nil => rfl
  | cons c0 rest ih =>
    show (c0, getCol r c0) :: rest.zip (rowToTuple rest r)
      = (c0, getCol r c0) :: projectRow rest r
    rw [ih]

/-- The non-empty filter by a key value has a last element, and that
element carries the key value. -/
theorem getLast_filter_key {key : String} {rows : List Row} {k : Value}
    (h : ∃ r ∈ rows, getCol r key = k) :
    ∃ r, (rows.filter (fun r2 => getCol r2 key == k)).getLast? = some r
      ∧ getCol r key = k := by
  obtain ⟨r0, hr0, hk0⟩ := h
  have hmem : r0 ∈ rows.filter (fun r2 => getCol r2 key == k) :=
    List.mem_filter.mpr ⟨hr0, by simp [hk0]⟩
  have hne : rows.filter (fun r2 => getCol r2 key == k) ≠ [] :=
    List.ne_nil_of_mem hmem
  refine ⟨(rows.filter (fun r2 => getCol r2 key == k)).getLast hne,
    List.getLast?_eq_getLast _ hne, ?_⟩
  have hm := List.getLast_mem hne
  have := (List.mem_filter.mp hm).2
  simpa using this

/-- Membership of the aux dedup: the not-yet-seen members of the input. -/
theorem mem_firstDedupAux {y : Value} :
    ∀ {l seen : List Value}, y ∈ firstDedupAux seen l ↔ (y ∈ l ∧ ¬(y ∈ seen)) := by
  intro l
  induction l with
  | nil => intro seen; simp [firstDedupAux]
  | cons x xs ih =>
    intro seen
    by_cases hc : seen.contains x = true
    · rw [firstDedupAux, if_pos hc, ih]
      constructor
      · rintro ⟨hy, hs⟩
        exact ⟨List.mem_cons_of_mem _ hy, hs⟩
      · rintro ⟨hy, hs⟩
        rcases List.mem_cons.mp hy with rfl | hy
        · exact absurd (show y ∈ seen by simpa using hc) hs
        · exact ⟨hy, hs⟩
    · rw [firstDedupAux, if_neg hc, List.mem_cons, ih]
      constructor
      · rintro (rfl | ⟨hy, hs⟩)
        · refine ⟨List.mem_cons_self _ _, fun hx => hc ?_⟩
          simpa using hx
        · refine ⟨List.mem_cons_of_mem _ hy, fun hys => hs (List.mem_cons_of_mem _ hys)⟩
      · rintro ⟨hy, hs⟩
        rcases List.mem_cons.mp hy with rfl | hy
        · exact Or.inl rfl
        · by_cases hyx : y = x
          · exact Or.inl hyx
          · exact Or.inr ⟨hy, fun hm => by
              rcases List.mem_cons.mp hm with h2 | h2
              · exact hyx h2
              · exact hs h2⟩

/-- The aux dedup result has no duplicates. -/
theorem nodup_firstDedupAux :
    ∀ (l seen : List Value), (firstDedupAux seen l).Nodup := by
  intro l
  induction l with
  | nil => intro seen; simp [firstDedupAux]
  | cons x xs ih =>
    intro seen
    by_cases hc : seen.contains x = true
    · rw [firstDedupAux, if_pos hc]
      exact ih seen
    · rw [firstDedupAux, if_neg hc]
      refine List.Nodup.cons ?_ (ih (x :: seen))
      intro hx
      exact (mem_firstDedupAux.mp hx).2 (List.mem_cons_self _ _)

/-- Membership of firstDedup is membership of the input. -/
theorem mem_firstDedup {y : Value} {l : List Value} :
    y ∈ firstDedup l ↔ y ∈ l := by
  rw [firstDedup, mem_firstDedupAux]
  simp

/-- firstDedup has no duplicates. -/
theorem nodup_firstDedup (l : List Value) : (firstDedup l).Nodup :=
  nodup_firstDedupAux l []

/-- The keys of the dedup result are exactly the distinct input keys,
in order of first occurrence. -/
theorem dedup_keys_map {key : String} {rows : List Row} :
    (dedupLastWins key rows).map (fun r => getCol r key)
      = firstDedup (rows.map (fun r => getCol r key)) := by
  rw [dedupLastWins, List.map_map]
  have h2 : ∀ k ∈ firstDedup (rows.map (fun r => getCol r key)),
      ((fun r => getCol r key) ∘ (fun k =>
        match (rows.filter (fun r => getCol r key == k)).getLast? with
        | some r => r
        | none => [])) k = k := by
    intro k hk
    have hk2 : k ∈ rows.map (fun r => getCol r key) := mem_firstDedup.mp hk
    obtain ⟨r0, hr0, hk0⟩ := List.mem_map.mp hk2
    obtain ⟨r, hr, hrk⟩ := getLast_filter_key ⟨r0, hr0, hk0⟩
    simp only [Function.comp]
    rw [hr]
    exact hrk
  rw [List.map_congr_left h2, List.map_id']

/-- Each dedup survivor is the last input row carrying its key
(last-seen-wins). -/
theorem dedup_last_wins {key : String} {rows : List Row} :
    ∀ r ∈ dedupLastWins key rows,
      (rows.filter (fun r2 => getCol r2 key == getCol r key)).getLast? = some r := by
  intro r hr
  rw [dedupLastWins] at hr
  obtain ⟨k, hk, hrk⟩ := List.mem_map.mp hr
  have hk2 : k ∈ rows.map (fun r => getCol r key) := mem_firstDedup.mp hk
  obtain ⟨r0, hr0, hk0⟩ := List.mem_map.mp hk2
  obtain ⟨r1, hlast, hr1k⟩ := getLast_filter_key ⟨r0, hr0, hk0⟩
  rw [hlast] at hrk
  have hr1 : r1 = r := hrk
  subst hr1
  rw [hr1k]
  exact hlast

/-- A staging table built from deduplicated rows has no key conflicts:
the merge of a deduplicated batch never trips the cardinality
violation. -/
theorem hasDupKeys_dedup {cols : List String} {key : String} {rows : List Row}
    (hk : key ∈ cols) :
    hasDupKeys cols [key] (((dedupLastWins key rows).map (rowToTuple cols)).map
      (fun t => cols.zip t)) = false := by
  rw [hasDupKeys_false_iff, List.map_map]
  simp only [Function.comp_def]
  rw [List.map_congr_left (fun (r : Row) _ =>
    (zip_rowToTuple : cols.zip (rowToTuple cols r) = projectRow cols r))]
  rw [stagingDistinct, List.pairwise_map]
  have hnd : ((dedupLastWins key rows).map (fun r => getCol r key)).Nodup := by
    rw [dedup_keys_map]
    exact nodup_firstDedup _
  refine List.Pairwise.imp ?_ (List.pairwise_map.mp hnd)
  intro a b hne
  rw [pkMatch_single]
  apply sqlEq_false_of_ne
  rw [getCol_projectRow, if_pos hk, getCol_projectRow, if_pos hk,
    getCol_projectRow, if_pos hk, getCol_projectRow, if_pos hk]
  exact hne

/-- C7 (amended): master-data deduplication is per batch (the
per-run claim fails, see the counterexample): within one batch,
_process_organizations deduplicates by the external id oms_id with
last-seen-wins — the staged keys are exactly the batch's distinct key
values in first-occurrence order, and each survivor is the last row of
the batch with its key — and runs one DELTA upsert cycle keyed on
oms_id whose staging holds exactly one row per distinct external id,
so the same id is never upserted more than once per batch. -/
theorem c7_master_data_dedup :
    (∀ (key : String) (rows : List Row),
       ((dedupLastWins key rows).map (fun r => getCol r key))
         = firstDedup (rows.map (fun r => getCol r key))
     ∧ ((dedupLastWins key rows).map (fun r => getCol r key)).Nodup
     ∧ (∀ r ∈ dedupLastWins key rows,
         (rows.filter (fun r2 => getCol r2 key == getCol r key)).getLast? = some r))
  ∧ (∀ (orgs : List Row) (c : Conn) (T : Table),
       orgs.isEmpty = false →
       c.aborted = false →
       c.current.getTable? ("organizations") = some T →
         (_process_organizations orgs (some c)).2.2
           = Except.ok (Int.ofNat (dedupLastWins ("oms_id") orgs).length)
       ∧ ∃ db : Database,
           (_process_organizations orgs (some c)).1 = some ⟨db, db, false⟩
         ∧ db.getTable? ("organizations")
             = some (mergeDelta organizationsCols [("oms_id")] T
                 ((dedupLastWins ("oms_id") orgs).map
                   (fun r => projectRow organizationsCols r)))
         ∧ db.getTable? (("staging_") ++ ("organizations")) = none) := by
  constructor
  · intro key rows
    refine ⟨dedup_keys_map, ?_, dedup_last_wins⟩
    rw [dedup_keys_map]
    exact nodup_firstDedup _
  · intro orgs c T hne hab hT
    have heq : _process_organizations orgs (some c) =
        deltaCycle ("organizations") organizationsCols [("oms_id")]
          ((dedupLastWins ("oms_id") orgs).map (rowToTuple organizationsCols))
          (some c) := by
      rw [_process_organizations, if_neg (by simp [hne])]
      rfl
    have hdup : ((!(updateCols organizationsCols [("oms_id")]).isEmpty)
        && hasDupKeys organizationsCols [("oms_id")]
          ((((dedupLastWins ("oms_id") orgs).map (rowToTuple organizationsCols))).map
            (fun t => organizationsCols.zip t))) = false := by
      rw [hasDupKeys_dedup (by decide)]
      simp
    have he := deltaCycle_effect (c := c) ("organizations")
      organizationsCols [("oms_id")]
      ((dedupLastWins ("oms_id") orgs).map (rowToTuple organizationsCols))
      hab hT (by simp) hdup
    have hsr : ((dedupLastWins ("oms_id") orgs).map (rowToTuple organizationsCols)).map
        (fun t => organizationsCols.zip t)
        = (dedupLastWins ("oms_id") orgs).map
            (fun r => projectRow organizationsCols r) := by
      rw [List.map_map]
      exact List.map_congr_left (fun (r : Row) _ =>
        (zip_rowToTuple : organizationsCols.zip (rowToTuple organizationsCols r)
          = projectRow organizationsCols r))
    constructor
    · rw [heq, he.2.1, List.length_map]
    · refine ⟨deltaCycleDb c.current ("organizations") organizationsCols [("oms_id")]
        ((dedupLastWins ("oms_id") orgs).map (rowToTuple organizationsCols)) T,
        ?_, ?_, ?_⟩
      · rw [heq]
        exact he.1
      · rw [← hsr]
        exact he.2.2.1
      · exact he.2.2.2

/-- The amended C7 property at a concrete input: a batch with two rows
for "O1" (differing names) and one for "O2" stages keys O1, O2 once
each, keeping the later O1 row. -/
theorem c7_master_data_dedup_witness :
    ((dedupLastWins ("oms_id") [orgRow ("O1"), orgRow ("O2"),
        [(("oms_id"), Value.str ("O1")), (("organization_name"), Value.str ("new"))]]).map
      (fun r => getCol r ("oms_id")))
      = [Value.str ("O1"), Value.str ("O2")]
  ∧ ([orgRow ("O1"), orgRow ("O2"),
        [(("oms_id"), Value.str ("O1")), (("organization_name"), Value.str ("new"))]].filter
      (fun r2 => getCol r2 ("oms_id") == getCol ([(("oms_id"), Value.str ("O1")),
        (("organization_name"), Value.str ("new"))] : Row) ("oms_id"))).getLast?
      = some [(("oms_id"), Value.str ("O1")), (("organization_name"), Value.str ("new"))] := by
  have h := c7_master_data_dedup.1 ("oms_id")
    [orgRow ("O1"), orgRow ("O2"),
     [(("oms_id"), Value.str ("O1")), (("organization_name"), Value.str ("new"))]]
  refine ⟨h.1.trans (by decide), ?_⟩
  exact h.2.2 [(("oms_id"), Value.str ("O1")), (("organization_name"), Value.str ("new"))]
    (by decide)

/-- A value's minute timestamp lies within its day. -/
theorem valMinutes_lt (v : Value) : valMinutes v < 1440 * (valDay v + 1) := by
  rcases v with _ | s | n | b | d | t <;> simp [valMinutes, valDay] <;> omega

/-- Inversion of a successful sequencing: both steps succeeded. -/
theorem bind_ok_inv {α β : Type} {x : EtlM α} {f : α → EtlM β} {c : Option Conn}
    {res : β} (h : ((x >>= f) c).2.2 = Except.ok res) :
    ∃ c1 e1 a, x c = (c1, e1, Except.ok a) ∧ ((f a) c1).2.2 = Except.ok res := by
  rcases hx : x c with ⟨c1, e1, r⟩
  rcases r with e | a
  · rw [bind_err hx] at h
    exact absurd h (by simp)
  · rw [bind_ok hx] at h
    exact ⟨c1, e1, a, rfl, h⟩

/-- The running mark only ever grows (as a point in time; a datetime
mark replaced by a strictly later day moves forward). -/
theorem hwm_mono : ∀ (rds : List Nat) (v w : Value),
    hwmFold (some v) rds = some w → valMinutes v ≤ valMinutes w := by
  intro rds
  induction rds with
  | nil =>
    intro v w h
    have h2 : v = w := Option.some.inj h
    rw [h2]
  | cons rd rest ih =>
    intro v w h
    rw [show hwmFold (some v) (rd :: rest) = hwmFold (hwmStep (some v) rd) rest from rfl] at h
    by_cases hlt : valDay v < rd
    · rw [show hwmStep (some v) rd = if valDay v < rd then some (.date rd) else some v
        from rfl, if_pos hlt] at h
      have h2 := ih (Value.date rd) w h
      have h3 := valMinutes_lt v
      have h4 : valMinutes (Value.date rd) = rd * 1440 := rfl
      rw [h4] at h2
      omega
    · rw [show hwmStep (some v) rd = if valDay v < rd then some (.date rd) else some v
        from rfl, if_neg hlt] at h
      exact ih v w h

/-- The final mark is the initial one or the date of some folded
record. -/
theorem hwm_cases : ∀ (rds : List Nat) (init : Option Value),
    hwmFold init rds = init ∨ ∃ rd ∈ rds, hwmFold init rds = some (Value.date rd) := by
  intro rds
  induction rds with
  | nil => intro init; exact Or.inl rfl
  | cons rd rest ih =>
    intro init
    have hstep : hwmFold init (rd :: rest) = hwmFold (hwmStep init rd) rest := rfl
    rcases init with _ | v
    · have h0 : hwmStep none rd = some (Value.date rd) := rfl
      rcases ih (some (Value.date rd)) with h | ⟨rd2, hm, h⟩
      · exact Or.inr ⟨rd, List.mem_cons_self _ _, by rw [hstep, h0, h]⟩
      · exact Or.inr ⟨rd2, List.mem_cons_of_mem _ hm, by rw [hstep, h0, h]⟩
    · by_cases hlt : valDay v < rd
      · have h0 : hwmStep (some v) rd = some (Value.date rd) := by
          rw [show hwmStep (some v) rd = if valDay v < rd then some (.date rd) else some v
            from rfl, if_pos hlt]
        rcases ih (some (Value.date rd)) with h | ⟨rd2, hm, h⟩
        · exact Or.inr ⟨rd, List.mem_cons_self _ _, by rw [hstep, h0, h]⟩
        · exact Or.inr ⟨rd2, List.mem_cons_of_mem _ hm, by rw [hstep, h0, h]⟩
      · have h0 : hwmStep (some v) rd = some v := by
          rw [show hwmStep (some v) rd = if valDay v < rd then some (.date rd) else some v
            from rfl, if_neg hlt]
        rcases ih (some v) with h | ⟨rd2, hm, h⟩
        · exact Or.inl (by rw [hstep, h0, h])
        · exact Or.inr ⟨rd2, List.mem_cons_of_mem _ hm, by rw [hstep, h0, h]⟩

/-- Folding from a date mark computes the running maximum day. -/
theorem hwmFold_date : ∀ (rds : List Nat) (d : Nat),
    hwmFold (some (Value.date d)) rds = some (Value.date (rds.foldl Nat.max d)) := by
  intro rds
  induction rds with
  | nil => intro d; rfl
  | cons rd rest ih =>
    intro d
    have hstep : hwmStep (some (Value.date d)) rd = some (Value.date (Nat.max d rd)) := by
      rw [show hwmStep (some (Value.date d)) rd
        = if valDay (Value.date d) < rd then some (.date rd) else some (Value.date d)
        from rfl]
      by_cases hlt : d < rd
      · rw [if_pos (by simpa [valDay] using hlt),
          show Nat.max d rd = rd from by rw [show Nat.max d rd = if d ≤ rd then rd else d from rfl]; split <;> omega]
      · rw [if_neg (by simpa [valDay] using hlt),
          show Nat.max d rd = d from by rw [show Nat.max d rd = if d ≤ rd then rd else d from rfl]; split <;> omega]
    show hwmFold (hwmStep (some (Value.date d)) rd) rest = _
    rw [hstep, ih]
    rfl

/-- Over a non-empty stream of records all strictly fresher than the
mark (the CDC guarantee of extract_data), the fold lands exactly on the
stream's maximum day. -/
theorem hwmFold_fresh : ∀ (v : Value) (rds : List Nat),
    (∀ rd ∈ rds, valDay v < rd) → ¬(rds = []) →
    hwmFold (some v) rds = some (Value.date (rds.foldl Nat.max 0)) := by
  intro v rds hall hne
  rcases rds with _ | ⟨rd, rest⟩
  · exact absurd rfl hne
  · have hstep : hwmStep (some v) rd = some (Value.date rd) := by
      rw [show hwmStep (some v) rd = if valDay v < rd then some (.date rd) else some v
        from rfl, if_pos (hall rd (List.mem_cons_self _ _))]
    show hwmFold (hwmStep (some v) rd) rest = _
    rw [hstep, hwmFold_date,
      show List.foldl Nat.max 0 (rd :: rest) = List.foldl Nat.max (Nat.max 0 rd) rest
        from rfl, show Nat.max 0 rd = rd from by rw [show Nat.max 0 rd = if 0 ≤ rd then rd else 0 from rfl]; split <;> omega]

/-- From no previous mark, the fold lands on the stream's maximum
day. -/
theorem hwmFold_none : ∀ (rds : List Nat), ¬(rds = []) →
    hwmFold none rds = some (Value.date (rds.foldl Nat.max 0)) := by
  intro rds hne
  rcases rds with _ | ⟨rd, rest⟩
  · exact absurd rfl hne
  · show hwmFold (hwmStep none rd) rest = _
    rw [show hwmStep none rd = some (Value.date rd) from rfl, hwmFold_date,
      show List.foldl Nat.max 0 (rd :: rest) = List.foldl Nat.max (Nat.max 0 rd) rest
        from rfl, show Nat.max 0 rd = rd from by rw [show Nat.max 0 rd = if 0 ≤ rd then rd else 0 from rfl]; split <;> omega]

/-- Greedy batching loses and reorders nothing. -/
theorem batchAcc_flatten {α : Type} : ∀ (l acc : List α) (n : Nat),
    (batchAcc l acc n).flatten = acc ++ l := by
  intro l
  induction l with
  | nil =>
    intro acc n
    rw [batchAcc]
    by_cases he : acc.isEmpty = true
    · rw [if_pos he]
      have : acc = [] := by simpa using he
      simp [this]
    · rw [if_neg he]
      simp
  | cons x xs ih =>
    intro acc n
    rw [batchAcc]
    by_cases hn : n ≤ (acc ++ [x]).length
    · rw [if_pos hn]
      simp [ih]
    · rw [if_neg hn]
      simp [ih]

/-- The mark component of a successful batch loop is the pure fold of
the streamed records' cursor days over the initial mark. -/
theorem loop_hwm : ∀ (batches : List (List EtlTuple)) (ms : String) (t : Int)
    (h : Option Value) (l : List Row) (c? : Option Conn)
    (res : Int × Option Value × List Row),
    (loopBatches ms batches (t, h, l) c?).2.2 = Except.ok res →
    res.2.1 = hwmFold h
      ((batches.map (fun b => b.map (fun tu => recCursorDay tu.record))).flatten) := by
  intro batches
  induction batches with
  | nil =>
    intro ms t h l c? res hok
    rw [show loopBatches ms [] (t, h, l) = pure (t, h, l) from rfl, pure_apply] at hok
    have h2 : (t, h, l) = res := Except.ok.inj hok
    rw [← h2]
    rfl
  | cons b rest ih =>
    intro ms t h l c? res hok
    rw [loopBatches] at hok
    by_cases hemp : b.isEmpty = true
    · rw [if_pos hemp] at hok
      have hb : b = [] := by simpa using hemp
      subst hb
      have h2 := ih ms t h l c? res hok
      simpa using h2
    · rw [if_neg hemp] at hok
      obtain ⟨c1, e1, n1, h1, hok⟩ := bind_ok_inv hok
      obtain ⟨c2, e2, n2, h2, hok⟩ := bind_ok_inv hok
      obtain ⟨c3, e3, n3, h3, hok⟩ := bind_ok_inv hok
      obtain ⟨c4, e4, n4, h4, hok⟩ := bind_ok_inv hok
      have h5 := ih ms (t + n4) ((b.map (fun tu => recCursorDay tu.record)).foldl hwmStep h)
        (l ++ (b.map (fun tu => tu.links)).flatten) c4 res hok
      rw [h5]
      rw [show ((b :: rest).map (fun b2 => b2.map (fun tu => recCursorDay tu.record))).flatten
        = (b.map (fun tu => recCursorDay tu.record))
          ++ ((rest.map (fun b2 => b2.map (fun tu => recCursorDay tu.record))).flatten)
        from by simp]
      rw [hwmFold, hwmFold, List.foldl_append]

/-- C4: the mark component of every successful batch loop is the fold
of the loaded records' cursor days (batching neither loses nor reorders
records, so these are exactly the records the extractor let through —
skipped or quarantined rows never reach the fold); folding nothing
leaves the mark unchanged; the fold is monotone in time; the final mark
is the initial one or the date of some loaded record, never anything
else; and over records all strictly fresher than the mark (the CDC
filter guarantee), as well as from an empty mark, it is exactly the
maximum loaded cursor day. -/
theorem c4_high_water_mark :
    (∀ (ms : String) (batches : List (List EtlTuple)) (t : Int) (h : Option Value)
       (l : List Row) (c? : Option Conn) (res : Int × Option Value × List Row),
       (loopBatches ms batches (t, h, l) c?).2.2 = Except.ok res →
       res.2.1 = hwmFold h
         ((batches.map (fun b => b.map (fun tu => recCursorDay tu.record))).flatten))
  ∧ (∀ (tuples : List EtlTuple) (n : Nat), (batchAcc tuples [] n).flatten = tuples)
  ∧ (∀ init : Option Value, hwmFold init [] = init)
  ∧ (∀ (rds : List Nat) (v w : Value),
       hwmFold (some v) rds = some w → valMinutes v ≤ valMinutes w)
  ∧ (∀ (init : Option Value) (rds : List Nat),
       hwmFold init rds = init ∨ ∃ rd ∈ rds, hwmFold init rds = some (Value.date rd))
  ∧ (∀ (v : Value) (rds : List Nat), (∀ rd ∈ rds, valDay v < rd) → ¬(rds = []) →
       hwmFold (some v) rds = some (Value.date (rds.foldl Nat.max 0)))
  ∧ (∀ (rds : List Nat), ¬(rds = []) →
       hwmFold none rds = some (Value.date (rds.foldl Nat.max 0))) := by
  refine ⟨fun ms batches t h l c? res hok => loop_hwm batches ms t h l c? res hok,
    ?_, ?_, hwm_mono, ?_, hwmFold_fresh, hwmFold_none⟩
  · intro tuples n
    exact batchAcc_flatten tuples [] n
  · intro init
    rfl
  · intro init rds
    exact hwm_cases rds init

/-- The C4 property at a concrete input: from mark day 5, loading
records of days 10 and 7 moves the mark to day 10, which is not
earlier than day 5. -/
theorem c4_high_water_mark_witness :
    hwmFold (some (Value.date 5)) [10, 7] = some (Value.date 10)
  ∧ valMinutes (Value.date 5) ≤ valMinutes (Value.date 10) := by
  have hF := c4_high_water_mark.2.2.2.2.2.1 (Value.date 5) [10, 7]
    (by decide) (by decide)
  have h1 : hwmFold (some (Value.date 5)) [10, 7] = some (Value.date 10) :=
    hF.trans (by decide)
  exact ⟨h1, c4_high_water_mark.2.2.2.1 [10, 7] (Value.date 5) (Value.date 10) h1⟩

/-- Unescaping steps over any character other than a backslash. -/
theorem unescape_cons_ne {ch : Char} {xs : List Char} (h : ¬(ch = '\\')) :
    unescapeChars (ch :: xs) = ch :: unescapeChars xs := by
  rw [unescapeChars.eq_def]
  split <;> simp_all

/-- Unescaping inverts escaping: the COPY text escapes are read back
exactly. -/
theorem unescape_escape : ∀ l : List Char, unescapeChars (escapeChars l) = l := by
  intro l
  induction l with
  | nil => rfl
  | cons c rest ih =>
    rw [escapeChars]
    by_cases h1 : c = '\\'
    · subst h1
      rw [if_pos rfl]
      show unescapeChars ('\\' :: '\\' :: escapeChars rest) = _
      rw [show unescapeChars ('\\' :: '\\' :: escapeChars rest)
        = '\\' :: unescapeChars (escapeChars rest) from rfl, ih]
    · rw [if_neg h1]
      by_cases h2 : c = '\n'
      · subst h2
        rw [if_pos rfl]
        show unescapeChars ('\\' :: 'n' :: escapeChars rest) = _
        rw [show unescapeChars ('\\' :: 'n' :: escapeChars rest)
          = '\n' :: unescapeChars (escapeChars rest) from rfl, ih]
      · rw [if_neg h2]
        by_cases h3 : c = '\r'
        · subst h3
          rw [if_pos rfl]
          show unescapeChars ('\\' :: 'r' :: escapeChars rest) = _
          rw [show unescapeChars ('\\' :: 'r' :: escapeChars rest)
            = '\r' :: unescapeChars (escapeChars rest) from rfl, ih]
        · rw [if_neg h3]
          by_cases h4 : c = '\t'
          · subst h4
            rw [if_pos rfl]
            show unescapeChars ('\\' :: 't' :: escapeChars rest) = _
            rw [show unescapeChars ('\\' :: 't' :: escapeChars rest)
              = '\t' :: unescapeChars (escapeChars rest) from rfl, ih]
          · rw [if_neg h4]
            show unescapeChars (c :: escapeChars rest) = _
            rw [unescape_cons_ne h1, ih]

/-- Escaped output never contains a raw tab, newline or carriage
return (the COPY field and record delimiters). -/
theorem escape_no_delims : ∀ (l : List Char), ∀ ch ∈ escapeChars l,
    ¬(ch = '\t') ∧ ¬(ch = '\n') ∧ ¬(ch = '\r') := by
  intro l
  induction l with
  | nil =>
    intro ch h
    simp [escapeChars] at h
  | cons c rest ih =>
    intro ch h
    rw [escapeChars] at h
    rcases List.mem_append.mp h with h | h
    · by_cases h1 : c = '\\'
      · simp [h1] at h
        subst h
        exact ⟨by decide, by decide, by decide⟩
      · by_cases h2 : c = '\n'
        · simp [h1, h2] at h
          rcases h with h | h <;> (subst h; exact ⟨by decide, by decide, by decide⟩)
        · by_cases h3 : c = '\r'
          · simp [h1, h2, h3] at h
            rcases h with h | h <;> (subst h; exact ⟨by decide, by decide, by decide⟩)
          · by_cases h4 : c = '\t'
            · simp [h1, h2, h3, h4] at h
              rcases h with h | h <;> (subst h; exact ⟨by decide, by decide, by decide⟩)
            · simp [h1, h2, h3, h4] at h
              subst h
              exact ⟨h4, h2, h3⟩
    · exact ih ch h

/-- Escaped output is never the bare null token, so a non-None field is
never read back as NULL. -/
theorem escape_ne_nullToken : ∀ l : List Char, ¬(escapeChars l = ['\\', 'N']) := by
  intro l h
  cases l with
  | nil => simp [escapeChars] at h
  | cons c rest =>
    rw [escapeChars] at h
    by_cases h1 : c = '\\'
    · simp [h1] at h
    · by_cases h2 : c = '\n'
      · simp [h1, h2] at h
      · by_cases h3 : c = '\r'
        · simp [h1, h2, h3] at h
        · by_cases h4 : c = '\t'
          · simp [h1, h2, h3, h4] at h
          · simp [h1, h2, h3, h4] at h

/-- Splitting a tab-free suffix yields a single field. -/
theorem splitFields_tabfree : ∀ (l cur : List Char),
    (∀ ch ∈ l, ¬(ch = '\t')) → splitFields cur l = [cur ++ l] := by
  intro l
  induction l with
  | nil => intro cur hfree; simp [splitFields]
  | cons c rest ih =>
    intro cur hfree
    rw [splitFields, if_neg (hfree c (List.mem_cons_self _ _))]
    rw [ih (cur ++ [c]) (fun ch hch => hfree ch (List.mem_cons_of_mem _ hch))]
    simp

/-- Splitting consumes a tab-free field up to the next tab. -/
theorem splitFields_append : ∀ (f cur rest : List Char),
    (∀ ch ∈ f, ¬(ch = '\t')) →
    splitFields cur (f ++ '\t' :: rest) = (cur ++ f) :: splitFields [] rest := by
  intro f
  induction f with
  | nil =>
    intro cur rest hfree
    rw [List.nil_append, splitFields, if_pos rfl]
    simp
  | cons c f2 ih =>
    intro cur rest hfree
    rw [List.cons_append, splitFields, if_neg (hfree c (List.mem_cons_self _ _))]
    rw [ih (cur ++ [c]) rest (fun ch hch => hfree ch (List.mem_cons_of_mem _ hch))]
    simp

/-- Splitting the tab-joined rendering of tab-free fields recovers the
fields. -/
theorem split_intersperse : ∀ (fields : List (List Char)), ¬(fields = []) →
    (∀ f ∈ fields, ∀ ch ∈ f, ¬(ch = '\t')) →
    splitFields [] ((List.intersperse ['\t'] fields).flatten) = fields := by
  intro fields
  induction fields with
  | nil => intro h; exact absurd rfl h
  | cons f rest ih =>
    intro _ hfree
    rcases rest with _ | ⟨g, rest2⟩
    · show splitFields [] (f ++ []) = [f]
      rw [List.append_nil]
      rw [splitFields_tabfree f [] (hfree f (List.mem_cons_self _ _))]
      rfl
    · show splitFields [] ((f :: ['\t'] :: List.intersperse ['\t'] (g :: rest2)).flatten) = _
      rw [show ((f :: ['\t'] :: List.intersperse ['\t'] (g :: rest2)).flatten : List Char)
        = f ++ '\t' :: (List.intersperse ['\t'] (g :: rest2)).flatten from by simp]
      rw [splitFields_append f [] _ (hfree f (List.mem_cons_self _ _))]
      rw [ih (by simp) (fun f2 hf2 => hfree f2 (List.mem_cons_of_mem _ hf2))]
      simp

/-- The read loop conserves the stream: nothing is dropped or
duplicated between buffer and pending chunks. -/
theorem fillBuffer_conserve : ∀ (chunks : List (List Char)) (buffer : List Char)
    (size : Nat),
    (fillBuffer buffer chunks size).1 ++ (fillBuffer buffer chunks size).2.flatten
      = buffer ++ chunks.flatten := by
  intro chunks
  induction chunks with
  | nil => intro buffer size; simp [fillBuffer]
  | cons ch rest ih =>
    intro buffer size
    rw [fillBuffer]
    by_cases hle : size ≤ buffer.length
    · rw [if_pos hle]
    · rw [if_neg hle, ih (buffer ++ ch) size]
      simp

/-- C9: bulk_load_batch renders None as the COPY null token \N and
escapes backslash, newline, carriage return and tab exactly as the text
COPY format reads them back (escaping round-trips, escaped fields
contain no raw delimiter, a non-null field is never mistaken for the
null token, and a whole rendered line parses back to the original
values); it returns the exact number of rows loaded and never the
unknown count -1; and the streaming wrapper never materializes the
batch: a read that the buffer can already serve consumes no generator
chunk, returns at most the requested size, and the stream is conserved
between output, buffer and pending chunks. -/
theorem c9_bulk_load :
    formatValueChars Value.null = ['\\', 'N']
  ∧ (∀ l : List Char, unescapeChars (escapeChars l) = l)
  ∧ (∀ l : List Char, ∀ ch ∈ escapeChars l,
       ¬(ch = '\t') ∧ ¬(ch = '\n') ∧ ¬(ch = '\r'))
  ∧ (∀ row : List Value, ¬(row = []) →
       copyParseLine ((formatRowChars row).dropLast)
         = row.map (fun v => if v = Value.null then none else some (pyStr v).data))
  ∧ (∀ (tuples : List (List Value)) (target : String) (columns : List String)
       (c : Conn) (D : Table), c.aborted = false →
       c.current.getTable? target = some D →
       (bulk_load_batch tuples target columns (some c)).2.2
         = Except.ok (Int.ofNat tuples.length)
       ∧ ¬((bulk_load_batch tuples target columns (some c)).2.2
            = Except.ok (-1 : Int)))
  ∧ (∀ (buffer : List Char) (chunks : List (List Char)) (size : Nat),
       size ≤ buffer.length → fillBuffer buffer chunks size = (buffer, chunks))
  ∧ (∀ (st : StreamState) (size : Nat),
       (readSized st size).1.length ≤ size
     ∧ (readSized st size).1 ++ ((readSized st size).2.buffer
         ++ (readSized st size).2.chunks.flatten)
         = st.buffer ++ st.chunks.flatten) := by
  refine ⟨rfl, unescape_escape, escape_no_delims, ?_, ?_, ?_, ?_⟩
  · intro row hrow
    have hfree : ∀ f ∈ row.map formatValueChars, ∀ ch ∈ f, ¬(ch = '\t') := by
      intro f hf ch hch
      rcases List.mem_map.mp hf with ⟨v, hv, rfl⟩
      rcases v with _ | s | n | b | d | t
      · have h2 : ch = '\\' ∨ ch = 'N' := by simpa [formatValueChars] using hch
        rcases h2 with rfl | rfl <;> decide
      all_goals exact (escape_no_delims _ ch hch).1
    have hdl : (formatRowChars row).dropLast
        = (List.intersperse ['\t'] (row.map formatValueChars)).flatten := by
      rw [formatRowChars, List.dropLast_concat]
    rw [hdl, copyParseLine,
      split_intersperse (row.map formatValueChars) (by simp [hrow]) hfree,
      List.map_map]
    apply List.map_congr_left
    intro v hv
    rcases v with _ | s | n | b | d | t
    · simp only [Function.comp_apply, formatValueChars]
      rw [copyParseField, if_pos rfl]
      simp
    all_goals (
      simp only [Function.comp_apply, formatValueChars]
      rw [copyParseField, if_neg (escape_ne_nullToken _), unescape_escape]
      simp [pyStr])
  · intro tuples target columns c D hab hD
    have h := bulk_load_batch_effect tuples columns hab hD
    constructor
    · rw [h]
    · rw [h]
      intro h2
      have h3 : Int.ofNat tuples.length = (-1 : Int) := Except.ok.inj h2
      have h4 : (0 : Int) ≤ Int.ofNat tuples.length := Int.ofNat_nonneg _
      omega
  · intro buffer chunks size hle
    cases chunks with
    | nil => rfl
    | cons ch rest => rw [fillBuffer, if_pos hle]
  · intro st size
    constructor
    · rw [readSized]
      exact List.length_take_le size _
    · rw [readSized]
      show (fillBuffer st.buffer st.chunks size).1.take size
        ++ ((fillBuffer st.buffer st.chunks size).1.drop size
          ++ (fillBuffer st.buffer st.chunks size).2.flatten)
        = st.buffer ++ st.chunks.flatten
      rw [← List.append_assoc, List.take_append_drop]
      exact fillBuffer_conserve st.chunks st.buffer size

/-- The C9 property at a concrete input: a row holding a string with a
tab, a NULL and an int renders to one COPY line that parses back to the
same values, and the row count returned for a one-row batch on a live
connection is exactly 1. -/
theorem c9_bulk_load_witness :
    copyParseLine ((formatRowChars
        [Value.str (("a\tb")), Value.null, Value.int 3]).dropLast)
      = [some (("a\tb") : String).data, none, some (("3") : String).data]
  ∧ (bulk_load_batch [[Value.int 1]] (("t")) [(("c"))]
      (some (freshConn ⟨[((("t")), [])], []⟩))).2.2
      = Except.ok (Int.ofNat 1) := by
  constructor
  · have h := c9_bulk_load.2.2.2.1 [Value.str (("a\tb")), Value.null, Value.int 3]
      (by decide)
    exact h.trans (by decide)
  · exact (c9_bulk_load.2.2.2.2.1 [[Value.int 1]] (("t")) [(("c"))]
      (freshConn ⟨[((("t")), [])], []⟩) [] rfl rfl).1

/-- A column absent from a row reads NULL. -/
theorem getCol_absent {r : Row} {c : String} (h : ¬(c ∈ rowCols r)) :
    getCol r c = Value.null := by
  induction r with
  | nil => rfl
  | cons p rest ih =>
    rcases p with ⟨n, w⟩
    have hn : ¬(n = c) := fun he => h (by
      rw [show rowCols ((n, w) :: rest) = n :: rowCols rest from rfl, ← he]
      exact List.mem_cons_self _ _)
    rw [getCol_cons, if_neg hn]
    exact ih (fun hm => h (by
      rw [show rowCols ((n, w) :: rest) = n :: rowCols rest from rfl]
      exact List.mem_cons_of_mem _ hm))

/-- An index into a concatenation lands in the left part (with its
element) or in the right part (with its element). -/
theorem append_get_cases : ∀ (l1 l2 : List Ev) (i : Nat) (hi : i < (l1 ++ l2).length),
    (i < l1.length ∧ (l1 ++ l2).get ⟨i, hi⟩ ∈ l1)
    ∨ (l1.length ≤ i ∧ (l1 ++ l2).get ⟨i, hi⟩ ∈ l2) := by
  intro l1
  induction l1 with
  | nil =>
    intro l2 i hi
    right
    exact ⟨Nat.zero_le i, List.get_mem _ _ _⟩
  | cons x rest ih =>
    intro l2 i hi
    cases i with
    | zero =>
      left
      refine ⟨Nat.succ_pos _, ?_⟩
      rw [show ((x :: rest ++ l2 : List Ev).get ⟨0, hi⟩) = x from rfl]
      exact List.mem_cons_self _ _
    | succ k =>
      have hk : k < (rest ++ l2).length := by
        have := hi
        simp only [List.cons_append, List.length_cons] at this
        omega
      rcases ih l2 k hk with ⟨h1, h2⟩ | ⟨h1, h2⟩
      · left
        refine ⟨Nat.succ_lt_succ h1, ?_⟩
        rw [show ((x :: rest ++ l2 : List Ev).get ⟨k + 1, hi⟩)
          = (rest ++ l2).get ⟨k, hk⟩ from rfl]
        exact List.mem_cons_of_mem _ h2
      · right
        refine ⟨Nat.succ_le_succ h1, ?_⟩
        rw [show ((x :: rest ++ l2 : List Ev).get ⟨k + 1, hi⟩)
          = (rest ++ l2).get ⟨k, hk⟩ from rfl]
        exact h2

/-- If nothing right of the split satisfies p and nothing left of it
satisfies q, every p-event precedes every q-event. -/
theorem before_of_append {l1 l2 : List Ev} {p q : Ev → Bool}
    (hp : ∀ ev ∈ l2, p ev = false) (hq : ∀ ev ∈ l1, q ev = false) :
    ∀ (i j : Nat) (hi : i < (l1 ++ l2).length) (hj : j < (l1 ++ l2).length),
      p ((l1 ++ l2).get ⟨i, hi⟩) = true → q ((l1 ++ l2).get ⟨j, hj⟩) = true → i < j := by
  intro i j hi hj hpi hqj
  have hi2 : i < l1.length := by
    rcases append_get_cases l1 l2 i hi with ⟨h1, _⟩ | ⟨_, h2⟩
    · exact h1
    · rw [hp _ h2] at hpi
      exact absurd hpi (by simp)
  have hj2 : l1.length ≤ j := by
    rcases append_get_cases l1 l2 j hj with ⟨_, h2⟩ | ⟨h1, _⟩
    · rw [hq _ h2] at hqj
      exact absurd hqj (by simp)
    · exact h1
  omega

/-- Some result row of an upsert carries every non-updated column of a
given target row (target rows are never dropped and their keys never
rewritten). -/
theorem upsert_keeps_cols {cols pks : List String} {T : Table} {s : Row} :
    ∀ t ∈ T, ∃ u ∈ upsertRow cols pks T s,
      ∀ c2, ¬(c2 ∈ updateCols cols pks) → getCol u c2 = getCol t c2 := by
  intro t ht
  by_cases hc : T.any (fun x => pkMatch pks x (projectRow cols s)) = true
  · by_cases hup : updateCols cols pks = []
    · exact ⟨t, by rw [upsert_conflict_nothing hc hup]; exact ht, fun c2 _ => rfl⟩
    · by_cases hm : pkMatch pks t (projectRow cols s) = true
      · exact ⟨setNonKey cols pks t (projectRow cols s), mem_upsert_updated ht hm hup,
          fun c2 hc2 => getCol_setNonKey_pk hc2⟩
      · exact ⟨t, mem_upsert_untouched ht (by simpa using hm), fun c2 _ => rfl⟩
  · exact ⟨t, by
      rw [upsert_noconflict (by simpa using hc)]
      exact List.mem_append_left _ ht, fun c2 _ => rfl⟩

/-- Some result row of a whole merge carries every non-updated column
of a given target row. -/
theorem merge_keeps_cols {cols pks : List String} {S : Table} :
    ∀ {T : Table}, ∀ t ∈ T, ∃ u ∈ mergeDelta cols pks T S,
      ∀ c2, ¬(c2 ∈ updateCols cols pks) → getCol u c2 = getCol t c2 := by
  induction S with
  | nil => intro T t ht; exact ⟨t, ht, fun _ _ => rfl⟩
  | cons s rest ih =>
    intro T t ht
    obtain ⟨u1, hu1, he1⟩ := upsert_keeps_cols (s := s) t ht
    obtain ⟨u, hu, he⟩ := ih u1 hu1
    refine ⟨u, by rw [mergeDelta_cons]; exact hu, fun c2 hc2 => (he c2 hc2).trans (he1 c2 hc2)⟩

/-- A column-value property holding on the target and on the staged
projections holds on every upsert result row. -/
theorem upsert_col_pred {cols pks : List String} {T : Table} {s : Row}
    {P : Value → Prop} {colx : String}
    (hT : ∀ t ∈ T, P (getCol t colx)) (hs : P (getCol (projectRow cols s) colx)) :
    ∀ u ∈ upsertRow cols pks T s, P (getCol u colx) := by
  intro u hu
  unfold upsertRow at hu
  by_cases hc : T.any (fun x => pkMatch pks x (projectRow cols s)) = true
  · rw [if_pos (by simp [hc])] at hu
    by_cases hup : updateCols cols pks = []
    · rw [if_pos hup] at hu
      exact hT u hu
    · rw [if_neg hup] at hu
      rcases List.mem_map.mp hu with ⟨t, ht, rfl⟩
      by_cases hm : pkMatch pks t (projectRow cols s) = true
      · simp only [hm, if_true]
        by_cases h1 : colx ∈ updateCols cols pks
        · by_cases h2 : colx ∈ rowCols t
          · rw [getCol_setNonKey_mem h1 h2]
            exact hs
          · have h3 := hT t ht
            rw [getCol_absent h2] at h3
            rw [getCol_absent (by rw [rowCols_setNonKey]; exact h2)]
            exact h3
        · rw [getCol_setNonKey_pk h1]
          exact hT t ht
      · simp only [hm, Bool.false_eq_true, if_false]
        exact hT t ht
  · rw [if_neg (by simpa using hc)] at hu
    rcases List.mem_append.mp hu with h | h
    · exact hT u h
    · rw [List.mem_singleton] at h
      subst h
      exact hs

/-- A column-value property holding on the target and on all staged
projections holds on every merge result row. -/
theorem merge_col_pred {cols pks : List String} {S : Table} {P : Value → Prop}
    (colx : String) (hs : ∀ s ∈ S, P (getCol (projectRow cols s) colx)) :
    ∀ {T : Table}, (∀ t ∈ T, P (getCol t colx)) →
    ∀ u ∈ mergeDelta cols pks T S, P (getCol u colx) := by
  induction S with
  | nil => intro T hT u hu; exact hT u hu
  | cons s rest ih =>
    intro T hT u hu
    rw [mergeDelta_cons] at hu
    exact ih (fun s2 h2 => hs s2 (List.mem_cons_of_mem _ h2))
      (upsert_col_pred hT (hs s (List.mem_cons_self _ _))) u hu

/-- Reference integrity ignores the ledger. -/
theorem refsDb_ledger {db : Database} {L : List LedgerRow} (h : refsDb db) :
    refsDb { db with ledger := L } := h

/-- One successful DELTA cycle in full: final connection (committed),
complete event trace with its committed snapshots, and exact count. -/
theorem deltaCycle_full {c : Conn} (target : String) (cols pks : List String)
    (tuples : List (List Value)) {T : Table}
    (hab : c.aborted = false) (hT : c.current.getTable? target = some T)
    (hpks : pks ≠ [])
    (hdup : ((!(updateCols cols pks).isEmpty)
      && hasDupKeys cols pks (tuples.map (fun t => cols.zip t))) = false) :
    deltaCycle target cols pks tuples (some c) =
      (some ⟨deltaCycleDb c.current target cols pks tuples T,
             deltaCycleDb c.current target cols pks tuples T, false⟩,
       [⟨.execStmt (.dropTableIfExists (("staging_") ++ target)), c.committed⟩,
        ⟨.execStmt (.createUnloggedLike (("staging_") ++ target) target), c.committed⟩,
        ⟨.execStmt (.copyFrom (("staging_") ++ target) cols
          (tuples.map (fun t => cols.zip t))), c.committed⟩,
        ⟨.execStmt (.mergeInto target (("staging_") ++ target) cols pks), c.committed⟩,
        ⟨.execStmt (.dropTable (("staging_") ++ target)), c.committed⟩,
        ⟨.commitEv, deltaCycleDb c.current target cols pks tuples T⟩],
       Except.ok (Int.ofNat tuples.length)) := by
  have hne := staging_ne_target target
  have e1 := prepare_load_delta_effect hab hT
  have hab1 : ({ c with current := ((c.current.dropTable (("staging_") ++ target)).setTable
      (("staging_") ++ target) []) } : Conn).aborted = false := hab
  have hst1 : ((c.current.dropTable (("staging_") ++ target)).setTable
      (("staging_") ++ target) []).getTable? (("staging_") ++ target) = some [] := by
    rw [getTable?_setTable, if_pos rfl]
  have e2 : bulk_load_batch tuples (("staging_") ++ target) cols
      (some { c with current := ((c.current.dropTable (("staging_") ++ target)).setTable
        (("staging_") ++ target) []) }) =
      (some { c with current := (((c.current.dropTable (("staging_") ++ target)).setTable
        (("staging_") ++ target) []).setTable (("staging_") ++ target)
        (tuples.map (fun t => cols.zip t))) },
       [⟨.execStmt (.copyFrom (("staging_") ++ target) cols
         (tuples.map (fun t => cols.zip t))), c.committed⟩],
       Except.ok (Int.ofNat tuples.length)) := by
    have := bulk_load_batch_effect tuples cols hab1 hst1
    simpa using this
  have hab2 : ({ c with current := (((c.current.dropTable (("staging_") ++ target)).setTable
      (("staging_") ++ target) []).setTable (("staging_") ++ target)
      (tuples.map (fun t => cols.zip t))) } : Conn).aborted = false := hab
  have hT2 : ((((c.current.dropTable (("staging_") ++ target)).setTable
      (("staging_") ++ target) []).setTable (("staging_") ++ target)
      (tuples.map (fun t => cols.zip t)))).getTable? target = some T := by
    rw [getTable?_setTable, if_neg hne, getTable?_setTable, if_neg hne,
      getTable?_dropTable, if_neg hne]
    exact hT
  have hS2 : ((((c.current.dropTable (("staging_") ++ target)).setTable
      (("staging_") ++ target) []).setTable (("staging_") ++ target)
      (tuples.map (fun t => cols.zip t)))).getTable? (("staging_") ++ target) =
      some (tuples.map (fun t => cols.zip t)) := by
    rw [getTable?_setTable, if_pos rfl]
  have e3 := finalize_delta_effect cols pks none hab2 hT2 hS2
    (staging_ne_empty target) hpks hne hdup
  simp only [deltaCycle, bind_ok e1, bind_ok e2, bind_ok e3, pure_apply]
  simp [deltaCycleDb, sdApply]

/-- Table lookups in the state after one DELTA cycle: staging gone,
target merged, everything else untouched. -/
theorem getTable?_deltaCycleDb {db : Database} {target : String} {cols pks : List String}
    {tuples : List (List Value)} {T : Table} (n : String) :
    (deltaCycleDb db target cols pks tuples T).getTable? n =
      if (("staging_") ++ target) = n then none
      else if target = n then
        some (mergeDelta cols pks T (tuples.map (fun t => cols.zip t)))
      else db.getTable? n := by
  rw [deltaCycleDb, getTable?_dropTable]
  by_cases h1 : (("staging_") ++ target) = n
  · rw [if_pos h1, if_pos h1]
  · rw [if_neg h1, if_neg h1, getTable?_setTable]
    by_cases h2 : target = n
    · rw [if_pos h2, if_pos h2]
    · rw [if_neg h2, if_neg h2, getTable?_setTable, if_neg h1, getTable?_setTable,
        if_neg h1, getTable?_dropTable, if_neg h1]

/-- A non-NULL value is SQL-equal to itself. -/
theorem sqlEq_self {v : Value} (h : ¬(v = Value.null)) : sqlEq v v = true := by
  rcases v with _ | s | n | b | d | t
  · exact absurd rfl h
  all_goals simp [sqlEq]

/-- An organization reference stays resolvable when every organization
key survives into the new table. -/
theorem refOkRow_mono {O1 O2 : Table} {r : Row}
    (hkeys : ∀ o ∈ O1, ∃ o2 ∈ O2, getCol o2 ("oms_id") = getCol o ("oms_id"))
    (h : refOkRow O1 r) : refOkRow O2 r := by
  rcases h with h | ⟨o, ho, hs⟩
  · exact Or.inl h
  · obtain ⟨o2, ho2, he⟩ := hkeys o ho
    exact Or.inr ⟨o2, ho2, by rw [he]; exact hs⟩

/-- The last element of a list is a member. -/
theorem mem_of_getLast? {l : List Row} {a : Row} (h : l.getLast? = some a) : a ∈ l := by
  cases l with
  | nil => cases h
  | cons x xs =>
    have hne : x :: xs ≠ [] := by simp
    rw [List.getLast?_eq_getLast _ hne] at h
    have hm := List.getLast_mem hne
    exact (Option.some.inj h) ▸ hm

/-- Dedup survivors come from the input. -/
theorem dedup_mem {key : String} {rows : List Row} :
    ∀ r ∈ dedupLastWins key rows, r ∈ rows := by
  intro r hr
  have h := dedup_last_wins r hr
  exact List.mem_of_mem_filter (mem_of_getLast? h)

/-- Hoare-style summary of _process_organizations on a live connection:
it succeeds, touches only the organizations tables, keeps every
existing organization key, establishes every incoming organization key,
and every event snapshot is the old committed state or the new
(committed) state. -/
theorem process_orgs_refs (orgs : List Row) {c : Conn}
    (hab : c.aborted = false)
    (hOrg : (c.current.getTable? ("organizations")).isSome)
    (hkd : keysDistinct [("oms_id")] (tableOf c.current ("organizations")))
    (horgs : ∀ o ∈ orgs, ¬(getCol o ("oms_id") = Value.null)) :
    ∃ (cf : Conn) (evs : List Ev) (n : Int),
      _process_organizations orgs (some c) = (some cf, evs, Except.ok n)
    ∧ cf.aborted = false
    ∧ (∀ n2, ¬(("organizations") = n2) → ¬((("staging_") ++ ("organizations")) = n2) →
        cf.current.getTable? n2 = c.current.getTable? n2)
    ∧ (cf.current.getTable? ("organizations")).isSome
    ∧ keysDistinct [("oms_id")] (tableOf cf.current ("organizations"))
    ∧ (∀ o ∈ tableOf c.current ("organizations"),
        ∃ o2 ∈ tableOf cf.current ("organizations"),
          getCol o2 ("oms_id") = getCol o ("oms_id"))
    ∧ (∀ o ∈ orgs, ∃ o2 ∈ tableOf cf.current ("organizations"),
        sqlEq (getCol o2 ("oms_id")) (getCol o ("oms_id")) = true)
    ∧ (cf.committed = c.committed ∨ cf.committed = cf.current)
    ∧ (∀ ev ∈ evs, (ev.committedAfter = c.committed ∨ ev.committedAfter = cf.current)
        ∧ isMainMergeEv ev = false ∧ isLinkEv ev = false) := by
  by_cases hemp : orgs.isEmpty = true
  · have hnil : orgs = [] := by simpa using hemp
    subst hnil
    exact ⟨c, [], 0, rfl, hab, fun n2 _ _ => rfl, hOrg, hkd,
      fun o ho => ⟨o, ho, rfl⟩, by simp, Or.inl rfl, by simp⟩
  · obtain ⟨T, hT⟩ := Option.isSome_iff_exists.mp hOrg
    have hTt : tableOf c.current ("organizations") = T := by
      rw [tableOf, hT]
      rfl
    have hemp2 : orgs.isEmpty = false := by
      revert hemp
      cases orgs.isEmpty <;> simp
    have heq : _process_organizations orgs (some c) =
        deltaCycle ("organizations") organizationsCols [("oms_id")]
          ((dedupLastWins ("oms_id") orgs).map (rowToTuple organizationsCols)) (some c) := by
      rw [_process_organizations, if_neg (by simp [hemp2])]
      rfl
    have hsr : (((dedupLastWins ("oms_id") orgs).map (rowToTuple organizationsCols)).map
        (fun t => organizationsCols.zip t))
        = (dedupLastWins ("oms_id") orgs).map (fun r => projectRow organizationsCols r) := by
      rw [List.map_map]
      exact List.map_congr_left (fun (r : Row) _ => zip_rowToTuple)
    have hdup : ((!(updateCols organizationsCols [("oms_id")]).isEmpty)
        && hasDupKeys organizationsCols [("oms_id")]
          ((((dedupLastWins ("oms_id") orgs).map (rowToTuple organizationsCols))).map
            (fun t => organizationsCols.zip t))) = false := by
      rw [hasDupKeys_dedup (by decide)]
      simp
    have hfull := deltaCycle_full (c := c) ("organizations")
      organizationsCols [("oms_id")]
      ((dedupLastWins ("oms_id") orgs).map (rowToTuple organizationsCols))
      (T := T) hab hT (by simp) hdup
    have horgTable : (deltaCycleDb c.current ("organizations") organizationsCols
        [("oms_id")] ((dedupLastWins ("oms_id") orgs).map (rowToTuple organizationsCols))
        T).getTable? ("organizations") =
        some (mergeDelta organizationsCols [("oms_id")] T
          ((dedupLastWins ("oms_id") orgs).map (fun r => projectRow organizationsCols r))) := by
      rw [getTable?_deltaCycleDb, if_neg (by decide), if_pos rfl, hsr]
    have htof : tableOf (deltaCycleDb c.current ("organizations") organizationsCols
        [("oms_id")] ((dedupLastWins ("oms_id") orgs).map (rowToTuple organizationsCols)) T)
        ("organizations")
        = mergeDelta organizationsCols [("oms_id")] T
            ((dedupLastWins ("oms_id") orgs).map (fun r => projectRow organizationsCols r)) := by
      rw [tableOf, horgTable]
      rfl
    have hkdT : keysDistinct [("oms_id")] T := hTt ▸ hkd
    have hsd : stagingDistinct organizationsCols [("oms_id")]
        ((dedupLastWins ("oms_id") orgs).map (fun r => projectRow organizationsCols r)) := by
      have h0 := @hasDupKeys_dedup organizationsCols ("oms_id") orgs (by decide)
      rw [hsr] at h0
      exact hasDupKeys_false_iff.mp h0
    have hself : ∀ s ∈ (dedupLastWins ("oms_id") orgs).map
        (fun r => projectRow organizationsCols r),
        selfKeyed [("oms_id")] (projectRow organizationsCols s) := by
      intro s hs
      rcases List.mem_map.mp hs with ⟨r2, hr2, rfl⟩
      have hr2o : r2 ∈ orgs := dedup_mem r2 hr2
      have hnn : ¬(getCol r2 ("oms_id") = Value.null) := horgs r2 hr2o
      rw [selfKeyed, pkMatch_single, getCol_projectRow, if_pos (by decide),
        getCol_projectRow, if_pos (by decide)]
      exact sqlEq_self hnn
    refine ⟨⟨deltaCycleDb c.current ("organizations") organizationsCols [("oms_id")]
        ((dedupLastWins ("oms_id") orgs).map (rowToTuple organizationsCols)) T,
      deltaCycleDb c.current ("organizations") organizationsCols [("oms_id")]
        ((dedupLastWins ("oms_id") orgs).map (rowToTuple organizationsCols)) T, false⟩,
      _, _, by rw [heq]; exact hfull, rfl, ?_, ?_, ?_, ?_, ?_, Or.inr rfl, ?_⟩
    · intro n2 h1 h2
      rw [getTable?_deltaCycleDb, if_neg h2, if_neg h1]
    · rw [horgTable]
      rfl
    · rw [htof]
      exact keysDistinct_merge hkdT
    · intro o ho
      obtain ⟨u, hu, he⟩ := merge_keeps_cols (S := (dedupLastWins ("oms_id") orgs).map
        (fun r => projectRow organizationsCols r)) o (hTt ▸ ho)
      refine ⟨u, by rw [htof]; exact hu, he ("oms_id") (by decide)⟩
    · intro o ho
      have hkmem : getCol o ("oms_id") ∈ orgs.map (fun r => getCol r ("oms_id")) :=
        List.mem_map_of_mem _ ho
      have h2 : getCol o ("oms_id") ∈ firstDedup (orgs.map (fun r => getCol r ("oms_id"))) :=
        mem_firstDedup.mpr hkmem
      have h3 : getCol o ("oms_id") ∈ (dedupLastWins ("oms_id") orgs).map
          (fun r => getCol r ("oms_id")) := by
        rw [dedup_keys_map]
        exact h2
      obtain ⟨r2, hr2, hrk⟩ := List.mem_map.mp h3
      have habs := merge_establishes hkdT hsd hself (projectRow organizationsCols r2)
        (List.mem_map_of_mem _ hr2)
      obtain ⟨u, hu, hum, _⟩ := habs
      refine ⟨u, by rw [htof]; exact hu, ?_⟩
      rw [pkMatch_single] at hum
      rw [getCol_projectRow, if_pos (by decide), getCol_projectRow, if_pos (by decide),
        hrk] at hum
      exact hum
    · intro ev hev
      simp only [List.mem_cons, List.not_mem_nil, or_false] at hev
      rcases hev with rfl | rfl | rfl | rfl | rfl | rfl
      · exact ⟨Or.inl rfl, rfl, rfl⟩
      · exact ⟨Or.inl rfl, rfl, rfl⟩
      · exact ⟨Or.inl rfl, rfl, rfl⟩
      · exact ⟨Or.inl rfl, rfl, rfl⟩
      · exact ⟨Or.inl rfl, rfl, rfl⟩
      · exact ⟨Or.inr rfl, rfl, rfl⟩

/-- Hoare-style summary of _process_substances: it succeeds, touches
only the substances tables, and every event snapshot is the old
committed state or the new state. -/
theorem process_subs_frame (subs : List Row) {c : Conn}
    (hab : c.aborted = false)
    (hSub : (c.current.getTable? ("substances")).isSome) :
    ∃ (cf : Conn) (evs : List Ev) (n : Int),
      _process_substances subs (some c) = (some cf, evs, Except.ok n)
    ∧ cf.aborted = false
    ∧ (∀ n2, ¬(("substances") = n2) → ¬((("staging_") ++ ("substances")) = n2) →
        cf.current.getTable? n2 = c.current.getTable? n2)
    ∧ (cf.current.getTable? ("substances")).isSome
    ∧ (cf.committed = c.committed ∨ cf.committed = cf.current)
    ∧ (∀ ev ∈ evs, (ev.committedAfter = c.committed ∨ ev.committedAfter = cf.current)
        ∧ isMainMergeEv ev = false ∧ isLinkEv ev = false) := by
  by_cases hemp : subs.isEmpty = true
  · have hnil : subs = [] := by simpa using hemp
    subst hnil
    exact ⟨c, [], 0, rfl, hab, fun n2 _ _ => rfl, hSub, Or.inl rfl, by simp⟩
  · obtain ⟨T, hT⟩ := Option.isSome_iff_exists.mp hSub
    have hemp2 : subs.isEmpty = false := by
      revert hemp
      cases subs.isEmpty <;> simp
    have heq : _process_substances subs (some c) =
        deltaCycle ("substances") substancesCols [("spor_substance_id")]
          ((dedupLastWins ("spor_substance_id") subs).map (rowToTuple substancesCols))
          (some c) := by
      rw [_process_substances, if_neg (by simp [hemp2])]
      rfl
    have hdup : ((!(updateCols substancesCols [("spor_substance_id")]).isEmpty)
        && hasDupKeys substancesCols [("spor_substance_id")]
          ((((dedupLastWins ("spor_substance_id") subs).map (rowToTuple substancesCols))).map
            (fun t => substancesCols.zip t))) = false := by
      rw [hasDupKeys_dedup (by decide)]
      simp
    have hfull := deltaCycle_full (c := c) ("substances")
      substancesCols [("spor_substance_id")]
      ((dedupLastWins ("spor_substance_id") subs).map (rowToTuple substancesCols))
      (T := T) hab hT (by simp) hdup
    refine ⟨⟨deltaCycleDb c.current ("substances") substancesCols [("spor_substance_id")]
        ((dedupLastWins ("spor_substance_id") subs).map (rowToTuple substancesCols)) T,
      deltaCycleDb c.current ("substances") substancesCols [("spor_substance_id")]
        ((dedupLastWins ("spor_substance_id") subs).map (rowToTuple substancesCols)) T,
      false⟩,
      _, _, by rw [heq]; exact hfull, rfl, ?_, ?_, Or.inr rfl, ?_⟩
    · intro n2 h1 h2
      rw [getTable?_deltaCycleDb, if_neg h2, if_neg h1]
    · rw [getTable?_deltaCycleDb, if_neg (by decide), if_pos rfl]
      rfl
    · intro ev hev
      simp only [List.mem_cons, List.not_mem_nil, or_false] at hev
      rcases hev with rfl | rfl | rfl | rfl | rfl | rfl
      · exact ⟨Or.inl rfl, rfl, rfl⟩
      · exact ⟨Or.inl rfl, rfl, rfl⟩
      · exact ⟨Or.inl rfl, rfl, rfl⟩
      · exact ⟨Or.inl rfl, rfl, rfl⟩
      · exact ⟨Or.inl rfl, rfl, rfl⟩
      · exact ⟨Or.inr rfl, rfl, rfl⟩

/-- Hoare-style summary of _process_substance_links on a connection
whose accumulated links all resolve in the current main table: it
succeeds, touches only the link tables, every row of the resulting
link table resolves in the main table, and every event snapshot is the
old committed state or the new state; no event is a master-data or
main-table merge. -/
theorem process_links_refs (links : List Row) {c : Conn}
    (hab : c.aborted = false)
    (hLink : (c.current.getTable? ("epar_substance_link")).isSome)
    (hold : ∀ lrow ∈ tableOf c.current ("epar_substance_link"),
        ∃ r ∈ tableOf c.current ("epar_index"),
          sqlEq (getCol lrow ("epar_id")) (getCol r ("epar_id")) = true)
    (hrefs : ∀ lk ∈ links, ∃ r ∈ tableOf c.current ("epar_index"),
        sqlEq (getCol lk ("epar_id")) (getCol r ("epar_id")) = true) :
    ∃ (cf : Conn) (evs : List Ev) (n : Int),
      _process_substance_links links (some c) = (some cf, evs, Except.ok n)
    ∧ cf.aborted = false
    ∧ (∀ n2, ¬(("epar_substance_link") = n2) →
        ¬((("staging_") ++ ("epar_substance_link")) = n2) →
        cf.current.getTable? n2 = c.current.getTable? n2)
    ∧ (∀ lrow ∈ tableOf cf.current ("epar_substance_link"),
        ∃ r ∈ tableOf cf.current ("epar_index"),
          sqlEq (getCol lrow ("epar_id")) (getCol r ("epar_id")) = true)
    ∧ (cf.committed = c.committed ∨ cf.committed = cf.current)
    ∧ (∀ ev ∈ evs, (ev.committedAfter = c.committed ∨ ev.committedAfter = cf.current)
        ∧ isMasterMergeEv ev = false ∧ isMainMergeEv ev = false) := by
  by_cases hemp : links.isEmpty = true
  · have hnil : links = [] := by simpa using hemp
    subst hnil
    exact ⟨c, [], 0, rfl, hab, fun n2 _ _ => rfl, hold, Or.inl rfl, by simp⟩
  · obtain ⟨T, hT⟩ := Option.isSome_iff_exists.mp hLink
    have hTt : tableOf c.current ("epar_substance_link") = T := by
      rw [tableOf, hT]
      rfl
    have hemp2 : links.isEmpty = false := by
      revert hemp
      cases links.isEmpty <;> simp
    have heq : _process_substance_links links (some c) =
        deltaCycle ("epar_substance_link") eparSubstanceLinkCols
          [("epar_id"), ("spor_substance_id")]
          (links.map (rowToTuple eparSubstanceLinkCols)) (some c) := by
      rw [_process_substance_links, if_neg (by simp [hemp2])]
      rfl
    have hdup : ((!(updateCols eparSubstanceLinkCols
        [("epar_id"), ("spor_substance_id")]).isEmpty)
        && hasDupKeys eparSubstanceLinkCols [("epar_id"), ("spor_substance_id")]
          ((links.map (rowToTuple eparSubstanceLinkCols)).map
            (fun t => eparSubstanceLinkCols.zip t))) = false := by
      rw [show (!(updateCols eparSubstanceLinkCols
        [("epar_id"), ("spor_substance_id")]).isEmpty) = false from by decide,
        Bool.false_and]
    have hfull := deltaCycle_full (c := c) ("epar_substance_link")
      eparSubstanceLinkCols [("epar_id"), ("spor_substance_id")]
      (links.map (rowToTuple eparSubstanceLinkCols))
      (T := T) hab hT (by simp) hdup
    have hsr : ((links.map (rowToTuple eparSubstanceLinkCols)).map
        (fun t => eparSubstanceLinkCols.zip t))
        = links.map (fun r => projectRow eparSubstanceLinkCols r) := by
      rw [List.map_map]
      exact List.map_congr_left (fun (r : Row) _ => zip_rowToTuple)
    have hlinkTable : (deltaCycleDb c.current ("epar_substance_link")
        eparSubstanceLinkCols [("epar_id"), ("spor_substance_id")]
        (links.map (rowToTuple eparSubstanceLinkCols)) T).getTable?
        ("epar_substance_link") =
        some (mergeDelta eparSubstanceLinkCols [("epar_id"), ("spor_substance_id")] T
          (links.map (fun r => projectRow eparSubstanceLinkCols r))) := by
      rw [getTable?_deltaCycleDb, if_neg (by decide), if_pos rfl, hsr]
    refine ⟨⟨deltaCycleDb c.current ("epar_substance_link") eparSubstanceLinkCols
        [("epar_id"), ("spor_substance_id")]
        (links.map (rowToTuple eparSubstanceLinkCols)) T,
      deltaCycleDb c.current ("epar_substance_link") eparSubstanceLinkCols
        [("epar_id"), ("spor_substance_id")]
        (links.map (rowToTuple eparSubstanceLinkCols)) T, false⟩,
      _, _, by rw [heq]; exact hfull, rfl, ?_, ?_, Or.inr rfl, ?_⟩
    · intro n2 h1 h2
      rw [getTable?_deltaCycleDb, if_neg h2, if_neg h1]
    · intro lrow hlrow
      have hepar : tableOf (deltaCycleDb c.current ("epar_substance_link")
          eparSubstanceLinkCols [("epar_id"), ("spor_substance_id")]
          (links.map (rowToTuple eparSubstanceLinkCols)) T) ("epar_index")
          = tableOf c.current ("epar_index") := by
        rw [tableOf, tableOf, getTable?_deltaCycleDb, if_neg (by decide),
          if_neg (by decide)]
      rw [hepar]
      rw [show tableOf (deltaCycleDb c.current ("epar_substance_link")
          eparSubstanceLinkCols [("epar_id"), ("spor_substance_id")]
          (links.map (rowToTuple eparSubstanceLinkCols)) T) ("epar_substance_link")
          = mergeDelta eparSubstanceLinkCols [("epar_id"), ("spor_substance_id")] T
            (links.map (fun r => projectRow eparSubstanceLinkCols r))
          from by rw [tableOf, hlinkTable]; rfl] at hlrow
      refine merge_col_pred (P := fun v => ∃ r ∈ tableOf c.current ("epar_index"),
        sqlEq v (getCol r ("epar_id")) = true) ("epar_id") ?_ ?_ lrow hlrow
      · intro s hs
        rcases List.mem_map.mp hs with ⟨lk, hlk, rfl⟩
        rw [getCol_projectRow, if_pos (by decide), getCol_projectRow,
          if_pos (by decide)]
        exact hrefs lk hlk
      · intro t ht
        exact hold t (hTt ▸ ht)
    · intro ev hev
      simp only [List.mem_cons, List.not_mem_nil, or_false] at hev
      rcases hev with rfl | rfl | rfl | rfl | rfl | rfl
      · exact ⟨Or.inl rfl, rfl, rfl⟩
      · exact ⟨Or.inl rfl, rfl, rfl⟩
      · exact ⟨Or.inl rfl, rfl, rfl⟩
      · exact ⟨Or.inl rfl, rfl, rfl⟩
      · exact ⟨Or.inl rfl, rfl, rfl⟩
      · exact ⟨Or.inr rfl, rfl, rfl⟩

/-- Equal lookups give equal table contents. -/
theorem tableOf_congr {db1 db2 : Database} {n : String}
    (h : db2.getTable? n = db1.getTable? n) : tableOf db2 n = tableOf db1 n := by
  rw [tableOf, tableOf, h]

/-- Main-table reference integrity transfers to a state with the same
main table and at least the same organization keys. -/
theorem mainRefsOk_mono {db1 db2 : Database}
    (he : tableOf db2 ("epar_index") = tableOf db1 ("epar_index"))
    (hkeys : ∀ o ∈ tableOf db1 ("organizations"),
      ∃ o2 ∈ tableOf db2 ("organizations"), getCol o2 ("oms_id") = getCol o ("oms_id"))
    (h : mainRefsOk db1) : mainRefsOk db2 := by
  intro r hr
  rw [he] at hr
  exact refOkRow_mono hkeys (h r hr)

/-- Link-table reference integrity transfers to a state with the same
link and main tables. -/
theorem linkRefsOk_of_eq {db1 db2 : Database}
    (hl : tableOf db2 ("epar_substance_link") = tableOf db1 ("epar_substance_link"))
    (he : tableOf db2 ("epar_index") = tableOf db1 ("epar_index"))
    (h : linkRefsOk db1) : linkRefsOk db2 := by
  intro lrow hlrow
  rw [hl] at hlrow
  obtain ⟨r, hr, hs⟩ := h lrow hlrow
  exact ⟨r, by rw [he]; exact hr, hs⟩

/-- Invariant summary of the whole batch loop on a live connection: it
succeeds; the accumulated links are the input links plus every batch
link in order; the main staging table is extended by exactly the
projections of the streamed records; no other table outside the
master-data working tables changes; organization keys stay distinct;
reference integrity holds in the committed and current states, in the
staging table, and for the accumulated links; every event snapshot
satisfies reference integrity; and no loop event is a main-table merge
or a link-table statement. -/
theorem loop_refs : ∀ (batches : List (List EtlTuple)) (t : Int) (h : Option Value)
    (l : List Row) (c : Conn),
    (∀ b ∈ batches, ∀ tu ∈ b, TupleOk tu) →
    c.aborted = false →
    (c.current.getTable? ("organizations")).isSome →
    (c.current.getTable? ("substances")).isSome →
    (c.current.getTable? (("staging_") ++ ("epar_index"))).isSome →
    keysDistinct [("oms_id")] (tableOf c.current ("organizations")) →
    refsDb c.committed →
    refsDb c.current →
    stagingRefsOk c.current →
    linksOk l (tableOf c.current (("staging_") ++ ("epar_index"))) →
    ∃ (cf : Conn) (evs : List Ev) (res : Int × Option Value × List Row),
      loopBatches (("staging_") ++ ("epar_index")) batches (t, h, l) (some c)
        = (some cf, evs, Except.ok res)
    ∧ cf.aborted = false
    ∧ res.2.2 = l ++ (batches.map (fun b => (b.map (fun tu => tu.links)).flatten)).flatten
    ∧ cf.current.getTable? (("staging_") ++ ("epar_index"))
        = some (tableOf c.current (("staging_") ++ ("epar_index"))
            ++ (batches.flatten.map (fun tu => projectRow eparIndexCols tu.record)))
    ∧ (∀ n2, ¬(("organizations") = n2) → ¬((("staging_") ++ ("organizations")) = n2) →
        ¬(("substances") = n2) → ¬((("staging_") ++ ("substances")) = n2) →
        ¬((("staging_") ++ ("epar_index")) = n2) →
        cf.current.getTable? n2 = c.current.getTable? n2)
    ∧ (cf.current.getTable? ("organizations")).isSome
    ∧ (cf.current.getTable? ("substances")).isSome
    ∧ keysDistinct [("oms_id")] (tableOf cf.current ("organizations"))
    ∧ refsDb cf.committed
    ∧ refsDb cf.current
    ∧ stagingRefsOk cf.current
    ∧ linksOk res.2.2 (tableOf cf.current (("staging_") ++ ("epar_index")))
    ∧ (∀ ev ∈ evs, refsDb ev.committedAfter)
    ∧ (∀ ev ∈ evs, isMainMergeEv ev = false ∧ isLinkEv ev = false) := by
  intro batches
  induction batches with
  | nil =>
    intro t h l c htup hab ho hs hst hkd hrc hrcur hsrefs hlk
    obtain ⟨S0, hS0⟩ := Option.isSome_iff_exists.mp hst
    refine ⟨c, [], (t, h, l), rfl, hab, by simp, ?_,
      fun n2 _ _ _ _ _ => rfl, ho, hs, hkd, hrc, hrcur, hsrefs, ?_, by simp, by simp⟩
    · rw [hS0, tableOf, hS0]
      simp
    · exact hlk
  | cons b rest ih =>
    intro t h l c htup hab ho hs hst hkd hrc hrcur hsrefs hlk
    by_cases hbe : b.isEmpty = true
    · have hb : b = [] := by simpa using hbe
      subst hb
      obtain ⟨cf, evs, res, r1, r2, r3, r4, r5, r6, r7, r8, r9, r10, r11, r12, r13, r14⟩ :=
        ih t h l c (fun b2 hb2 => htup b2 (List.mem_cons_of_mem _ hb2)) hab ho hs hst
          hkd hrc hrcur hsrefs hlk
      refine ⟨cf, evs, res, ?_, r2, by simpa using r3, by simpa using r4,
        r5, r6, r7, r8, r9, r10, r11, r12, r13, r14⟩
      rw [loopBatches, if_pos (show ([] : List EtlTuple).isEmpty = true from rfl)]
      exact r1
    · have hbe2 : b.isEmpty = false := by
        revert hbe
        cases b.isEmpty <;> simp
      have htb : ∀ tu ∈ b, TupleOk tu := htup b (List.mem_cons_self _ _)
      obtain ⟨S0, hS0⟩ := Option.isSome_iff_exists.mp hst
      have hS0t : tableOf c.current (("staging_") ++ ("epar_index")) = S0 := by
        rw [tableOf, hS0]
        rfl
      have horgsnn : ∀ o ∈ (b.map (fun tu => tu.orgs)).flatten,
          ¬(getCol o ("oms_id") = Value.null) := by
        intro o hof
        rcases List.mem_flatten.mp hof with ⟨ol, hol, hoo⟩
        rcases List.mem_map.mp hol with ⟨tu, htu, rfl⟩
        exact (htb tu htu).2.1 o hoo
      obtain ⟨c1, evs1, n1, h1run, h1ab, h1frame, h1pres, h1kd, h1keep, h1new, h1com,
        h1evs⟩ := process_orgs_refs ((b.map (fun tu => tu.orgs)).flatten)
        hab ho hkd horgsnn
      -- table equalities through the organizations cycle
      have e1epar : tableOf c1.current ("epar_index") = tableOf c.current ("epar_index") :=
        tableOf_congr (h1frame ("epar_index") (by decide) (by decide))
      have e1link : tableOf c1.current ("epar_substance_link")
          = tableOf c.current ("epar_substance_link") :=
        tableOf_congr (h1frame ("epar_substance_link") (by decide) (by decide))
      have e1stag : c1.current.getTable? (("staging_") ++ ("epar_index"))
          = c.current.getTable? (("staging_") ++ ("epar_index")) :=
        h1frame (("staging_") ++ ("epar_index")) (by decide) (by decide)
      have e1sub : c1.current.getTable? ("substances") = c.current.getTable? ("substances") :=
        h1frame ("substances") (by decide) (by decide)
      have hr1cur : refsDb c1.current := by
        refine ⟨mainRefsOk_mono e1epar ?_ hrcur.1, linkRefsOk_of_eq e1link e1epar hrcur.2⟩
        intro o hoo
        exact h1keep o hoo
      obtain ⟨c2, evs2, n2, h2run, h2ab, h2frame, h2pres, h2com, h2evs⟩ :=
        process_subs_frame ((b.map (fun tu => tu.subs)).flatten) h1ab
          (by rw [e1sub]; exact hs)
      have e2epar : tableOf c2.current ("epar_index") = tableOf c1.current ("epar_index") :=
        tableOf_congr (h2frame ("epar_index") (by decide) (by decide))
      have e2link : tableOf c2.current ("epar_substance_link")
          = tableOf c1.current ("epar_substance_link") :=
        tableOf_congr (h2frame ("epar_substance_link") (by decide) (by decide))
      have e2orgs : tableOf c2.current ("organizations")
          = tableOf c1.current ("organizations") :=
        tableOf_congr (h2frame ("organizations") (by decide) (by decide))
      have e2orgs2 : c2.current.getTable? ("organizations")
          = c1.current.getTable? ("organizations") :=
        h2frame ("organizations") (by decide) (by decide)
      have e2stag : c2.current.getTable? (("staging_") ++ ("epar_index"))
          = c1.current.getTable? (("staging_") ++ ("epar_index")) :=
        h2frame (("staging_") ++ ("epar_index")) (by decide) (by decide)
      have hr2cur : refsDb c2.current := by
        refine ⟨mainRefsOk_mono (e2epar.trans e1epar) ?_ hrcur.1,
          linkRefsOk_of_eq (e2link.trans e1link) (e2epar.trans e1epar) hrcur.2⟩
        intro o hoo
        obtain ⟨o2, ho2, he⟩ := h1keep o hoo
        exact ⟨o2, by rw [e2orgs]; exact ho2, he⟩
      have hr1com : refsDb c1.committed := by
        rcases h1com with he | he
        · rw [he]; exact hrc
        · rw [he]; exact hr1cur
      have hr2com : refsDb c2.committed := by
        rcases h2com with he | he
        · rw [he]; exact hr1com
        · rw [he]; exact hr2cur
      have hdocs : _process_documents (some c2) = (some c2, [], Except.ok 0) := rfl
      have hstag2 : c2.current.getTable? (("staging_") ++ ("epar_index")) = some S0 := by
        rw [e2stag, e1stag]
        exact hS0
      have h4run := bulk_load_batch_effect
        (b.map (fun tu => rowToTuple eparIndexCols tu.record))
        eparIndexCols h2ab hstag2
      have hrows : ((b.map (fun tu => rowToTuple eparIndexCols tu.record)).map
          (fun t2 => eparIndexCols.zip t2))
          = b.map (fun tu => projectRow eparIndexCols tu.record) := by
        rw [List.map_map]
        exact List.map_congr_left (fun (tu : EtlTuple) _ => zip_rowToTuple)
      have h4run2 : bulk_load_batch (b.map (fun tu => rowToTuple eparIndexCols tu.record))
          (("staging_") ++ ("epar_index")) eparIndexCols (some c2)
          = (some { c2 with current := (c2.current.setTable (("staging_") ++ ("epar_index"))
              (S0 ++ b.map (fun tu => projectRow eparIndexCols tu.record))) },
             [⟨.execStmt (.copyFrom (("staging_") ++ ("epar_index")) eparIndexCols
               (b.map (fun tu => projectRow eparIndexCols tu.record))), c2.committed⟩],
             Except.ok (Int.ofNat
               (b.map (fun tu => rowToTuple eparIndexCols tu.record)).length)) := by
        rw [h4run, hrows]
      have e3 : ∀ n2, ¬((("staging_") ++ ("epar_index")) = n2) →
          (c2.current.setTable (("staging_") ++ ("epar_index"))
            (S0 ++ b.map (fun tu => projectRow eparIndexCols tu.record))).getTable? n2
          = c2.current.getTable? n2 := by
        intro n2 hne
        rw [getTable?_setTable, if_neg hne]
      have e3stagT : (c2.current.setTable (("staging_") ++ ("epar_index"))
          (S0 ++ b.map (fun tu => projectRow eparIndexCols tu.record))).getTable?
          (("staging_") ++ ("epar_index"))
          = some (S0 ++ b.map (fun tu => projectRow eparIndexCols tu.record)) := by
        rw [getTable?_setTable, if_pos rfl]
      have e3orgsT : tableOf (c2.current.setTable (("staging_") ++ ("epar_index"))
          (S0 ++ b.map (fun tu => projectRow eparIndexCols tu.record))) ("organizations")
          = tableOf c1.current ("organizations") := by
        rw [tableOf_congr (e3 ("organizations") (by decide)), e2orgs]
      have hp1 : ((c2.current.setTable (("staging_") ++ ("epar_index"))
          (S0 ++ b.map (fun tu => projectRow eparIndexCols tu.record))).getTable?
          ("organizations")).isSome := by
        rw [e3 ("organizations") (by decide), e2orgs2]
        exact h1pres
      have hp2 : ((c2.current.setTable (("staging_") ++ ("epar_index"))
          (S0 ++ b.map (fun tu => projectRow eparIndexCols tu.record))).getTable?
          ("substances")).isSome := by
        rw [e3 ("substances") (by decide)]
        exact h2pres
      have hp3 : ((c2.current.setTable (("staging_") ++ ("epar_index"))
          (S0 ++ b.map (fun tu => projectRow eparIndexCols tu.record))).getTable?
          (("staging_") ++ ("epar_index"))).isSome := by
        rw [e3stagT]
        rfl
      have hkd3 : keysDistinct [("oms_id")] (tableOf (c2.current.setTable
          (("staging_") ++ ("epar_index"))
          (S0 ++ b.map (fun tu => projectRow eparIndexCols tu.record)))
          ("organizations")) := by
        rw [e3orgsT]
        exact h1kd
      have hr3cur : refsDb (c2.current.setTable (("staging_") ++ ("epar_index"))
          (S0 ++ b.map (fun tu => projectRow eparIndexCols tu.record))) := by
        refine ⟨mainRefsOk_mono (tableOf_congr (e3 ("epar_index") (by decide))) ?_ hr2cur.1,
          linkRefsOk_of_eq (tableOf_congr (e3 ("epar_substance_link") (by decide)))
            (tableOf_congr (e3 ("epar_index") (by decide))) hr2cur.2⟩
        intro o hoo
        exact ⟨o, by rw [tableOf_congr (e3 ("organizations") (by decide))]; exact hoo, rfl⟩
      have hsrefs3 : stagingRefsOk (c2.current.setTable (("staging_") ++ ("epar_index"))
          (S0 ++ b.map (fun tu => projectRow eparIndexCols tu.record))) := by
        intro r hr
        rw [tableOf, e3stagT] at hr
        rw [e3orgsT]
        rcases List.mem_append.mp hr with hr | hr
        · refine refOkRow_mono ?_ (hsrefs r (by rw [hS0t]; exact hr))
          intro o hoo
          obtain ⟨o2, ho2, he⟩ := h1keep o hoo
          exact ⟨o2, ho2, he⟩
        · rcases List.mem_map.mp hr with ⟨tu, htu, rfl⟩
          have href := (htb tu htu).1
          rw [refOkRow, getCol_projectRow, if_pos (by decide)]
          rcases href with href | ⟨o, hoo, hsq⟩
          · exact Or.inl href
          · obtain ⟨o2, ho2, hsq2⟩ := h1new o (List.mem_flatten.mpr
              ⟨tu.orgs, List.mem_map_of_mem _ htu, hoo⟩)
            refine Or.inr ⟨o2, ho2, ?_⟩
            exact sqlEq_trans_common (sqlEq_symm hsq) (sqlEq_symm hsq2)
      have hlk3 : linksOk (l ++ (b.map (fun tu => tu.links)).flatten)
          (tableOf (c2.current.setTable (("staging_") ++ ("epar_index"))
            (S0 ++ b.map (fun tu => projectRow eparIndexCols tu.record)))
            (("staging_") ++ ("epar_index"))) := by
        intro lk hlkm
        rw [tableOf, e3stagT]
        show ∃ r ∈ S0 ++ b.map (fun tu => projectRow eparIndexCols tu.record),
          sqlEq (getCol lk ("epar_id")) (getCol r ("epar_id")) = true
        rcases List.mem_append.mp hlkm with hm | hm
        · obtain ⟨r, hr, hsq⟩ := hlk lk hm
          exact ⟨r, List.mem_append_left _ (by rw [hS0t] at hr; exact hr), hsq⟩
        · rcases List.mem_flatten.mp hm with ⟨ll, hll, hlkin⟩
          rcases List.mem_map.mp hll with ⟨tu, htu, rfl⟩
          have hle := (htb tu htu).2.2.1 lk hlkin
          have hself := (htb tu htu).2.2.2
          rw [selfKeyed, pkMatch_single] at hself
          refine ⟨projectRow eparIndexCols tu.record,
            List.mem_append_right _ (List.mem_map_of_mem _ htu), ?_⟩
          rw [hle, getCol_projectRow, if_pos (by decide)]
          exact hself
      obtain ⟨cf, evs5, res, r1, r2, r3, r4, r5, r6, r7, r8, r9, r10, r11, r12, r13,
        r14⟩ := ih
        (t + Int.ofNat (b.map (fun tu => rowToTuple eparIndexCols tu.record)).length)
        ((b.map (fun tu => recCursorDay tu.record)).foldl hwmStep h)
        (l ++ (b.map (fun tu => tu.links)).flatten)
        ({ c2 with current := (c2.current.setTable (("staging_") ++ ("epar_index"))
          (S0 ++ b.map (fun tu => projectRow eparIndexCols tu.record))) })
        (fun b2 hb2 => htup b2 (List.mem_cons_of_mem _ hb2))
        h2ab hp1 hp2 hp3 hkd3 hr2com hr3cur hsrefs3 hlk3
      refine ⟨cf, evs1 ++ (evs2 ++ ([⟨.execStmt (.copyFrom (("staging_") ++ ("epar_index"))
          eparIndexCols (b.map (fun tu => projectRow eparIndexCols tu.record))),
          c2.committed⟩] ++ evs5)),
        res, ?_, r2, ?_, ?_, ?_, r6, r7, r8, r9, r10, r11, r12, ?_, ?_⟩
      · rw [loopBatches, if_neg (by simp [hbe2])]
        rw [bind_ok h1run, bind_ok h2run, bind_ok hdocs, bind_ok h4run2, r1]
        simp
      · rw [r3]
        simp
      · rw [r4]
        rw [show tableOf ({ c2 with current := (c2.current.setTable (("staging_") ++
            ("epar_index")) (S0 ++ b.map (fun tu => projectRow eparIndexCols
            tu.record))) } : Conn).current (("staging_") ++ ("epar_index"))
            = S0 ++ b.map (fun tu => projectRow eparIndexCols tu.record) from by
          rw [tableOf, e3stagT]
          rfl]
        rw [hS0t]
        simp
      · intro n2 ha1 ha2 ha3 ha4 ha5
        rw [r5 n2 ha1 ha2 ha3 ha4 ha5]
        show (c2.current.setTable (("staging_") ++ ("epar_index"))
          (S0 ++ b.map (fun tu => projectRow eparIndexCols tu.record))).getTable? n2
          = c.current.getTable? n2
        rw [e3 n2 ha5, h2frame n2 ha3 ha4, h1frame n2 ha1 ha2]
      · intro ev hev
        rcases List.mem_append.mp hev with hm | hm
        · rcases ((h1evs ev hm).1) with he | he
          · rw [he]
            exact hrc
          · rw [he]
            exact hr1cur
        rcases List.mem_append.mp hm with hm | hm
        · rcases ((h2evs ev hm).1) with he | he
          · rw [he]
            exact hr1com
          · rw [he]
            exact hr2cur
        rcases List.mem_append.mp hm with hm | hm
        · rw [List.mem_singleton] at hm
          subst hm
          exact hr2com
        · exact r13 ev hm
      · intro ev hev
        rcases List.mem_append.mp hev with hm | hm
        · exact ⟨(h1evs ev hm).2.1, (h1evs ev hm).2.2⟩
        rcases List.mem_append.mp hm with hm | hm
        · exact ⟨(h2evs ev hm).2.1, (h2evs ev hm).2.2⟩
        rcases List.mem_append.mp hm with hm | hm
        · rw [List.mem_singleton] at hm
          subst hm
          exact ⟨rfl, rfl⟩
        · exact r14 ev hm

/-- Summary of the body of a DELTA run on a live, reference-intact
connection: it succeeds, its trace splits into the prepare phase, the
batch loop, the main finalize and the link phase; reference integrity
holds at the final state and at every event snapshot; and the phases
emit only their own statements (no main merge or link statement before
the finalize, no master or main merge after it). -/
theorem body_refs {bs : Nat} {tuples : List EtlTuple} {c1 : Conn}
    (htup : ∀ tu ∈ tuples, TupleOk tu)
    (hdist : List.Pairwise (fun a b => sqlEq (getCol a.record ("epar_id"))
      (getCol b.record ("epar_id")) = false) tuples)
    (hab : c1.aborted = false)
    (hepar : (c1.current.getTable? ("epar_index")).isSome)
    (horg : (c1.current.getTable? ("organizations")).isSome)
    (hsub : (c1.current.getTable? ("substances")).isSome)
    (hlink : (c1.current.getTable? ("epar_substance_link")).isSome)
    (hkd : keysDistinct [("oms_id")] (tableOf c1.current ("organizations")))
    (hkde : keysDistinct [("epar_id")] (tableOf c1.current ("epar_index")))
    (hrcom : refsDb c1.committed)
    (hrcur : refsDb c1.current) :
    ∃ (c5 : Conn) (evsPre evsLoop evsFin evsLinks : List Ev) (r : Int × Option Value),
      run_etl_body ("DELTA") bs tuples (some c1)
        = (some c5, evsPre ++ (evsLoop ++ (evsFin ++ evsLinks)), Except.ok r)
    ∧ c5.aborted = false
    ∧ refsDb c5.committed
    ∧ refsDb c5.current
    ∧ (∀ ev ∈ evsPre ++ (evsLoop ++ (evsFin ++ evsLinks)), refsDb ev.committedAfter)
    ∧ (∀ ev ∈ evsPre, isMasterMergeEv ev = false ∧ isMainMergeEv ev = false
        ∧ isLinkEv ev = false)
    ∧ (∀ ev ∈ evsLoop, isMainMergeEv ev = false ∧ isLinkEv ev = false)
    ∧ (∀ ev ∈ evsFin, isMasterMergeEv ev = false ∧ isLinkEv ev = false)
    ∧ (∀ ev ∈ evsLinks, isMasterMergeEv ev = false ∧ isMainMergeEv ev = false) := by
  obtain ⟨T0, hT0⟩ := Option.isSome_iff_exists.mp hepar
  have hT0t : tableOf c1.current ("epar_index") = T0 := by
    rw [tableOf, hT0]
    rfl
  have hprep := prepare_load_delta_effect hab hT0
  -- the state after prepare
  have frame2 : ∀ n2, ¬((("staging_") ++ ("epar_index")) = n2) →
      ((c1.current.dropTable (("staging_") ++ ("epar_index"))).setTable
        (("staging_") ++ ("epar_index")) []).getTable? n2 = c1.current.getTable? n2 := by
    intro n2 hne
    rw [getTable?_setTable, if_neg hne, getTable?_dropTable, if_neg hne]
  have hstag2 : ((c1.current.dropTable (("staging_") ++ ("epar_index"))).setTable
      (("staging_") ++ ("epar_index")) []).getTable? (("staging_") ++ ("epar_index"))
      = some [] := by
    rw [getTable?_setTable, if_pos rfl]
  have hrcur2 : refsDb ((c1.current.dropTable (("staging_") ++ ("epar_index"))).setTable
      (("staging_") ++ ("epar_index")) []) := by
    refine ⟨mainRefsOk_mono (tableOf_congr (frame2 ("epar_index") (by decide))) ?_ hrcur.1,
      linkRefsOk_of_eq (tableOf_congr (frame2 ("epar_substance_link") (by decide)))
        (tableOf_congr (frame2 ("epar_index") (by decide))) hrcur.2⟩
    intro o hoo
    exact ⟨o, by rw [tableOf_congr (frame2 ("organizations") (by decide))]; exact hoo, rfl⟩
  obtain ⟨c3, evsL, res, r1, r2, r3, r4, r5, r6, r7, r8, r9, r10, r11, r12, r13, r14⟩ :=
    loop_refs (batchAcc tuples [] bs) 0
      (ledgerMaxHwm ((c1.current.dropTable (("staging_") ++ ("epar_index"))).setTable
        (("staging_") ++ ("epar_index")) []).ledger) []
      ({ c1 with current := ((c1.current.dropTable (("staging_") ++ ("epar_index"))).setTable
        (("staging_") ++ ("epar_index")) []) })
      (fun b2 hb2 tu htu => htup tu (by
        have := batchAcc_flatten tuples [] bs
        rw [List.nil_append] at this
        rw [← this]
        exact List.mem_flatten.mpr ⟨b2, hb2, htu⟩))
      hab
      (by rw [frame2 ("organizations") (by decide)]; exact horg)
      (by rw [frame2 ("substances") (by decide)]; exact hsub)
      (by rw [hstag2]; rfl)
      (by rw [tableOf_congr (frame2 ("organizations") (by decide))]; exact hkd)
      hrcom hrcur2
      (by intro r hr
          rw [tableOf, hstag2] at hr
          exact absurd hr (List.not_mem_nil r))
      (by intro lk hlk
          exact absurd hlk (List.not_mem_nil lk))
  have hflat : (batchAcc tuples [] bs).flatten = tuples := by
    have := batchAcc_flatten tuples [] bs
    rwa [List.nil_append] at this
  have hS3 : c3.current.getTable? (("staging_") ++ ("epar_index"))
      = some (tuples.map (fun tu => projectRow eparIndexCols tu.record)) := by
    rw [r4, hflat]
    rw [show tableOf ({ c1 with current :=
        ((c1.current.dropTable (("staging_") ++ ("epar_index"))).setTable
          (("staging_") ++ ("epar_index")) []) } : Conn).current
        (("staging_") ++ ("epar_index")) = ([] : Table) from by
      rw [tableOf, hstag2]
      rfl]
    rw [List.nil_append]
  have hT3 : c3.current.getTable? ("epar_index") = some T0 := by
    rw [r5 ("epar_index") (by decide) (by decide) (by decide) (by decide) (by decide)]
    rw [show ({ c1 with current :=
        ((c1.current.dropTable (("staging_") ++ ("epar_index"))).setTable
          (("staging_") ++ ("epar_index")) []) } : Conn).current.getTable? ("epar_index")
        = c1.current.getTable? ("epar_index") from frame2 ("epar_index") (by decide)]
    exact hT0
  have hT3t : tableOf c3.current ("epar_index") = T0 := by
    rw [tableOf, hT3]
    rfl
  have hsd : stagingDistinct eparIndexCols [("epar_id")]
      (tuples.map (fun tu => projectRow eparIndexCols tu.record)) := by
    rw [stagingDistinct, List.pairwise_map]
    refine List.Pairwise.imp ?_ hdist
    intro a b hab2
    rw [pkMatch_single, getCol_projectRow, if_pos (by decide), getCol_projectRow,
      if_pos (by decide), getCol_projectRow, if_pos (by decide), getCol_projectRow,
      if_pos (by decide)]
    exact hab2
  have hdupF : ((!(updateCols eparIndexCols [("epar_id")]).isEmpty)
      && hasDupKeys eparIndexCols [("epar_id")]
        (tuples.map (fun tu => projectRow eparIndexCols tu.record))) = false := by
    rw [show (!(updateCols eparIndexCols [("epar_id")]).isEmpty) = true from by decide,
      Bool.true_and]
    exact hasDupKeys_false_iff.mpr hsd
  have hself : ∀ s ∈ tuples.map (fun tu => projectRow eparIndexCols tu.record),
      selfKeyed [("epar_id")] (projectRow eparIndexCols s) := by
    intro s hs
    rcases List.mem_map.mp hs with ⟨tu, htu, rfl⟩
    have h2 := (htup tu htu).2.2.2
    rw [selfKeyed, pkMatch_single] at h2
    rw [selfKeyed, pkMatch_single, getCol_projectRow, if_pos (by decide),
      getCol_projectRow, if_pos (by decide)]
    exact h2
  have hkdT0 : keysDistinct [("epar_id")] T0 := hT0t ▸ hkde
  have hfin := finalize_delta_effect eparIndexCols [("epar_id")] none r2 hT3 hS3 (staging_ne_empty ("epar_index")) (by simp)
    (staging_ne_target ("epar_index")) hdupF
  -- the database after the main finalize
  have hD4 : ∀ n2, ¬((("staging_") ++ ("epar_index")) = n2) → ¬(("epar_index") = n2) →
      ((c3.current.setTable ("epar_index") (sdApply none [("epar_id")]
        (tuples.map (fun tu => projectRow eparIndexCols tu.record))
        (mergeDelta eparIndexCols [("epar_id")] T0
          (tuples.map (fun tu => projectRow eparIndexCols tu.record))))).dropTable
        (("staging_") ++ ("epar_index"))).getTable? n2 = c3.current.getTable? n2 := by
    intro n2 h1 h2
    rw [getTable?_dropTable, if_neg h1, getTable?_setTable, if_neg h2]
  have hD4epar : ((c3.current.setTable ("epar_index") (sdApply none [("epar_id")]
      (tuples.map (fun tu => projectRow eparIndexCols tu.record))
      (mergeDelta eparIndexCols [("epar_id")] T0
        (tuples.map (fun tu => projectRow eparIndexCols tu.record))))).dropTable
      (("staging_") ++ ("epar_index"))).getTable? ("epar_index")
      = some (mergeDelta eparIndexCols [("epar_id")] T0
        (tuples.map (fun tu => projectRow eparIndexCols tu.record))) := by
    rw [getTable?_dropTable, if_neg (by decide), getTable?_setTable, if_pos rfl]
    rfl
  have hD4eparT : tableOf ((c3.current.setTable ("epar_index") (sdApply none [("epar_id")]
      (tuples.map (fun tu => projectRow eparIndexCols tu.record))
      (mergeDelta eparIndexCols [("epar_id")] T0
        (tuples.map (fun tu => projectRow eparIndexCols tu.record))))).dropTable
      (("staging_") ++ ("epar_index"))) ("epar_index")
      = mergeDelta eparIndexCols [("epar_id")] T0
        (tuples.map (fun tu => projectRow eparIndexCols tu.record)) := by
    rw [tableOf, hD4epar]
    rfl
  have hr4cur : refsDb ((c3.current.setTable ("epar_index") (sdApply none [("epar_id")]
      (tuples.map (fun tu => projectRow eparIndexCols tu.record))
      (mergeDelta eparIndexCols [("epar_id")] T0
        (tuples.map (fun tu => projectRow eparIndexCols tu.record))))).dropTable
      (("staging_") ++ ("epar_index"))) := by
    constructor
    · -- main references after the merge
      intro r hr
      rw [hD4eparT] at hr
      rw [show tableOf ((c3.current.setTable ("epar_index") (sdApply none [("epar_id")]
        (tuples.map (fun tu => projectRow eparIndexCols tu.record))
        (mergeDelta eparIndexCols [("epar_id")] T0
          (tuples.map (fun tu => projectRow eparIndexCols tu.record))))).dropTable
        (("staging_") ++ ("epar_index"))) ("organizations")
        = tableOf c3.current ("organizations") from
        tableOf_congr (hD4 ("organizations") (by decide) (by decide))]
      refine merge_col_pred (P := fun v => v = Value.null
        ∨ ∃ o ∈ tableOf c3.current ("organizations"),
            sqlEq v (getCol o ("oms_id")) = true) ("mah_oms_id") ?_ ?_ r hr
      · intro s hs
        have h2 := r11 s (by rw [tableOf, hS3]; exact hs)
        rw [refOkRow] at h2
        rcases List.mem_map.mp hs with ⟨tu, htu, rfl⟩
        rw [getCol_projectRow, if_pos (by decide)]
        exact h2
      · intro t ht
        exact r10.1 t (hT3t ▸ ht)
    · -- link references: old link rows still find their main rows
      intro lrow hlrow
      rw [show tableOf ((c3.current.setTable ("epar_index") (sdApply none [("epar_id")]
        (tuples.map (fun tu => projectRow eparIndexCols tu.record))
        (mergeDelta eparIndexCols [("epar_id")] T0
          (tuples.map (fun tu => projectRow eparIndexCols tu.record))))).dropTable
        (("staging_") ++ ("epar_index"))) ("epar_substance_link")
        = tableOf c3.current ("epar_substance_link") from
        tableOf_congr (hD4 ("epar_substance_link") (by decide) (by decide))] at hlrow
      obtain ⟨r, hr, hsq⟩ := r10.2 lrow hlrow
      obtain ⟨u, hu, he⟩ := @merge_keeps_cols eparIndexCols [("epar_id")]
        (tuples.map (fun tu => projectRow eparIndexCols tu.record)) T0 r (hT3t ▸ hr)
      refine ⟨u, by rw [hD4eparT]; exact hu, ?_⟩
      rw [he ("epar_id") (by decide)]
      exact hsq
  have hrefs5 : ∀ lk ∈ res.2.2,
      ∃ r ∈ tableOf ((c3.current.setTable ("epar_index") (sdApply none [("epar_id")]
        (tuples.map (fun tu => projectRow eparIndexCols tu.record))
        (mergeDelta eparIndexCols [("epar_id")] T0
          (tuples.map (fun tu => projectRow eparIndexCols tu.record))))).dropTable
        (("staging_") ++ ("epar_index"))) ("epar_index"),
        sqlEq (getCol lk ("epar_id")) (getCol r ("epar_id")) = true := by
    intro lk hlk
    obtain ⟨r, hr, hsq⟩ := r12 lk hlk
    rw [tableOf, hS3] at hr
    obtain ⟨u, hu, hum, _⟩ := merge_establishes hkdT0 hsd hself r hr
    refine ⟨u, by rw [hD4eparT]; exact hu, ?_⟩
    rw [pkMatch_single, getCol_projectRow, if_pos (by decide)] at hum
    exact sqlEq_trans_common (sqlEq_symm hsq) (sqlEq_symm hum)
  have hlinkc3 : (c3.current.getTable? ("epar_substance_link")).isSome := by
    rw [r5 ("epar_substance_link") (by decide) (by decide) (by decide) (by decide)
      (by decide)]
    show (((c1.current.dropTable (("staging_") ++ ("epar_index"))).setTable
      (("staging_") ++ ("epar_index")) []).getTable? ("epar_substance_link")).isSome
    rw [frame2 ("epar_substance_link") (by decide)]
    exact hlink
  have hlink4 : (((c3.current.setTable ("epar_index") (sdApply none [("epar_id")]
      (tuples.map (fun tu => projectRow eparIndexCols tu.record))
      (mergeDelta eparIndexCols [("epar_id")] T0
        (tuples.map (fun tu => projectRow eparIndexCols tu.record))))).dropTable
      (("staging_") ++ ("epar_index"))).getTable? ("epar_substance_link")).isSome := by
    rw [hD4 ("epar_substance_link") (by decide) (by decide)]
    exact hlinkc3
  obtain ⟨c5, evs5, n5, hlrun, hl2, hlframe, hlrefs, hlcom, hlevs⟩ :=
    process_links_refs res.2.2
      (c := ⟨(c3.current.setTable ("epar_index") (sdApply none [("epar_id")]
        (tuples.map (fun tu => projectRow eparIndexCols tu.record))
        (mergeDelta eparIndexCols [("epar_id")] T0
          (tuples.map (fun tu => projectRow eparIndexCols tu.record))))).dropTable
        (("staging_") ++ ("epar_index")),
        (c3.current.setTable ("epar_index") (sdApply none [("epar_id")]
        (tuples.map (fun tu => projectRow eparIndexCols tu.record))
        (mergeDelta eparIndexCols [("epar_id")] T0
          (tuples.map (fun tu => projectRow eparIndexCols tu.record))))).dropTable
        (("staging_") ++ ("epar_index")), false⟩)
      rfl hlink4
      (fun lrow hlrow => hr4cur.2 lrow hlrow)
      hrefs5
  have hr5cur : refsDb c5.current := by
    refine ⟨?_, ?_⟩
    · refine mainRefsOk_mono (tableOf_congr (hlframe ("epar_index") (by decide)
        (by decide))) ?_ hr4cur.1
      intro o hoo
      refine ⟨o, ?_, rfl⟩
      rw [tableOf_congr (hlframe ("organizations") (by decide) (by decide))]
      exact hoo
    · exact hlrefs
  have hr4com : refsDb (⟨(c3.current.setTable ("epar_index") (sdApply none [("epar_id")]
      (tuples.map (fun tu => projectRow eparIndexCols tu.record))
      (mergeDelta eparIndexCols [("epar_id")] T0
        (tuples.map (fun tu => projectRow eparIndexCols tu.record))))).dropTable
      (("staging_") ++ ("epar_index")),
      (c3.current.setTable ("epar_index") (sdApply none [("epar_id")]
      (tuples.map (fun tu => projectRow eparIndexCols tu.record))
      (mergeDelta eparIndexCols [("epar_id")] T0
        (tuples.map (fun tu => projectRow eparIndexCols tu.record))))).dropTable
      (("staging_") ++ ("epar_index")), false⟩ : Conn).committed := hr4cur
  have hr5com : refsDb c5.committed := by
    rcases hlcom with he | he
    · rw [he]
      exact hr4com
    · rw [he]
      exact hr5cur
  refine ⟨c5,
    [⟨.execStmt (.dropTableIfExists (("staging_") ++ ("epar_index"))), c1.committed⟩,
     ⟨.execStmt (.createUnloggedLike (("staging_") ++ ("epar_index")) ("epar_index")),
       c1.committed⟩],
    evsL,
    [⟨.execStmt (.mergeInto ("epar_index") (("staging_") ++ ("epar_index"))
        eparIndexCols [("epar_id")]), c3.committed⟩,
     ⟨.execStmt (.dropTable (("staging_") ++ ("epar_index"))), c3.committed⟩,
     ⟨.commitEv, (c3.current.setTable ("epar_index") (sdApply none [("epar_id")]
        (tuples.map (fun tu => projectRow eparIndexCols tu.record))
        (mergeDelta eparIndexCols [("epar_id")] T0
          (tuples.map (fun tu => projectRow eparIndexCols tu.record))))).dropTable
        (("staging_") ++ ("epar_index"))⟩],
    evs5, (res.1, res.2.1), ?_, hl2, hr5com, hr5cur, ?_, ?_, r14, ?_, ?_⟩
  · -- the body equation
    rw [run_etl_body]
    simp only [bind_ok hprep]
    split
    · simp only [bind_ok (get_latest_hwm_some _), bind_ok r1, bind_ok hfin,
        bind_ok hlrun, pure_apply]
      simp
    · rename_i hfalse
      exact absurd (by decide) hfalse
  · -- snapshots
    intro ev hev
    rcases List.mem_append.mp hev with hm | hm
    · simp only [List.mem_cons, List.not_mem_nil, or_false] at hm
      rcases hm with rfl | rfl
      · exact hrcom
      · exact hrcom
    rcases List.mem_append.mp hm with hm | hm
    · exact r13 ev hm
    rcases List.mem_append.mp hm with hm | hm
    · simp only [List.mem_cons, List.not_mem_nil, or_false] at hm
      rcases hm with rfl | rfl | rfl
      · exact r9
      · exact r9
      · exact hr4cur
    · rcases (hlevs ev hm).1 with he | he
      · rw [he]
        exact hr4com
      · rw [he]
        exact hr5cur
  · -- prepare phase kinds
    intro ev hev
    simp only [List.mem_cons, List.not_mem_nil, or_false] at hev
    rcases hev with rfl | rfl
    · exact ⟨rfl, rfl, rfl⟩
    · exact ⟨rfl, rfl, rfl⟩
  · -- finalize phase kinds
    intro ev hev
    simp only [List.mem_cons, List.not_mem_nil, or_false] at hev
    rcases hev with rfl | rfl | rfl
    · exact ⟨rfl, rfl⟩
    · exact ⟨rfl, rfl⟩
    · exact ⟨rfl, rfl⟩
  · -- link phase kinds
    intro ev hev
    exact ⟨(hlevs ev hev).2.1, (hlevs ev hev).2.2⟩

/-- Changing only the ledger of a database changes no table. -/
theorem getTable?_ledger (db : Database) (L : List LedgerRow) (n : String) :
    ({ db with ledger := L } : Database).getTable? n = db.getTable? n := rfl

/-- Changing only the ledger of a database changes no table contents. -/
theorem tableOf_ledger (db : Database) (L : List LedgerRow) (n : String) :
    tableOf ({ db with ledger := L } : Database) n = tableOf db n := rfl

/-- Claim C5: within every DELTA run on a live, clean connection whose
database satisfies reference integrity (with well-formed tuples whose
organization references are carried along and whose main keys are
pairwise distinct), the run succeeds; in its event trace every
master-data merge (organizations or substances) comes strictly before
the main-table merge, and the main-table merge comes strictly before
every link-table statement; and every committed snapshot along the
trace satisfies reference integrity: no committed main row references
an uncommitted organization and no committed or loaded link row lacks
its main row. -/
theorem c5_load_order (bs : Nat) (tuples : List EtlTuple) (c : Conn)
    (htup : ∀ tu ∈ tuples, TupleOk tu)
    (hdist : List.Pairwise (fun a b => sqlEq (getCol a.record ("epar_id"))
      (getCol b.record ("epar_id")) = false) tuples)
    (hab : c.aborted = false)
    (hcc : c.committed = c.current)
    (hepar : (c.current.getTable? ("epar_index")).isSome)
    (horg : (c.current.getTable? ("organizations")).isSome)
    (hsub : (c.current.getTable? ("substances")).isSome)
    (hlink : (c.current.getTable? ("epar_substance_link")).isSome)
    (hkd : keysDistinct [("oms_id")] (tableOf c.current ("organizations")))
    (hkde : keysDistinct [("epar_id")] (tableOf c.current ("epar_index")))
    (hrcur : refsDb c.current) :
    (run_etl ("DELTA") bs tuples (some c)).2.2 = Except.ok ()
    ∧ (∀ (i j : Nat) (hi : i < (run_etl ("DELTA") bs tuples (some c)).2.1.length)
        (hj : j < (run_etl ("DELTA") bs tuples (some c)).2.1.length),
        isMasterMergeEv ((run_etl ("DELTA") bs tuples (some c)).2.1.get ⟨i, hi⟩) = true →
        isMainMergeEv ((run_etl ("DELTA") bs tuples (some c)).2.1.get ⟨j, hj⟩) = true →
        i < j)
    ∧ (∀ (i j : Nat) (hi : i < (run_etl ("DELTA") bs tuples (some c)).2.1.length)
        (hj : j < (run_etl ("DELTA") bs tuples (some c)).2.1.length),
        isMainMergeEv ((run_etl ("DELTA") bs tuples (some c)).2.1.get ⟨i, hi⟩) = true →
        isLinkEv ((run_etl ("DELTA") bs tuples (some c)).2.1.get ⟨j, hj⟩) = true →
        i < j)
    ∧ (∀ ev ∈ (run_etl ("DELTA") bs tuples (some c)).2.1, refsDb ev.committedAfter) := by
  have hstart := log_pipeline_start_effect (c := c) ("DELTA") hab
  obtain ⟨c5, evsPre, evsLoop, evsFin, evsLinks, r, hbrun, hb2, hbcom, hbcur, hbsnap,
      hbPre, hbLoop, hbFin, hbLinks⟩ :=
    @body_refs bs tuples ⟨{ c.current with ledger := c.current.ledger ++
        [⟨nextExecutionId c.current.ledger, ("RUNNING"), ("DELTA"), none, none⟩] },
      { c.current with ledger := c.current.ledger ++
        [⟨nextExecutionId c.current.ledger, ("RUNNING"), ("DELTA"), none, none⟩] }, false⟩
      htup hdist rfl hepar horg hsub hlink hkd hkde
      (refsDb_ledger hrcur) (refsDb_ledger hrcur)
  have hsucc := log_pipeline_success_effect (c := c5) (nextExecutionId c.current.ledger)
    r.1 r.2 hb2
  have htr : (run_etl ("DELTA") bs tuples (some c)).2.1 =
      (([⟨.execStmt (.insertLedgerStart ("DELTA") (nextExecutionId c.current.ledger)),
          c.committed⟩,
         ⟨.commitEv, { c.current with ledger := c.current.ledger ++
          [⟨nextExecutionId c.current.ledger, ("RUNNING"), ("DELTA"), none, none⟩] }⟩]
        ++ (evsPre ++ (evsLoop ++ (evsFin ++ evsLinks))))
       ++ [⟨.execStmt (.updateLedgerSuccess (nextExecutionId c.current.ledger) r.1 r.2),
            c5.committed⟩,
           ⟨.commitEv, { c5.current with ledger := c5.current.ledger.map (fun row =>
              if row.executionId == nextExecutionId c.current.ledger then
                { row with status := ("SUCCESS"), recordsProcessed := some r.1, highWaterMark := r.2 }
              else row) }⟩]) := by
    simp only [run_etl, hstart, hbrun, hsucc]
  have hok : (run_etl ("DELTA") bs tuples (some c)).2.2 = Except.ok () := by
    simp only [run_etl, hstart, hbrun, hsucc]
  refine ⟨hok, ?_, ?_, ?_⟩
  · -- every master-data merge precedes the main merge
    rw [show (run_etl ("DELTA") bs tuples (some c)).2.1 =
        (([⟨.execStmt (.insertLedgerStart ("DELTA") (nextExecutionId c.current.ledger)),
            c.committed⟩,
           ⟨.commitEv, { c.current with ledger := c.current.ledger ++
            [⟨nextExecutionId c.current.ledger, ("RUNNING"), ("DELTA"), none, none⟩] }⟩]
          ++ (evsPre ++ evsLoop))
         ++ (evsFin ++ (evsLinks ++
          [⟨.execStmt (.updateLedgerSuccess (nextExecutionId c.current.ledger) r.1 r.2),
             c5.committed⟩,
           ⟨.commitEv, { c5.current with ledger := c5.current.ledger.map (fun row =>
              if row.executionId == nextExecutionId c.current.ledger then
                { row with status := ("SUCCESS"), recordsProcessed := some r.1, highWaterMark := r.2 }
              else row) }⟩]))) from by
      rw [htr]
      simp only [List.append_assoc]]
    refine before_of_append ?_ ?_
    · intro ev hev
      rcases List.mem_append.mp hev with hm | hm
      · exact (hbFin ev hm).1
      rcases List.mem_append.mp hm with hm | hm
      · exact (hbLinks ev hm).1
      · simp only [List.mem_cons, List.not_mem_nil, or_false] at hm
        rcases hm with rfl | rfl
        · rfl
        · rfl
    · intro ev hev
      rcases List.mem_append.mp hev with hm | hm
      · simp only [List.mem_cons, List.not_mem_nil, or_false] at hm
        rcases hm with rfl | rfl
        · rfl
        · rfl
      rcases List.mem_append.mp hm with hm | hm
      · exact (hbPre ev hm).2.1
      · exact (hbLoop ev hm).1
  · -- the main merge precedes every link statement
    rw [show (run_etl ("DELTA") bs tuples (some c)).2.1 =
        (([⟨.execStmt (.insertLedgerStart ("DELTA") (nextExecutionId c.current.ledger)),
            c.committed⟩,
           ⟨.commitEv, { c.current with ledger := c.current.ledger ++
            [⟨nextExecutionId c.current.ledger, ("RUNNING"), ("DELTA"), none, none⟩] }⟩]
          ++ (evsPre ++ (evsLoop ++ evsFin)))
         ++ (evsLinks ++
          [⟨.execStmt (.updateLedgerSuccess (nextExecutionId c.current.ledger) r.1 r.2),
             c5.committed⟩,
           ⟨.commitEv, { c5.current with ledger := c5.current.ledger.map (fun row =>
              if row.executionId == nextExecutionId c.current.ledger then
                { row with status := ("SUCCESS"), recordsProcessed := some r.1, highWaterMark := r.2 }
              else row) }⟩])) from by
      rw [htr]
      simp only [List.append_assoc]]
    refine before_of_append ?_ ?_
    · intro ev hev
      rcases List.mem_append.mp hev with hm | hm
      · exact (hbLinks ev hm).2
      · simp only [List.mem_cons, List.not_mem_nil, or_false] at hm
        rcases hm with rfl | rfl
        · rfl
        · rfl
    · intro ev hev
      rcases List.mem_append.mp hev with hm | hm
      · simp only [List.mem_cons, List.not_mem_nil, or_false] at hm
        rcases hm with rfl | rfl
        · rfl
        · rfl
      rcases List.mem_append.mp hm with hm | hm
      · exact (hbPre ev hm).2.2
      rcases List.mem_append.mp hm with hm | hm
      · exact (hbLoop ev hm).2
      · exact (hbFin ev hm).2
  · -- reference integrity at every committed snapshot
    intro ev hev
    rw [htr] at hev
    rcases List.mem_append.mp hev with hm | hm
    · rcases List.mem_append.mp hm with hm | hm
      · simp only [List.mem_cons, List.not_mem_nil, or_false] at hm
        rcases hm with rfl | rfl
        · show refsDb c.committed
          rw [hcc]
          exact hrcur
        · exact refsDb_ledger hrcur
      · exact hbsnap ev hm
    · simp only [List.mem_cons, List.not_mem_nil, or_false] at hm
      rcases hm with rfl | rfl
      · exact hbcom
      · exact refsDb_ledger hbcur

/-- Witness for C5 at a one-tuple DELTA run on a fresh deployment. -/
theorem c5_load_order_witness :
    (∀ tu ∈ [orgTuple ("E1") 10 ("O1")], TupleOk tu)
    ∧ ((run_etl ("DELTA") 1000 [orgTuple ("E1") 10 ("O1")]
        (some (freshConn initDb))).2.2 = Except.ok ()
      ∧ (∀ (i j : Nat) (hi : i < (run_etl ("DELTA") 1000 [orgTuple ("E1") 10 ("O1")]
            (some (freshConn initDb))).2.1.length)
          (hj : j < (run_etl ("DELTA") 1000 [orgTuple ("E1") 10 ("O1")]
            (some (freshConn initDb))).2.1.length),
          isMasterMergeEv ((run_etl ("DELTA") 1000 [orgTuple ("E1") 10 ("O1")]
            (some (freshConn initDb))).2.1.get ⟨i, hi⟩) = true →
          isMainMergeEv ((run_etl ("DELTA") 1000 [orgTuple ("E1") 10 ("O1")]
            (some (freshConn initDb))).2.1.get ⟨j, hj⟩) = true →
          i < j)
      ∧ (∀ (i j : Nat) (hi : i < (run_etl ("DELTA") 1000 [orgTuple ("E1") 10 ("O1")]
            (some (freshConn initDb))).2.1.length)
          (hj : j < (run_etl ("DELTA") 1000 [orgTuple ("E1") 10 ("O1")]
            (some (freshConn initDb))).2.1.length),
          isMainMergeEv ((run_etl ("DELTA") 1000 [orgTuple ("E1") 10 ("O1")]
            (some (freshConn initDb))).2.1.get ⟨i, hi⟩) = true →
          isLinkEv ((run_etl ("DELTA") 1000 [orgTuple ("E1") 10 ("O1")]
            (some (freshConn initDb))).2.1.get ⟨j, hj⟩) = true →
          i < j)
      ∧ (∀ ev ∈ (run_etl ("DELTA") 1000 [orgTuple ("E1") 10 ("O1")]
          (some (freshConn initDb))).2.1, refsDb ev.committedAfter)) :=
  ⟨by decide,
   c5_load_order 1000 [orgTuple ("E1") 10 ("O1")] (freshConn initDb)
     (by decide) (by decide) rfl rfl (by decide) (by decide) (by decide) (by decide)
     (by decide) (by decide) (by decide)⟩

end PyLoadEpar
